import Mathlib

/-!
# Flow calculation of Infomap (`src/utils/FlowCalculator.cpp`)

A shallow embedding of `FlowCalculator::calculateFlow` and `FlowCalculator::finalize`, and
theorems about the node and link flows they produce.

Conventions of the embedding.

* A C++ `double` is an exact rational (`ℚ`): the development is about the arithmetic that
  the code performs, not about IEEE rounding.  Division is the total division of `ℚ`
  (`x / 0 = 0`), where IEEE arithmetic yields `inf` or `NaN`; the evaluations on concrete
  networks below reach no zero divisor.
* A `std::vector` is a `List`; `v[i]` is `v.getD i 0` and `v[i] += x` is `addAt v i x`.
* `network.nodes()` is the list of nodes in iteration order, `network.nodeLinkMap()` the list
  of links in (nested) iteration order.
* `m_nodeIndexMap` is an association list, newest binding first; `m_nodeIndexMap[id]` returns
  the bound index, or the default-constructed `0` for an id that was never bound
  (`std::map::operator[]`).
* The calculator is fresh: `m_nodeIndexMap` and `m_flowLinks` are empty when `calculateFlow`
  is entered.  Logging is left out.
-/

namespace infomap

/-! ## Data model -/

/-- The five flow models of `FlowModel`. -/
inductive FlowModel
  | undirected
  | undirdir
  | directed
  | rawdir
  | outdirdir
deriving DecidableEq, Repr

/-- The fields of `Config` read by the flow calculator.  `isUndirectedFlow` is the value
returned by `config.isUndirectedFlow()`, whose definition is in `Config.h` (outside `src/`):
it is kept as a parameter of the configuration. -/
structure Config where
  flowModel : FlowModel
  teleportationProbability : ℚ
  recordedTeleportation : Bool
  teleportToNodes : Bool
  isUndirectedFlow : Bool

/-- A node of the network: external id, teleportation weight and the flow that
`finalize` writes back. -/
structure StateNode where
  id : Nat
  weight : ℚ
  flow : ℚ
deriving DecidableEq, Repr

/-- An entry of `nodeLinkMap`: ids of the source and target node and the link data. -/
structure StateLink where
  source : Nat
  target : Nat
  weight : ℚ
  flow : ℚ
deriving DecidableEq, Repr

/-- The network handed to the calculator. -/
structure StateNetwork where
  nodes : List StateNode
  links : List StateLink
deriving DecidableEq, Repr

/-- The `Link` of the calculator: dense source and target index, and a value that is a weight
on input and a flow on output. -/
structure Link where
  source : Nat
  target : Nat
  flow : ℚ
deriving DecidableEq, Repr

def StateNetwork.numNodes (network : StateNetwork) : Nat := network.nodes.length

def StateNetwork.numLinks (network : StateNetwork) : Nat := network.links.length

/-- Modelled from the spec: `StateNetwork::sumLinkWeight` is defined outside `src/`; it is the
total weight `ΣW` of the links of the network. -/
def StateNetwork.sumLinkWeight (network : StateNetwork) : ℚ :=
  (network.links.map (fun l => l.weight)).sum

/-- Modelled from the spec: `StateNetwork::sumSelfLinkWeight` is defined outside `src/`; it is
the summed weight `ΣW_self` of the self-links, retained separately. -/
def StateNetwork.sumSelfLinkWeight (network : StateNetwork) : ℚ :=
  ((network.links.filter (fun l => l.source = l.target)).map (fun l => l.weight)).sum

/-! ## Vector helpers -/

/-- The update `v[i] = f (v[i])` of a vector. -/
def modifyAt {α : Type} (f : α → α) : List α → Nat → List α
  | [], _ => []
  | a :: v, 0 => f a :: v
  | a :: v, i + 1 => a :: modifyAt f v i

/-- The update `v[i] += x`. -/
def addAt (v : List ℚ) (i : Nat) (x : ℚ) : List ℚ := modifyAt (fun a => a + x) v i

/-! ## The calculator -/

/-- Lines 52-57: the dense index of every node id, newest binding first. -/
def buildNodeIndexMap : List StateNode → Nat → List (Nat × Nat) → List (Nat × Nat)
  | [], _, m => m
  | nd :: rest, nodeIndex, m => buildNodeIndexMap rest (nodeIndex + 1) ((nd.id, nodeIndex) :: m)

/-- The lookup `m_nodeIndexMap[id]`, which yields `0` for an unbound id. -/
def nodeIndexOf (m : List (Nat × Nat)) (id : Nat) : Nat := (m.lookup id).getD 0

/-- The state built by the loop over the links (lines 64-92). -/
structure Prep where
  nodeOutDegree : List Nat
  sumLinkOutWeight : List ℚ
  m_nodeFlow : List ℚ
  m_flowLinks : List Link
deriving DecidableEq, Repr

/-- The body of the loop over the links (lines 65-90). -/
def prepStep (config : Config) (m : List (Nat × Nat)) (sumUndirLinkWeight : ℚ)
    (p : Prep) (l : StateLink) : Prep :=
  let sourceIndex := nodeIndexOf m l.source
  let targetIndex := nodeIndexOf m l.target
  let linkWeight := l.weight
  let deg := modifyAt (fun d => d + 1) p.nodeOutDegree sourceIndex
  let sow := addAt p.sumLinkOutWeight sourceIndex linkWeight
  let nf := addAt p.m_nodeFlow sourceIndex (linkWeight / sumUndirLinkWeight)
  let fl := p.m_flowLinks ++ [Link.mk sourceIndex targetIndex linkWeight]
  if sourceIndex ≠ targetIndex then
    let deg := if config.isUndirectedFlow then modifyAt (fun d => d + 1) deg targetIndex else deg
    let sow := if config.isUndirectedFlow then addAt sow targetIndex linkWeight else sow
    let nf := if config.flowModel ≠ FlowModel.outdirdir
      then addAt nf targetIndex (linkWeight / sumUndirLinkWeight) else nf
    Prep.mk deg sow nf fl
  else
    Prep.mk deg sow nf fl

/-- Lines 44-92: the preprocessing common to all flow models. -/
def preprocess (network : StateNetwork) (config : Config) : Prep :=
  let numNodes := network.numNodes
  let m := buildNodeIndexMap network.nodes 0 []
  let sumLinkWeight := network.sumLinkWeight
  let sumUndirLinkWeight := 2 * sumLinkWeight - network.sumSelfLinkWeight
  network.links.foldl (prepStep config m sumUndirLinkWeight)
    (Prep.mk (List.replicate numNodes 0) (List.replicate numNodes 0)
      (List.replicate numNodes 0) [])

/-- The members of the calculator that `finalize` reads. -/
structure FlowCalculator where
  m_nodeFlow : List ℚ
  m_nodeTeleportRates : List ℚ
  m_flowLinks : List Link
deriving DecidableEq, Repr

/-- Lines 306-313: the optional normalisation of the node flow in `finalize`. -/
def normalizeFlow (normalizeNodeFlow : Bool) (nodeFlow : List ℚ) : List ℚ :=
  if normalizeNodeFlow then
    let sumNodeFlow := nodeFlow.sum
    nodeFlow.map (fun x => x / sumNodeFlow)
  else nodeFlow

/-- Lines 317-324: node `nodeIndex` of the iteration receives `m_nodeFlow[nodeIndex]`. -/
def writeNodes : List StateNode → Nat → List ℚ → List StateNode
  | [], _, _ => []
  | nd :: rest, nodeIndex, nodeFlow =>
      { nd with flow := nodeFlow.getD nodeIndex 0 } :: writeNodes rest (nodeIndex + 1) nodeFlow

/-- Lines 326-336: link `linkIndex` of the iteration receives `m_flowLinks[linkIndex].flow`. -/
def writeLinks : List StateLink → Nat → List Link → List StateLink
  | [], _, _ => []
  | l :: rest, linkIndex, flowLinks =>
      { l with flow := ((flowLinks.map (fun k => k.flow)).getD linkIndex 0) } ::
        writeLinks rest (linkIndex + 1) flowLinks

/-- The function `FlowCalculator::finalize`: the calculator after the optional normalisation,
and the network with the flows written back. -/
def finalize (network : StateNetwork) (fc : FlowCalculator) (normalizeNodeFlow : Bool) :
    FlowCalculator × StateNetwork :=
  let nodeFlow := normalizeFlow normalizeNodeFlow fc.m_nodeFlow
  ({ fc with m_nodeFlow := nodeFlow },
   StateNetwork.mk (writeNodes network.nodes 0 nodeFlow) (writeLinks network.links 0 fc.m_flowLinks))

/-- Lines 98-103: the `rawdir` loop over the links. -/
def rawdirStep (sumLinkWeight : ℚ) (acc : List ℚ × List Link) (link : Link) :
    List ℚ × List Link :=
  let flow := link.flow / sumLinkWeight
  (addAt acc.1 link.target flow, acc.2 ++ [Link.mk link.source link.target flow])

/-- Lines 125-129: the power iteration of `undirdir` and `outdirdir`. -/
def dirStep (nodeFlowSteadyState sumLinkOutWeight : List ℚ) (nodeFlow : List ℚ) (link : Link) :
    List ℚ :=
  addAt nodeFlow link.target
    (nodeFlowSteadyState.getD link.source 0 * link.flow / sumLinkOutWeight.getD link.source 0)

/-- Lines 134-138: the link update of `undirdir` and `outdirdir`. -/
def dirLink (nodeFlowSteadyState sumLinkOutWeight : List ℚ) (sumNodeFlow : ℚ) (link : Link) :
    Link :=
  { link with flow := link.flow *
      (nodeFlowSteadyState.getD link.source 0 / sumLinkOutWeight.getD link.source 0 / sumNodeFlow) }

/-- Lines 155-175: the teleport rate distribution. -/
def teleportRates (network : StateNetwork) (config : Config) (m : List (Nat × Nat))
    (flowLinks : List Link) : List ℚ :=
  let numNodes := network.numNodes
  if config.teleportToNodes then
    let rates := network.nodes.foldl
      (fun r nd => modifyAt (fun _ => nd.weight) r (nodeIndexOf m nd.id)) (List.replicate numNodes 0)
    let sumNodeWeights := (network.nodes.map (fun nd => nd.weight)).sum
    rates.map (fun w => w / sumNodeWeights)
  else
    flowLinks.foldl
      (fun r link =>
        addAt r (if config.recordedTeleportation then link.target else link.source)
          (link.flow / network.sumLinkWeight))
      (List.replicate numNodes 0)

/-- Lines 179-184: the links normalised by the out-weight of their source. -/
def normalizeLink (sumLinkOutWeight : List ℚ) (link : Link) : Link :=
  if 0 < sumLinkOutWeight.getD link.source 0 then
    { link with flow := link.flow / sumLinkOutWeight.getD link.source 0 }
  else link

/-- Lines 187-192: the nodes without out-links. -/
def collectDanglings (nodeOutDegree : List Nat) (numNodes : Nat) : List Nat :=
  (List.range numNodes).filter (fun i => nodeOutDegree.getD i 0 = 0)

/-- Lines 204-208: the flow on the dangling nodes. -/
def danglingRankOf (danglings : List Nat) (nodeFlow : List ℚ) : ℚ :=
  (danglings.map (fun i => nodeFlow.getD i 0)).sum

/-- The variables of the PageRank loop (lines 195-200). -/
structure PageRank where
  m_nodeFlow : List ℚ
  nodeFlowTmp : List ℚ
  numIterations : Nat
  alpha : ℚ
  beta : ℚ
  sqdiff : ℚ
  danglingRank : ℚ
deriving DecidableEq, Repr

/-- One execution of the body of the `do ... while` loop (lines 203-251). -/
def pageRankStep (rates : List ℚ) (flowLinks : List Link) (danglings : List Nat)
    (s : PageRank) : PageRank :=
  let danglingRank := danglingRankOf danglings s.m_nodeFlow
  let teleported := rates.map (fun r => (s.alpha + s.beta * danglingRank) * r)
  let nodeFlowTmp := flowLinks.foldl
    (fun tmp link => addAt tmp link.target (s.beta * link.flow * s.m_nodeFlow.getD link.source 0))
    teleported
  let sum := nodeFlowTmp.sum
  let sqdiff_old := s.sqdiff
  let sqdiff := (List.zipWith (fun a b => |a - b|) nodeFlowTmp s.m_nodeFlow).sum
  let nodeFlow := if |sum - 1| > 1 / 10 ^ 10 then nodeFlowTmp.map (fun x => x / sum)
    else nodeFlowTmp
  let alpha := if sqdiff = sqdiff_old then s.alpha + 1 / 10 ^ 10 else s.alpha
  let beta := if sqdiff = sqdiff_old then 1 - alpha else s.beta
  PageRank.mk nodeFlow nodeFlowTmp (s.numIterations + 1) alpha beta sqdiff danglingRank

/-- The loop condition of line 252. -/
def pageRankContinue (s : PageRank) : Bool :=
  decide (s.numIterations < 200) && (decide (s.sqdiff > 1 / 10 ^ 15) || decide (s.numIterations < 50))

/-- The `do ... while` loop of lines 201-252, with a bound on the number of executions of the
body; `none` means that the bound was reached while the loop condition still held. -/
def pageRankLoop (rates : List ℚ) (flowLinks : List Link) (danglings : List Nat) :
    Nat → PageRank → Option PageRank
  | 0, _ => none
  | fuel + 1, s =>
      let s1 := pageRankStep rates flowLinks danglings s
      if pageRankContinue s1 then pageRankLoop rates flowLinks danglings fuel s1 else some s1

/-- The variables of the PageRank loop on entry (lines 195-200). -/
def pageRankInit (numNodes : Nat) (nodeFlow : List ℚ) (config : Config) : PageRank :=
  PageRank.mk nodeFlow (List.replicate numNodes 0) 0 config.teleportationProbability
    (1 - config.teleportationProbability) 1 0

/-- Lines 254-274: the correction for unrecorded teleportation and the rescaling of the
links to their global flow. -/
def afterPageRank (config : Config) (numNodes : Nat) (flowLinks : List Link) (s : PageRank) :
    List ℚ × List Link :=
  if config.recordedTeleportation then
    (s.m_nodeFlow,
     flowLinks.map (fun link =>
       { link with flow := link.flow * (s.beta * s.nodeFlowTmp.getD link.source 0 / 1) }))
  else
    let sumNodeRank := 1 - s.danglingRank
    let nodeFlow := flowLinks.foldl
      (fun nf link =>
        addAt nf link.target (link.flow * s.nodeFlowTmp.getD link.source 0 / sumNodeRank))
      (List.replicate numNodes 0)
    (nodeFlow,
     flowLinks.map (fun link =>
       { link with flow := link.flow * (1 * s.nodeFlowTmp.getD link.source 0 / sumNodeRank) }))

/-- The teleport distribution of the directed model for a network (lines 154-175). -/
def directedRates (network : StateNetwork) (config : Config) : List ℚ :=
  teleportRates network config (buildNodeIndexMap network.nodes 0 [])
    (preprocess network config).m_flowLinks

/-- The links of the directed model, normalised by the out-weight of their source
(lines 177-184). -/
def directedLinks (network : StateNetwork) (config : Config) : List Link :=
  (preprocess network config).m_flowLinks.map
    (normalizeLink (preprocess network config).sumLinkOutWeight)

/-- The dangling nodes of the directed model (lines 186-192). -/
def directedDanglings (network : StateNetwork) (config : Config) : List Nat :=
  collectDanglings (preprocess network config).nodeOutDegree network.numNodes

/-- The variables of the PageRank loop on entry, for a network. -/
def directedInit (network : StateNetwork) (config : Config) : PageRank :=
  pageRankInit network.numNodes (preprocess network config).m_nodeFlow config

/-- The body of the PageRank loop for a network. -/
def directedStep (network : StateNetwork) (config : Config) (s : PageRank) : PageRank :=
  pageRankStep (directedRates network config) (directedLinks network config)
    (directedDanglings network config) s

/-- The variables of the PageRank loop on exit (line 252).  The bound of 200 executions of
the body is never exhausted: the loop condition fails at iteration 200 at the latest. -/
def directedResult (network : StateNetwork) (config : Config) : PageRank :=
  (pageRankLoop (directedRates network config) (directedLinks network config)
    (directedDanglings network config) 200 (directedInit network config)).getD
    (directedInit network config)

/-- The calculator as `calculateFlow` leaves it, and the network with the flows written
back by `finalize`. -/
def calculateFlowFull (network : StateNetwork) (config : Config) :
    FlowCalculator × StateNetwork :=
  let numNodes := network.numNodes
  let sumLinkWeight := network.sumLinkWeight
  let sumUndirLinkWeight := 2 * sumLinkWeight - network.sumSelfLinkWeight
  let p := preprocess network config
  let noRates : List ℚ := List.replicate numNodes 0
  if config.flowModel = FlowModel.rawdir then
    let r := p.m_flowLinks.foldl (rawdirStep sumLinkWeight) (List.replicate numNodes 0, [])
    finalize network (FlowCalculator.mk r.1 noRates r.2) true
  else if config.flowModel ≠ FlowModel.directed then
    if config.flowModel = FlowModel.undirdir ∨ config.flowModel = FlowModel.outdirdir then
      let nodeFlowSteadyState := p.m_nodeFlow
      let nodeFlow := p.m_flowLinks.foldl (dirStep nodeFlowSteadyState p.sumLinkOutWeight)
        (List.replicate numNodes 0)
      let sumNodeFlow := nodeFlow.sum
      let flowLinks := p.m_flowLinks.map (dirLink nodeFlowSteadyState p.sumLinkOutWeight sumNodeFlow)
      finalize network (FlowCalculator.mk nodeFlow noRates flowLinks) true
    else
      let flowLinks := p.m_flowLinks.map
        (fun link => { link with flow := link.flow / (sumUndirLinkWeight / 2) })
      finalize network (FlowCalculator.mk p.m_nodeFlow noRates flowLinks) false
  else
    let r := afterPageRank config numNodes (directedLinks network config)
      (directedResult network config)
    finalize network (FlowCalculator.mk r.1 (directedRates network config) r.2) false

/-- The network after `FlowCalculator::calculateFlow`. -/
def calculateFlow (network : StateNetwork) (config : Config) : StateNetwork :=
  (calculateFlowFull network config).2

/-- The node flows of a network, in iteration order. -/
def nodeFlows (network : StateNetwork) : List ℚ := network.nodes.map (fun nd => nd.flow)

/-- The link flows of a network, in iteration order. -/
def linkFlows (network : StateNetwork) : List ℚ := network.links.map (fun l => l.flow)

/-! ## Vocabulary of the statements -/

/-- The ids of the nodes, in iteration order. -/
def StateNetwork.ids (network : StateNetwork) : List Nat := network.nodes.map (fun nd => nd.id)

/-- The dense index that the calculator gives to an id (lines 66 and 72). -/
def StateNetwork.indexOf (network : StateNetwork) (id : Nat) : Nat :=
  nodeIndexOf (buildNodeIndexMap network.nodes 0 []) id

/-- The link of the calculator built from a link of the network (line 78). -/
def StateNetwork.toLink (network : StateNetwork) (l : StateLink) : Link :=
  Link.mk (network.indexOf l.source) (network.indexOf l.target) l.weight

/-- Well-formed input: the node ids are distinct and every link names nodes of the network. -/
def StateNetwork.WellFormed (network : StateNetwork) : Prop :=
  network.ids.Nodup ∧ ∀ l ∈ network.links, l.source ∈ network.ids ∧ l.target ∈ network.ids

instance StateNetwork.decidableWellFormed (network : StateNetwork) :
    Decidable network.WellFormed := by
  unfold StateNetwork.WellFormed
  infer_instance

/-- The total weight of the links into the node `id`. -/
def StateNetwork.inWeight (network : StateNetwork) (id : Nat) : ℚ :=
  ((network.links.filter (fun l => l.target = id)).map (fun l => l.weight)).sum

/-- The total weight of the links out of the node `id`. -/
def StateNetwork.outWeight (network : StateNetwork) (id : Nat) : ℚ :=
  ((network.links.filter (fun l => l.source = id)).map (fun l => l.weight)).sum

/-- The total weight of the links incident to the node `id`, a self-link counted once. -/
def StateNetwork.incidentWeight (network : StateNetwork) (id : Nat) : ℚ :=
  ((network.links.filter (fun l => l.source = id ∨ l.target = id)).map (fun l => l.weight)).sum

/-- The symmetrised total weight `2·ΣW − ΣW_self` (line 62). -/
def StateNetwork.sumUndirLinkWeight (network : StateNetwork) : ℚ :=
  2 * network.sumLinkWeight - network.sumSelfLinkWeight

/-! ## Networks and configurations of the scenarios -/

/-- The triangle `0→1, 1→2, 2→0` with unit weights. -/
def triangle : StateNetwork :=
  StateNetwork.mk [StateNode.mk 0 1 0, StateNode.mk 1 1 0, StateNode.mk 2 1 0]
    [StateLink.mk 0 1 1 0, StateLink.mk 1 2 1 0, StateLink.mk 2 0 1 0]

/-- Two nodes joined by one link of weight 1. -/
def twoNodes : StateNetwork :=
  StateNetwork.mk [StateNode.mk 0 1 0, StateNode.mk 1 1 0] [StateLink.mk 0 1 1 0]

/-- One node with a self-link of weight 1. -/
def selfLoop : StateNetwork :=
  StateNetwork.mk [StateNode.mk 0 1 0] [StateLink.mk 0 0 1 0]

/-- Two nodes with the node weights 19 and 1, joined by one link of weight 1. -/
def weightedPair : StateNetwork :=
  StateNetwork.mk [StateNode.mk 0 19 0, StateNode.mk 1 1 0] [StateLink.mk 0 1 1 0]

/-- Three nodes with the links `0→1` of weight 1 and `2→1` of weight 0. -/
def zeroLink : StateNetwork :=
  StateNetwork.mk [StateNode.mk 0 1 0, StateNode.mk 1 1 0, StateNode.mk 2 1 0]
    [StateLink.mk 0 1 1 0, StateLink.mk 2 1 0 0]

/-- The network without nodes and links. -/
def emptyNetwork : StateNetwork := StateNetwork.mk [] []

/-- A configuration with the default teleportation settings for a flow model, the directed
models not being undirected-flow models. -/
def defaultConfig (flowModel : FlowModel) : Config :=
  Config.mk flowModel (15 / 100) true false
    (decide (flowModel = FlowModel.undirected ∨ flowModel = FlowModel.undirdir))

/-- The directed model with a given teleportation probability and teleportation settings. -/
def directedConfig (alpha : ℚ) (recorded toNodes : Bool) : Config :=
  Config.mk FlowModel.directed alpha recorded toNodes false

/-- The network in which link number `k` is reversed: `(s,t,w)` becomes `(t,s,w)`. -/
def reverseLinkAt (network : StateNetwork) (k : Nat) : StateNetwork :=
  StateNetwork.mk network.nodes
    (modifyAt (fun l => StateLink.mk l.target l.source l.weight l.flow) network.links k)

/-- The total weight of the nodes (line 161). -/
def StateNetwork.sumNodeWeight (network : StateNetwork) : ℚ :=
  (network.nodes.map (fun nd => nd.weight)).sum

/-- The teleport rate distribution that `calculateFlow` leaves in the calculator. -/
def nodeTeleportRates (network : StateNetwork) (config : Config) : List ℚ :=
  (calculateFlowFull network config).1.m_nodeTeleportRates

/-- The hypotheses under which the initial flow is stationary: the directed model with
recorded teleportation to links, on a well-formed network without self-links, with positive
weights, in which every node has equal in- and out-weight. -/
structure Balanced (network : StateNetwork) (config : Config) : Prop where
  directed : config.flowModel = FlowModel.directed
  toLinks : config.teleportToNodes = false
  recorded : config.recordedTeleportation = true
  notUndirected : config.isUndirectedFlow = false
  wellFormed : network.WellFormed
  noSelf : ∀ l ∈ network.links, l.source ≠ l.target
  positive : ∀ l ∈ network.links, 0 < l.weight
  balanced : ∀ nd ∈ network.nodes, network.inWeight nd.id = network.outWeight nd.id

/-- The total flow of the links into the node `id`. -/
def StateNetwork.inFlow (network : StateNetwork) (id : Nat) : ℚ :=
  ((network.links.filter (fun l => l.target = id)).map (fun l => l.flow)).sum

/-- The flow that the `undirdir` and `outdirdir` step sends along a link, before it is
normalised: `steady[s]·w/sumLinkOutWeight[s]` (line 128). -/
def steadyShare (network : StateNetwork) (config : Config) (l : StateLink) : ℚ :=
  (preprocess network config).m_nodeFlow.getD (network.indexOf l.source) 0 * l.weight /
    (preprocess network config).sumLinkOutWeight.getD (network.indexOf l.source) 0

/-- The hypotheses under which the power iteration of the directed model conserves the
flow: a well-formed network with at least one link and positive link weights, a teleport
distribution that is non-negative and sums to 1, targets not credited with out-weight, and
a teleportation probability `α ≥ 0` that stays at most 1 under 200 perturbations. -/
structure DirectedSetting (network : StateNetwork) (config : Config) : Prop where
  directed : config.flowModel = FlowModel.directed
  notUndirected : config.isUndirectedFlow = false
  wellFormed : network.WellFormed
  positive : ∀ l ∈ network.links, 0 < l.weight
  nonempty : network.links ≠ []
  rates_nonneg : ∀ x ∈ directedRates network config, 0 ≤ x
  rates_sum : (directedRates network config).sum = 1
  alpha_nonneg : 0 ≤ config.teleportationProbability
  alpha_le : config.teleportationProbability + 200 / 10 ^ 10 ≤ 1

/-- The invariant of the PageRank loop in a `DirectedSetting`: the node flow is a
distribution, `alpha + beta = 1`, and `alpha` has grown by at most `1e-10` per
iteration. -/
structure FlowInv (network : StateNetwork) (config : Config) (s : PageRank) : Prop where
  length : s.m_nodeFlow.length = network.numNodes
  nonneg : ∀ x ∈ s.m_nodeFlow, 0 ≤ x
  sum : s.m_nodeFlow.sum = 1
  tmp_nonneg : ∀ x ∈ s.nodeFlowTmp, 0 ≤ x
  alpha_beta : s.alpha + s.beta = 1
  alpha_nonneg : 0 ≤ s.alpha
  alpha_le : s.alpha ≤ config.teleportationProbability + s.numIterations / 10 ^ 10

/-- The hypotheses under which the power iteration of the directed model conserves the
flow for every teleportation probability in `[0, 1]`: a well-formed network with
non-negative link weights of positive total in which every node with out-links has a
positive out-weight, a teleport distribution that is non-negative and sums to 1, and
targets not credited with out-weight. -/
structure ConservingSetting (network : StateNetwork) (config : Config) : Prop where
  directed : config.flowModel = FlowModel.directed
  notUndirected : config.isUndirectedFlow = false
  wellFormed : network.WellFormed
  nonneg : ∀ l ∈ network.links, 0 ≤ l.weight
  positive : 0 < network.sumLinkWeight
  outWeight : ∀ j, j < network.numNodes →
    0 < (preprocess network config).nodeOutDegree.getD j 0 →
    0 < (preprocess network config).sumLinkOutWeight.getD j 0
  rates_nonneg : ∀ x ∈ directedRates network config, 0 ≤ x
  rates_sum : (directedRates network config).sum = 1
  alpha_nonneg : 0 ≤ config.teleportationProbability
  alpha_le : config.teleportationProbability ≤ 1

/-- The invariant of the PageRank loop in a `ConservingSetting`: the node flow has total 1
and total absolute value at most 2, it is non-negative as long as `beta` is,
`alpha + beta = 1`, and `alpha` has grown by at most `1e-10` per iteration. -/
structure BoundedInv (network : StateNetwork) (config : Config) (s : PageRank) : Prop where
  length : s.m_nodeFlow.length = network.numNodes
  sum : s.m_nodeFlow.sum = 1
  abs_le : (s.m_nodeFlow.map (fun x => |x|)).sum ≤ 2
  nonneg : 0 ≤ s.beta → ∀ x ∈ s.m_nodeFlow, 0 ≤ x
  alpha_beta : s.alpha + s.beta = 1
  alpha_ge : config.teleportationProbability ≤ s.alpha
  alpha_le : s.alpha ≤ config.teleportationProbability + s.numIterations / 10 ^ 10

/-- The final flow of a link under unrecorded teleportation (lines 182 and 273). -/
def unrecordedLinkFlow (network : StateNetwork) (config : Config) (l : StateLink) : ℚ :=
  (normalizeLink (preprocess network config).sumLinkOutWeight (network.toLink l)).flow *
    (directedResult network config).nodeFlowTmp.getD (network.indexOf l.source) 0 /
    (1 - (directedResult network config).danglingRank)

/-- Modelled from the spec: the error kinds of flow calculation listed in the spec.  The
source declares no error type. -/
inductive FlowError
  | EmptyFlow
  | DivergedPageRank
  | Aborted
  | InvalidConfig
deriving DecidableEq, Repr

/-- The outcome of a call of `calculateFlow`.  The function returns `void` and its three
exits (lines 108, 147 and 278) are plain returns after `finalize`: it contains no `throw`,
no error code and no check of the input, so every call ends normally with the flows
written back. -/
def calculateFlowOutcome (network : StateNetwork) (config : Config) :
    Except FlowError StateNetwork :=
  Except.ok (calculateFlow network config)

/-- One node without links. -/
def oneNode : StateNetwork := StateNetwork.mk [StateNode.mk 0 1 0] []

/-- Two nodes with the ids 5 and 7 and a link from 7 to the id 9, which names no node. -/
def strayLink : StateNetwork :=
  StateNetwork.mk [StateNode.mk 5 1 0, StateNode.mk 7 1 0] [StateLink.mk 7 9 1 0]

/-- The path `0→1, 1→2` with unit weights; node 2 is dangling. -/
def pathNetwork : StateNetwork :=
  StateNetwork.mk [StateNode.mk 0 1 0, StateNode.mk 1 1 0, StateNode.mk 2 1 0]
    [StateLink.mk 0 1 1 0, StateLink.mk 1 2 1 0]

/-- The number of executions of the loop body, among the first `n` started in `s`, whose
`sqdiff` equals the `sqdiff` before it (line 245): the executions that perturb `alpha`. -/
def perturbCount (step : PageRank → PageRank) (s : PageRank) : Nat → Nat
  | 0 => 0
  | n + 1 => perturbCount step s n +
      (if (step^[n + 1] s).sqdiff = (step^[n] s).sqdiff then 1 else 0)

/-- Two nodes with the links `0→1` of weight 1 and `1→0` of weight 0: node 1 has an
out-link and no out-weight. -/
def zeroReturn : StateNetwork :=
  StateNetwork.mk [StateNode.mk 0 1 0, StateNode.mk 1 1 0]
    [StateLink.mk 0 1 1 0, StateLink.mk 1 0 0 0]

/-- The network with every link weight multiplied by `c`. -/
def scaleWeights (c : ℚ) (network : StateNetwork) : StateNetwork :=
  StateNetwork.mk network.nodes
    (network.links.map (fun l => StateLink.mk l.source l.target (c * l.weight) l.flow))

/-- A link of the calculator with its flow multiplied by `c`. -/
def scaleLink (c : ℚ) (link : Link) : Link := Link.mk link.source link.target (c * link.flow)

/-- The state of the preprocessing with the out-weights and the link weights multiplied by
`c`. -/
def scalePrep (c : ℚ) (p : Prep) : Prep :=
  Prep.mk p.nodeOutDegree (p.sumLinkOutWeight.map (fun x => c * x)) p.m_nodeFlow
    (p.m_flowLinks.map (scaleLink c))

/-- Two nodes with the ids 5 and 7, in this order, and the link `7→5` of weight 1. -/
def sparseIds : StateNetwork :=
  StateNetwork.mk [StateNode.mk 5 1 0, StateNode.mk 7 1 0] [StateLink.mk 7 5 1 0]

/-! ## The map equation of the memory variant -/

/-- The member variables of `MapEquation` that `GrassbergerMapEquation` brings into scope
(`GrassbergerMapEquation.h`, lines 142-164): the three codelengths and the terms they are
computed from. -/
structure GrassbergerMapEquation where
  codelength : ℚ
  indexCodelength : ℚ
  moduleCodelength : ℚ
  nodeFlow_log_nodeFlow : ℚ
  flow_log_flow : ℚ
  exit_log_exit : ℚ
  enter_log_enter : ℚ
  enterFlow : ℚ
  enterFlow_log_enterFlow : ℚ
  exitNetworkFlow : ℚ
  exitNetworkFlow_log_exitNetworkFlow : ℚ
deriving DecidableEq, Repr

/-- What a call of `addMemoryContributions` can write to: the map equation and the three
reference arguments.  `InfoNode`, `DeltaFlow` and `VectorMap` are declared outside `src/`
and are parameters. -/
structure MemoryCall (InfoNode DeltaFlow : Type) (VectorMap : Type → Type) where
  mapEquation : GrassbergerMapEquation
  current : InfoNode
  oldModuleDelta : DeltaFlow
  moduleDeltaFlow : VectorMap DeltaFlow

/-- The function `GrassbergerMapEquation::addMemoryContributions` (line 84), whose body is
empty: the state after the call. -/
def GrassbergerMapEquation.addMemoryContributions {InfoNode DeltaFlow : Type}
    {VectorMap : Type → Type} (mapEquation : GrassbergerMapEquation) (current : InfoNode)
    (oldModuleDelta : DeltaFlow) (moduleDeltaFlow : VectorMap DeltaFlow) :
    MemoryCall InfoNode DeltaFlow VectorMap :=
  MemoryCall.mk mapEquation current oldModuleDelta moduleDeltaFlow

end infomap

namespace infomap

/-! ## Vectors -/

theorem length_modifyAt {α : Type} (f : α → α) (v : List α) (i : Nat) :
    (modifyAt f v i).length = v.length := by
  induction v generalizing i with
  | nil => rfl
  | cons a v ih => cases i <;> simp [modifyAt, ih]

theorem getD_modifyAt {α : Type} (f : α → α) (v : List α) (i j : Nat) (d : α) :
    (modifyAt f v i).getD j d = if j = i ∧ i < v.length then f (v.getD j d) else v.getD j d := by
  induction v generalizing i j with
  | nil => simp [modifyAt]
  | cons a v ih =>
    cases i with
    | zero => cases j <;> simp [modifyAt]
    | succ i =>
      cases j with
      | zero => simp [modifyAt]
      | succ j =>
        simp only [modifyAt, List.getD_cons_succ, ih, List.length_cons]
        simp

theorem length_addAt (v : List ℚ) (i : Nat) (x : ℚ) : (addAt v i x).length = v.length :=
  length_modifyAt _ v i

theorem getD_addAt (v : List ℚ) (i j : Nat) (x : ℚ) :
    (addAt v i x).getD j 0 = v.getD j 0 + (if j = i ∧ i < v.length then x else 0) := by
  unfold addAt
  rw [getD_modifyAt]
  split <;> simp

theorem sum_addAt (v : List ℚ) (i : Nat) (x : ℚ) :
    (addAt v i x).sum = v.sum + (if i < v.length then x else 0) := by
  unfold addAt
  induction v generalizing i with
  | nil => simp [modifyAt]
  | cons a v ih =>
    cases i with
    | zero => simp [modifyAt]; ring
    | succ i => simp [modifyAt, ih]; ring

/-- A vector is determined by its length and its entries. -/
theorem ext_getD {v w : List ℚ} (hl : v.length = w.length)
    (h : ∀ j, j < v.length → v.getD j 0 = w.getD j 0) : v = w := by
  apply List.ext_getElem hl
  intro j h1 h2
  have := h j h1
  simpa [List.getD_eq_getElem, h1, h2] using this

theorem getD_replicate_zero (n j : Nat) : (List.replicate n (0 : ℚ)).getD j 0 = 0 := by
  by_cases h : j < n
  · simp [List.getD_eq_getElem, h]
  · simp [List.getD_eq_default, not_lt.mp h]

/-- The scatter loop `for b in xs: v[g b] += h b`. -/
theorem foldl_addAt_length {β : Type} (g : β → Nat) (h : β → ℚ) (xs : List β) (v : List ℚ) :
    (xs.foldl (fun v b => addAt v (g b) (h b)) v).length = v.length := by
  induction xs generalizing v with
  | nil => rfl
  | cons b xs ih => simp [ih, length_addAt]

theorem foldl_addAt_getD {β : Type} (g : β → Nat) (h : β → ℚ) (xs : List β) (v : List ℚ)
    (j : Nat) (hj : j < v.length) :
    (xs.foldl (fun v b => addAt v (g b) (h b)) v).getD j 0 =
      v.getD j 0 + (xs.map (fun b => if g b = j then h b else 0)).sum := by
  induction xs generalizing v with
  | nil => simp
  | cons b xs ih =>
    simp only [List.foldl_cons, List.map_cons, List.sum_cons]
    rw [ih _ (by rw [length_addAt]; exact hj), getD_addAt]
    by_cases hb : g b = j
    · subst hb; simp [hj]; ring
    · have : ¬ (j = g b) := fun e => hb e.symm
      simp [hb, this]

theorem foldl_addAt_sum {β : Type} (g : β → Nat) (h : β → ℚ) (xs : List β) (v : List ℚ) :
    (xs.foldl (fun v b => addAt v (g b) (h b)) v).sum =
      v.sum + (xs.map (fun b => if g b < v.length then h b else 0)).sum := by
  induction xs generalizing v with
  | nil => simp
  | cons b xs ih =>
    simp only [List.foldl_cons, List.map_cons, List.sum_cons]
    rw [ih, sum_addAt, length_addAt]
    ring

theorem sum_map_ite_eq_filter {β : Type} (p : β → Prop) [DecidablePred p] (h : β → ℚ)
    (xs : List β) :
    (xs.map (fun b => if p b then h b else 0)).sum = ((xs.filter (fun b => p b)).map h).sum := by
  induction xs with
  | nil => rfl
  | cons b xs ih =>
    by_cases hb : p b <;> simp [List.filter_cons, hb, ih]

/-! ## The index map -/

theorem buildNodeIndexMap_bound (nodes : List StateNode) (k : Nat) (m : List (Nat × Nat))
    (hm : ∀ p ∈ m, p.2 < k) :
    ∀ p ∈ buildNodeIndexMap nodes k m, p.2 < k + nodes.length := by
  induction nodes generalizing k m with
  | nil => simpa [buildNodeIndexMap] using hm
  | cons nd rest ih =>
    intro p hp
    have := ih (k + 1) ((nd.id, k) :: m) (by
      intro q hq
      rcases List.mem_cons.mp hq with rfl | hq
      · simp
      · exact Nat.lt_succ_of_lt (hm q hq)) p hp
    simp only [List.length_cons]
    omega

theorem lookup_mem {m : List (Nat × Nat)} {id v : Nat} (h : m.lookup id = some v) :
    (id, v) ∈ m := by
  induction m with
  | nil => simp at h
  | cons p m ih =>
    obtain ⟨a, b⟩ := p
    by_cases hab : id = a
    · subst hab
      simp [List.lookup_cons] at h
      simp [h]
    · have hne : (id == a) = false := by simpa using hab
      rw [List.lookup_cons, hne] at h
      exact List.mem_cons_of_mem _ (ih h)

/-- Every dense index is below the number of nodes, also the default index of an unbound id. -/
theorem indexOf_lt (network : StateNetwork) (id : Nat) (h : 0 < network.numNodes) :
    network.indexOf id < network.numNodes := by
  unfold StateNetwork.indexOf nodeIndexOf
  cases hl : (buildNodeIndexMap network.nodes 0 []).lookup id with
  | none => simpa using h
  | some v =>
    have := buildNodeIndexMap_bound network.nodes 0 [] (by simp) _ (lookup_mem hl)
    simpa [StateNetwork.numNodes] using this

theorem lookup_build_not_mem (nodes : List StateNode) (k : Nat) (m : List (Nat × Nat)) (id : Nat)
    (h : id ∉ nodes.map (fun nd => nd.id)) :
    (buildNodeIndexMap nodes k m).lookup id = m.lookup id := by
  induction nodes generalizing k m with
  | nil => rfl
  | cons nd rest ih =>
    simp only [List.map_cons, List.mem_cons, not_or] at h
    rw [buildNodeIndexMap, ih _ _ h.2, List.lookup_cons]
    have : (id == nd.id) = false := by simpa using h.1
    rw [this]

theorem lookup_build_getElem (nodes : List StateNode) (k : Nat) (m : List (Nat × Nat))
    (hn : (nodes.map (fun nd => nd.id)).Nodup) (i : Nat) (hi : i < nodes.length) :
    (buildNodeIndexMap nodes k m).lookup (nodes[i]).id = some (k + i) := by
  induction nodes generalizing k m i with
  | nil => simp at hi
  | cons nd rest ih =>
    simp only [List.map_cons, List.nodup_cons] at hn
    cases i with
    | zero =>
      simp only [List.getElem_cons_zero, buildNodeIndexMap]
      rw [lookup_build_not_mem _ _ _ _ hn.1]
      simp [List.lookup_cons]
    | succ i =>
      simp only [List.getElem_cons_succ, buildNodeIndexMap]
      rw [ih _ _ hn.2 i (by simpa using hi)]
      congr 1
      omega

/-- With distinct ids, the node at position `i` has dense index `i`. -/
theorem indexOf_getElem (network : StateNetwork) (hn : network.ids.Nodup) (i : Nat)
    (hi : i < network.nodes.length) : network.indexOf (network.nodes[i]).id = i := by
  unfold StateNetwork.indexOf nodeIndexOf
  rw [lookup_build_getElem _ _ _ hn i hi]
  simp

/-- With distinct ids, an id of the network has dense index `i` exactly when it is the id of
the node at position `i`. -/
theorem indexOf_eq_iff (network : StateNetwork) (hn : network.ids.Nodup) (id : Nat)
    (hid : id ∈ network.ids) (i : Nat) (hi : i < network.nodes.length) :
    network.indexOf id = i ↔ id = (network.nodes[i]).id := by
  obtain ⟨j, hj, rfl⟩ := List.getElem_of_mem hid
  have hj2 : j < network.nodes.length := by simpa [StateNetwork.ids] using hj
  have e : network.ids[j] = (network.nodes[j]).id := by simp [StateNetwork.ids]
  rw [e, indexOf_getElem network hn j hj2]
  constructor
  · rintro rfl; rfl
  · intro h
    have hi2 : i < network.ids.length := by simpa [StateNetwork.ids] using hi
    have h2 : network.ids[j] = network.ids[i] := by
      simpa [StateNetwork.ids] using h
    exact (List.Nodup.getElem_inj_iff hn).mp h2

/-- In a well-formed network, ids are equal exactly when their dense indices are. -/
theorem indexOf_inj (network : StateNetwork) (hn : network.ids.Nodup) (a b : Nat)
    (ha : a ∈ network.ids) (hb : b ∈ network.ids) :
    network.indexOf a = network.indexOf b ↔ a = b := by
  obtain ⟨j, hj, rfl⟩ := List.getElem_of_mem hb
  have hj2 : j < network.nodes.length := by simpa [StateNetwork.ids] using hj
  have e : network.ids[j] = (network.nodes[j]).id := by simp [StateNetwork.ids]
  rw [e, indexOf_getElem network hn j hj2]
  exact indexOf_eq_iff network hn a ha j hj2

end infomap

namespace infomap

/-! ## The loop over the links -/

theorem prepStep_flowLinks (config : Config) (m : List (Nat × Nat)) (S : ℚ) (p : Prep)
    (l : StateLink) :
    (prepStep config m S p l).m_flowLinks =
      p.m_flowLinks ++ [Link.mk (nodeIndexOf m l.source) (nodeIndexOf m l.target) l.weight] := by
  unfold prepStep
  by_cases h : nodeIndexOf m l.source = nodeIndexOf m l.target <;> simp [h]

theorem prepStep_nodeFlow (config : Config) (m : List (Nat × Nat)) (S : ℚ) (p : Prep)
    (l : StateLink) :
    (prepStep config m S p l).m_nodeFlow =
      if nodeIndexOf m l.source ≠ nodeIndexOf m l.target ∧ config.flowModel ≠ FlowModel.outdirdir
      then addAt (addAt p.m_nodeFlow (nodeIndexOf m l.source) (l.weight / S))
        (nodeIndexOf m l.target) (l.weight / S)
      else addAt p.m_nodeFlow (nodeIndexOf m l.source) (l.weight / S) := by
  unfold prepStep
  by_cases h : nodeIndexOf m l.source = nodeIndexOf m l.target <;>
    by_cases h2 : config.flowModel = FlowModel.outdirdir <;> simp [h, h2]

theorem prepStep_sumLinkOutWeight (config : Config) (m : List (Nat × Nat)) (S : ℚ) (p : Prep)
    (l : StateLink) :
    (prepStep config m S p l).sumLinkOutWeight =
      if nodeIndexOf m l.source ≠ nodeIndexOf m l.target ∧ config.isUndirectedFlow = true
      then addAt (addAt p.sumLinkOutWeight (nodeIndexOf m l.source) l.weight)
        (nodeIndexOf m l.target) l.weight
      else addAt p.sumLinkOutWeight (nodeIndexOf m l.source) l.weight := by
  unfold prepStep
  by_cases h : nodeIndexOf m l.source = nodeIndexOf m l.target <;>
    by_cases h2 : config.isUndirectedFlow = true <;> simp [h, h2]

theorem prepStep_nodeOutDegree (config : Config) (m : List (Nat × Nat)) (S : ℚ) (p : Prep)
    (l : StateLink) :
    (prepStep config m S p l).nodeOutDegree =
      if nodeIndexOf m l.source ≠ nodeIndexOf m l.target ∧ config.isUndirectedFlow = true
      then modifyAt (fun d => d + 1) (modifyAt (fun d => d + 1) p.nodeOutDegree
        (nodeIndexOf m l.source)) (nodeIndexOf m l.target)
      else modifyAt (fun d => d + 1) p.nodeOutDegree (nodeIndexOf m l.source) := by
  unfold prepStep
  by_cases h : nodeIndexOf m l.source = nodeIndexOf m l.target <;>
    by_cases h2 : config.isUndirectedFlow = true <;> simp [h, h2]

/-- The two conditional updates of the loop body, read at an index. -/
theorem getD_addAt_twice (v : List ℚ) (a b j : Nat) (x : ℚ) (c : Prop) [Decidable c]
    (hj : j < v.length) :
    (if c then addAt (addAt v a x) b x else addAt v a x).getD j 0 =
      v.getD j 0 + ((if a = j then x else 0) + (if c ∧ b = j then x else 0)) := by
  have e1 : (if j = a ∧ a < v.length then x else 0) = (if a = j then x else 0) := by
    by_cases h : a = j
    · subst h; simp [hj]
    · have h2 : ¬ j = a := fun e => h e.symm
      simp [h, h2]
  have e2 : (if j = b ∧ b < v.length then x else 0) = (if b = j then x else 0) := by
    by_cases h : b = j
    · subst h; simp [hj]
    · have h2 : ¬ j = b := fun e => h e.symm
      simp [h, h2]
  by_cases hc : c
  · rw [if_pos hc, getD_addAt, getD_addAt, length_addAt, e1, e2]
    simp [hc, add_assoc]
  · rw [if_neg hc, getD_addAt, e1]
    simp [hc]

theorem foldl_prepStep_flowLinks (config : Config) (m : List (Nat × Nat)) (S : ℚ)
    (ls : List StateLink) (p : Prep) :
    (ls.foldl (prepStep config m S) p).m_flowLinks =
      p.m_flowLinks ++
        ls.map (fun l => Link.mk (nodeIndexOf m l.source) (nodeIndexOf m l.target) l.weight) := by
  induction ls generalizing p with
  | nil => simp
  | cons l ls ih => simp [ih, prepStep_flowLinks]

theorem foldl_prepStep_nodeFlow_length (config : Config) (m : List (Nat × Nat)) (S : ℚ)
    (ls : List StateLink) (p : Prep) :
    (ls.foldl (prepStep config m S) p).m_nodeFlow.length = p.m_nodeFlow.length := by
  induction ls generalizing p with
  | nil => simp
  | cons l ls ih =>
    rw [List.foldl_cons, ih, prepStep_nodeFlow]
    split <;> simp [length_addAt]

theorem foldl_prepStep_sumLinkOutWeight_length (config : Config) (m : List (Nat × Nat)) (S : ℚ)
    (ls : List StateLink) (p : Prep) :
    (ls.foldl (prepStep config m S) p).sumLinkOutWeight.length = p.sumLinkOutWeight.length := by
  induction ls generalizing p with
  | nil => simp
  | cons l ls ih =>
    rw [List.foldl_cons, ih, prepStep_sumLinkOutWeight]
    split <;> simp [length_addAt]

theorem foldl_prepStep_nodeOutDegree_length (config : Config) (m : List (Nat × Nat)) (S : ℚ)
    (ls : List StateLink) (p : Prep) :
    (ls.foldl (prepStep config m S) p).nodeOutDegree.length = p.nodeOutDegree.length := by
  induction ls generalizing p with
  | nil => simp
  | cons l ls ih =>
    rw [List.foldl_cons, ih, prepStep_nodeOutDegree]
    split <;> simp [length_modifyAt]

theorem foldl_prepStep_nodeFlow_getD (config : Config) (m : List (Nat × Nat)) (S : ℚ)
    (ls : List StateLink) (p : Prep) (j : Nat) (hj : j < p.m_nodeFlow.length) :
    (ls.foldl (prepStep config m S) p).m_nodeFlow.getD j 0 =
      p.m_nodeFlow.getD j 0 + (ls.map (fun l =>
        (if nodeIndexOf m l.source = j then l.weight / S else 0) +
        (if nodeIndexOf m l.source ≠ nodeIndexOf m l.target ∧
            config.flowModel ≠ FlowModel.outdirdir ∧ nodeIndexOf m l.target = j
          then l.weight / S else 0))).sum := by
  induction ls generalizing p with
  | nil => simp
  | cons l ls ih =>
    have hlen : j < (prepStep config m S p l).m_nodeFlow.length := by
      rw [prepStep_nodeFlow]; split <;> simpa [length_addAt] using hj
    rw [List.foldl_cons, ih _ hlen, List.map_cons, List.sum_cons, ← add_assoc]
    congr 1
    rw [prepStep_nodeFlow, getD_addAt_twice _ _ _ _ _ _ hj]
    congr 2
    by_cases h1 : nodeIndexOf m l.source = nodeIndexOf m l.target <;>
      by_cases h2 : config.flowModel = FlowModel.outdirdir <;> simp [h1, h2]

theorem foldl_prepStep_sumLinkOutWeight_getD (config : Config) (m : List (Nat × Nat)) (S : ℚ)
    (ls : List StateLink) (p : Prep) (j : Nat) (hj : j < p.sumLinkOutWeight.length) :
    (ls.foldl (prepStep config m S) p).sumLinkOutWeight.getD j 0 =
      p.sumLinkOutWeight.getD j 0 + (ls.map (fun l =>
        (if nodeIndexOf m l.source = j then l.weight else 0) +
        (if nodeIndexOf m l.source ≠ nodeIndexOf m l.target ∧
            config.isUndirectedFlow = true ∧ nodeIndexOf m l.target = j
          then l.weight else 0))).sum := by
  induction ls generalizing p with
  | nil => simp
  | cons l ls ih =>
    have hlen : j < (prepStep config m S p l).sumLinkOutWeight.length := by
      rw [prepStep_sumLinkOutWeight]; split <;> simpa [length_addAt] using hj
    rw [List.foldl_cons, ih _ hlen, List.map_cons, List.sum_cons, ← add_assoc]
    congr 1
    rw [prepStep_sumLinkOutWeight, getD_addAt_twice _ _ _ _ _ _ hj]
    congr 2
    by_cases h1 : nodeIndexOf m l.source = nodeIndexOf m l.target <;>
      by_cases h2 : config.isUndirectedFlow = true <;> simp [h1, h2]

/-- A node that is the source of a link has a positive out-degree. -/
theorem foldl_prepStep_nodeOutDegree_pos (config : Config) (m : List (Nat × Nat)) (S : ℚ)
    (ls : List StateLink) (p : Prep) (j : Nat) (hj : j < p.nodeOutDegree.length)
    (h : 0 < p.nodeOutDegree.getD j 0 ∨ ∃ l ∈ ls, nodeIndexOf m l.source = j) :
    0 < (ls.foldl (prepStep config m S) p).nodeOutDegree.getD j 0 := by
  induction ls generalizing p with
  | nil =>
    rcases h with h | ⟨l, hl, _⟩
    · simpa using h
    · simp at hl
  | cons l ls ih =>
    have hlen : j < (prepStep config m S p l).nodeOutDegree.length := by
      rw [prepStep_nodeOutDegree]; split <;> simpa [length_modifyAt] using hj
    rw [List.foldl_cons]
    apply ih _ hlen
    have hmono : ∀ (v : List Nat) (i : Nat),
        v.getD j 0 ≤ (modifyAt (fun d => d + 1) v i).getD j 0 := by
      intro v i
      rw [getD_modifyAt]
      split <;> omega
    rcases h with h | ⟨l2, hl2, hs⟩
    · left
      rw [prepStep_nodeOutDegree]
      split
      · exact lt_of_lt_of_le (lt_of_lt_of_le h (hmono _ _)) (hmono _ _)
      · exact lt_of_lt_of_le h (hmono _ _)
    · rcases List.mem_cons.mp hl2 with rfl | hl2
      · left
        have hstep : 0 < (modifyAt (fun d => d + 1) p.nodeOutDegree
            (nodeIndexOf m l2.source)).getD j 0 := by
          rw [getD_modifyAt, hs]
          simp [hj]
        rw [prepStep_nodeOutDegree]
        split
        · exact lt_of_lt_of_le hstep (hmono _ _)
        · exact hstep
      · right
        exact ⟨l2, hl2, hs⟩

end infomap

namespace infomap

/-! ## Sums -/

theorem sum_map_div {β : Type} (f : β → ℚ) (c : ℚ) (xs : List β) :
    (xs.map (fun b => f b / c)).sum = (xs.map f).sum / c := by
  induction xs with
  | nil => simp
  | cons b xs ih => simp [ih, add_div]

theorem sum_map_mul_left_const {β : Type} (f : β → ℚ) (c : ℚ) (xs : List β) :
    (xs.map (fun b => c * f b)).sum = c * (xs.map f).sum := by
  induction xs with
  | nil => simp
  | cons b xs ih => simp [ih, mul_add]

theorem sum_map_add {β : Type} (f g : β → ℚ) (xs : List β) :
    (xs.map (fun b => f b + g b)).sum = (xs.map f).sum + (xs.map g).sum := by
  induction xs with
  | nil => simp
  | cons b xs ih => simp [ih]; ring

theorem sum_map_congr {β : Type} (f g : β → ℚ) (xs : List β) (h : ∀ b ∈ xs, f b = g b) :
    (xs.map f).sum = (xs.map g).sum := by
  rw [List.map_congr_left h]

theorem sum_map_nonneg {β : Type} (f : β → ℚ) (xs : List β) (h : ∀ b ∈ xs, 0 ≤ f b) :
    0 ≤ (xs.map f).sum := by
  induction xs with
  | nil => simp
  | cons b xs ih =>
    simp only [List.map_cons, List.sum_cons]
    exact add_nonneg (h b (List.mem_cons_self _ _)) (ih (fun c hc => h c (List.mem_cons_of_mem _ hc)))

theorem sum_nonneg_of_forall (v : List ℚ) (h : ∀ x ∈ v, 0 ≤ x) : 0 ≤ v.sum := by
  have := sum_map_nonneg (fun x => x) v h
  simpa using this

/-! ## Writing the flows back -/

theorem map_flow_writeNodes (nodes : List StateNode) (k : Nat) (nodeFlow : List ℚ)
    (h : nodeFlow.length = k + nodes.length) :
    (writeNodes nodes k nodeFlow).map (fun nd => nd.flow) = nodeFlow.drop k := by
  induction nodes generalizing k with
  | nil =>
    simp only [writeNodes, List.map_nil]
    rw [List.drop_eq_nil_of_le]
    simp at h; omega
  | cons nd rest ih =>
    have hk : k < nodeFlow.length := by simp at h; omega
    simp only [writeNodes, List.map_cons]
    rw [ih (k + 1) (by simp at h; omega), List.getD_eq_getElem _ _ hk]
    exact (List.drop_eq_getElem_cons hk).symm

theorem map_flow_writeLinks (links : List StateLink) (k : Nat) (flowLinks : List Link)
    (h : flowLinks.length = k + links.length) :
    (writeLinks links k flowLinks).map (fun l => l.flow) =
      (flowLinks.map (fun l => l.flow)).drop k := by
  induction links generalizing k with
  | nil =>
    simp only [writeLinks, List.map_nil]
    rw [List.drop_eq_nil_of_le]
    simp at h; simp; omega
  | cons l rest ih =>
    have hk : k < (flowLinks.map (fun l => l.flow)).length := by simp at h; simp; omega
    simp only [writeLinks, List.map_cons]
    rw [ih (k + 1) (by simp at h; omega), List.getD_eq_getElem _ _ hk]
    exact (List.drop_eq_getElem_cons hk).symm

theorem length_normalizeFlow (b : Bool) (v : List ℚ) : (normalizeFlow b v).length = v.length := by
  unfold normalizeFlow
  split <;> simp

/-- The node flows written back are the (possibly normalised) node flows of the calculator. -/
theorem nodeFlows_finalize (network : StateNetwork) (fc : FlowCalculator) (b : Bool)
    (h : fc.m_nodeFlow.length = network.numNodes) :
    nodeFlows (finalize network fc b).2 = normalizeFlow b fc.m_nodeFlow := by
  unfold nodeFlows finalize
  simp only
  rw [map_flow_writeNodes _ _ _ (by rw [length_normalizeFlow, h]; simp [StateNetwork.numNodes])]
  simp

/-- The link flows written back are the link flows of the calculator. -/
theorem linkFlows_finalize (network : StateNetwork) (fc : FlowCalculator) (b : Bool)
    (h : fc.m_flowLinks.length = network.numLinks) :
    linkFlows (finalize network fc b).2 = fc.m_flowLinks.map (fun l => l.flow) := by
  unfold linkFlows finalize
  simp only
  rw [map_flow_writeLinks _ _ _ (by rw [h]; simp [StateNetwork.numLinks])]
  simp

/-! ## The preprocessing -/

theorem preprocess_flowLinks (network : StateNetwork) (config : Config) :
    (preprocess network config).m_flowLinks = network.links.map network.toLink := by
  unfold preprocess
  simp only
  rw [foldl_prepStep_flowLinks]
  rfl

theorem preprocess_nodeFlow_length (network : StateNetwork) (config : Config) :
    (preprocess network config).m_nodeFlow.length = network.numNodes := by
  unfold preprocess
  simp only
  rw [foldl_prepStep_nodeFlow_length]
  simp

theorem preprocess_sumLinkOutWeight_length (network : StateNetwork) (config : Config) :
    (preprocess network config).sumLinkOutWeight.length = network.numNodes := by
  unfold preprocess
  simp only
  rw [foldl_prepStep_sumLinkOutWeight_length]
  simp

theorem preprocess_nodeOutDegree_length (network : StateNetwork) (config : Config) :
    (preprocess network config).nodeOutDegree.length = network.numNodes := by
  unfold preprocess
  simp only
  rw [foldl_prepStep_nodeOutDegree_length]
  simp

/-- The initial node flow: every link credits its source, and its target unless the link is
a self-link or the model is `outdirdir`. -/
theorem preprocess_nodeFlow_getD (network : StateNetwork) (config : Config) (j : Nat)
    (hj : j < network.numNodes) :
    (preprocess network config).m_nodeFlow.getD j 0 =
      (network.links.map (fun l =>
        (if network.indexOf l.source = j then l.weight / network.sumUndirLinkWeight else 0) +
        (if network.indexOf l.source ≠ network.indexOf l.target ∧
            config.flowModel ≠ FlowModel.outdirdir ∧ network.indexOf l.target = j
          then l.weight / network.sumUndirLinkWeight else 0))).sum := by
  unfold preprocess
  simp only
  rw [foldl_prepStep_nodeFlow_getD _ _ _ _ _ j (by simpa using hj)]
  simp only [getD_replicate_zero, zero_add]
  rfl

/-- The out-weight of every node: the weight of its out-links, and of its in-links under an
undirected flow. -/
theorem preprocess_sumLinkOutWeight_getD (network : StateNetwork) (config : Config) (j : Nat)
    (hj : j < network.numNodes) :
    (preprocess network config).sumLinkOutWeight.getD j 0 =
      (network.links.map (fun l =>
        (if network.indexOf l.source = j then l.weight else 0) +
        (if network.indexOf l.source ≠ network.indexOf l.target ∧
            config.isUndirectedFlow = true ∧ network.indexOf l.target = j
          then l.weight else 0))).sum := by
  unfold preprocess
  simp only
  rw [foldl_prepStep_sumLinkOutWeight_getD _ _ _ _ _ j (by simpa using hj)]
  simp only [getD_replicate_zero, zero_add]
  rfl

/-- Links exist only in a network with nodes, when the network is well-formed. -/
theorem numNodes_pos_of_link (network : StateNetwork) (hwf : network.WellFormed)
    (l : StateLink) (hl : l ∈ network.links) : 0 < network.numNodes := by
  have := (hwf.2 l hl).1
  unfold StateNetwork.ids at this
  obtain ⟨nd, hnd, _⟩ := List.mem_map.mp this
  exact List.length_pos_of_mem hnd

theorem links_ne_nil_of_sum_pos (network : StateNetwork) (h : 0 < network.sumLinkWeight) :
    network.links ≠ [] := by
  intro e
  simp [StateNetwork.sumLinkWeight, e] at h

theorem numNodes_pos_of_sum_pos (network : StateNetwork) (hwf : network.WellFormed)
    (h : 0 < network.sumLinkWeight) : 0 < network.numNodes := by
  obtain ⟨l, hl⟩ := List.exists_mem_of_ne_nil _ (links_ne_nil_of_sum_pos network h)
  exact numNodes_pos_of_link network hwf l hl

/-- A sum over the links whose target has dense index `j` is the sum over the links into the
node at position `j`. -/
theorem sum_target_index (network : StateNetwork) (hwf : network.WellFormed) (g : StateLink → ℚ)
    (j : Nat) (hj : j < network.nodes.length) :
    (network.links.map (fun l => if network.indexOf l.target = j then g l else 0)).sum =
      ((network.links.filter (fun l => l.target = (network.nodes[j]).id)).map g).sum := by
  rw [← sum_map_ite_eq_filter]
  apply sum_map_congr
  intro l hl
  have := indexOf_eq_iff network hwf.1 l.target (hwf.2 l hl).2 j hj
  by_cases h : network.indexOf l.target = j
  · rw [if_pos h, if_pos (this.mp h)]
  · have h2 : ¬ l.target = (network.nodes[j]).id := fun e => h (this.mpr e)
    simp [h, h2]

theorem sum_source_index (network : StateNetwork) (hwf : network.WellFormed) (g : StateLink → ℚ)
    (j : Nat) (hj : j < network.nodes.length) :
    (network.links.map (fun l => if network.indexOf l.source = j then g l else 0)).sum =
      ((network.links.filter (fun l => l.source = (network.nodes[j]).id)).map g).sum := by
  rw [← sum_map_ite_eq_filter]
  apply sum_map_congr
  intro l hl
  have := indexOf_eq_iff network hwf.1 l.source (hwf.2 l hl).1 j hj
  by_cases h : network.indexOf l.source = j
  · rw [if_pos h, if_pos (this.mp h)]
  · have h2 : ¬ l.source = (network.nodes[j]).id := fun e => h (this.mpr e)
    simp [h, h2]

end infomap

namespace infomap

/-! ## The `rawdir` model -/

theorem foldl_rawdirStep (W : ℚ) (links : List Link) (v : List ℚ) (ls0 : List Link) :
    links.foldl (rawdirStep W) (v, ls0) =
      (links.foldl (fun v l => addAt v l.target (l.flow / W)) v,
       ls0 ++ links.map (fun l => Link.mk l.source l.target (l.flow / W))) := by
  induction links generalizing v ls0 with
  | nil => simp
  | cons l links ih => simp [rawdirStep, ih]

theorem calculateFlowFull_rawdir (network : StateNetwork) (config : Config)
    (hm : config.flowModel = FlowModel.rawdir) :
    calculateFlowFull network config =
      finalize network
        (FlowCalculator.mk
          ((network.links.map network.toLink).foldl
            (fun v l => addAt v l.target (l.flow / network.sumLinkWeight))
            (List.replicate network.numNodes 0))
          (List.replicate network.numNodes 0)
          ((network.links.map network.toLink).map
            (fun l => Link.mk l.source l.target (l.flow / network.sumLinkWeight)))) true := by
  unfold calculateFlowFull
  simp only [hm, if_true]
  rw [preprocess_flowLinks, foldl_rawdirStep]
  simp

/-- The link flows of `rawdir`. -/
theorem rawdir_linkFlows (network : StateNetwork) (config : Config)
    (hm : config.flowModel = FlowModel.rawdir) :
    linkFlows (calculateFlow network config) =
      network.links.map (fun l => l.weight / network.sumLinkWeight) := by
  unfold calculateFlow
  rw [calculateFlowFull_rawdir network config hm, linkFlows_finalize _ _ _
    (by simp [StateNetwork.numLinks])]
  simp [StateNetwork.toLink, Function.comp_def]

/-- The node flows of `rawdir`. -/
theorem rawdir_nodeFlows (network : StateNetwork) (config : Config)
    (hm : config.flowModel = FlowModel.rawdir) (hwf : network.WellFormed)
    (hpos : 0 < network.sumLinkWeight) :
    nodeFlows (calculateFlow network config) =
      network.nodes.map (fun nd => network.inWeight nd.id / network.sumLinkWeight) := by
  have hn := numNodes_pos_of_sum_pos network hwf hpos
  unfold calculateFlow
  rw [calculateFlowFull_rawdir network config hm, nodeFlows_finalize _ _ _
    (by simp [foldl_addAt_length])]
  simp only [normalizeFlow, if_true]
  have hsum : ((network.links.map network.toLink).foldl
      (fun v l => addAt v l.target (l.flow / network.sumLinkWeight))
      (List.replicate network.numNodes 0)).sum = 1 := by
    rw [foldl_addAt_sum]
    simp only [List.sum_replicate, smul_zero, zero_add, List.length_replicate, List.map_map]
    rw [sum_map_congr _ (fun l => l.weight / network.sumLinkWeight)]
    · rw [sum_map_div]
      exact div_self (ne_of_gt hpos)
    · intro l _
      simp [StateNetwork.toLink, indexOf_lt network l.target hn]
  rw [hsum]
  apply ext_getD
  · simp [foldl_addAt_length, StateNetwork.numNodes]
  · intro j hj
    have hj2 : j < network.nodes.length := by
      simpa [foldl_addAt_length, StateNetwork.numNodes] using hj
    rw [List.getD_eq_getElem _ _ hj, List.getD_eq_getElem _ _ (by simpa using hj2)]
    simp only [List.getElem_map, div_one]
    rw [← List.getD_eq_getElem _ 0, foldl_addAt_getD _ _ _ _ _ (by simpa using hj2)]
    simp only [getD_replicate_zero, zero_add, List.map_map]
    rw [StateNetwork.inWeight, ← sum_map_div, ← sum_target_index network hwf _ j hj2]
    rfl

/-- C2: under `rawdir`, for a network with positive total link weight `ΣW`, every link
`(s,t,w)` gets the flow `w/ΣW`, every node gets the weight of the links into it divided by
`ΣW`, and the link flows sum to 1; on the unit triangle all node and link flows are `1/3`. -/
theorem rawdir_flow (network : StateNetwork) (config : Config)
    (hm : config.flowModel = FlowModel.rawdir) (hwf : network.WellFormed)
    (hpos : 0 < network.sumLinkWeight) :
    linkFlows (calculateFlow network config) =
        network.links.map (fun l => l.weight / network.sumLinkWeight) ∧
      nodeFlows (calculateFlow network config) =
        network.nodes.map (fun nd => network.inWeight nd.id / network.sumLinkWeight) ∧
      (linkFlows (calculateFlow network config)).sum = 1 ∧
      nodeFlows (calculateFlow triangle config) = [1 / 3, 1 / 3, 1 / 3] ∧
      linkFlows (calculateFlow triangle config) = [1 / 3, 1 / 3, 1 / 3] := by
  refine ⟨rawdir_linkFlows network config hm, rawdir_nodeFlows network config hm hwf hpos, ?_,
    ?_, ?_⟩
  · rw [rawdir_linkFlows network config hm, sum_map_div]
    exact div_self (ne_of_gt hpos)
  · rw [rawdir_nodeFlows triangle config hm (by decide) (by decide!)]
    decide!
  · rw [rawdir_linkFlows triangle config hm]
    decide!

/-- The hypotheses of `rawdir_flow` hold on the unit triangle, where it gives flow `1/3`. -/
theorem rawdir_flow_witness :
    triangle.WellFormed ∧ 0 < triangle.sumLinkWeight ∧
      nodeFlows (calculateFlow triangle (defaultConfig FlowModel.rawdir)) = [1 / 3, 1 / 3, 1 / 3] :=
  ⟨by decide, by decide!,
    (rawdir_flow triangle (defaultConfig FlowModel.rawdir) rfl (by decide) (by decide!)).2.1.trans
      (by decide!)⟩

end infomap

namespace infomap

/-! ## The `undirected` model -/

theorem calculateFlowFull_undirected (network : StateNetwork) (config : Config)
    (hm : config.flowModel = FlowModel.undirected) :
    calculateFlowFull network config =
      finalize network
        (FlowCalculator.mk (preprocess network config).m_nodeFlow
          (List.replicate network.numNodes 0)
          ((network.links.map network.toLink).map
            (fun link => { link with flow := link.flow / (network.sumUndirLinkWeight / 2) })))
        false := by
  unfold calculateFlowFull
  simp only [hm]
  rw [preprocess_flowLinks]
  simp [StateNetwork.sumUndirLinkWeight]

/-- The link flows of `undirected`. -/
theorem undirected_linkFlows (network : StateNetwork) (config : Config)
    (hm : config.flowModel = FlowModel.undirected) :
    linkFlows (calculateFlow network config) =
      network.links.map (fun l => l.weight / (network.sumUndirLinkWeight / 2)) := by
  unfold calculateFlow
  rw [calculateFlowFull_undirected network config hm, linkFlows_finalize _ _ _
    (by simp [StateNetwork.numLinks])]
  simp [StateNetwork.toLink, Function.comp_def]

/-- The node flows of `undirected` are the initial node flows. -/
theorem undirected_nodeFlows_eq (network : StateNetwork) (config : Config)
    (hm : config.flowModel = FlowModel.undirected) :
    nodeFlows (calculateFlow network config) = (preprocess network config).m_nodeFlow := by
  unfold calculateFlow
  rw [calculateFlowFull_undirected network config hm, nodeFlows_finalize _ _ _
    (by simp [preprocess_nodeFlow_length])]
  simp [normalizeFlow]

/-- The node flows of `undirected` in terms of the network. -/
theorem undirected_nodeFlows (network : StateNetwork) (config : Config)
    (hm : config.flowModel = FlowModel.undirected) (hwf : network.WellFormed) :
    nodeFlows (calculateFlow network config) =
      network.nodes.map (fun nd => network.incidentWeight nd.id / network.sumUndirLinkWeight) := by
  rw [undirected_nodeFlows_eq network config hm]
  apply ext_getD
  · simp [preprocess_nodeFlow_length, StateNetwork.numNodes]
  · intro j hj
    have hj2 : j < network.nodes.length := by
      simpa [preprocess_nodeFlow_length, StateNetwork.numNodes] using hj
    rw [preprocess_nodeFlow_getD network config j hj2,
      List.getD_eq_getElem _ _ (by simpa using hj2)]
    simp only [List.getElem_map]
    rw [StateNetwork.incidentWeight, ← sum_map_div, ← sum_map_ite_eq_filter]
    apply sum_map_congr
    intro l hl
    have hs := indexOf_eq_iff network hwf.1 l.source (hwf.2 l hl).1 j hj2
    have ht := indexOf_eq_iff network hwf.1 l.target (hwf.2 l hl).2 j hj2
    have hst := indexOf_inj network hwf.1 l.source l.target (hwf.2 l hl).1 (hwf.2 l hl).2
    have hmod : config.flowModel ≠ FlowModel.outdirdir := by rw [hm]; decide
    by_cases h1 : l.source = (network.nodes[j]).id
    · have e1 : network.indexOf l.source = j := hs.mpr h1
      rw [if_pos e1, if_pos (Or.inl h1), if_neg, add_zero]
      rintro ⟨h3, _, h4⟩
      exact h3 (e1.trans h4.symm)
    · have e1 : ¬ network.indexOf l.source = j := fun e => h1 (hs.mp e)
      by_cases h2 : l.target = (network.nodes[j]).id
      · have e2 : network.indexOf l.target = j := ht.mpr h2
        have e3 : network.indexOf l.source ≠ network.indexOf l.target := by
          rw [e2]; exact e1
        rw [if_neg e1, if_pos ⟨e3, hmod, e2⟩, if_pos (Or.inr h2), zero_add]
      · have e2 : ¬ network.indexOf l.target = j := fun e => h2 (ht.mp e)
        rw [if_neg e1, if_neg (fun h => e2 h.2.2), if_neg (fun h => h.elim h1 h2), zero_add]

/-- The self-links carry at most the total weight, when no weight is negative. -/
theorem sumSelfLinkWeight_le (network : StateNetwork) (hw : ∀ l ∈ network.links, 0 ≤ l.weight) :
    network.sumSelfLinkWeight ≤ network.sumLinkWeight := by
  unfold StateNetwork.sumSelfLinkWeight StateNetwork.sumLinkWeight
  rw [← sum_map_ite_eq_filter]
  have : ∀ (ls : List StateLink), (∀ l ∈ ls, 0 ≤ l.weight) →
      (ls.map (fun l => if l.source = l.target then l.weight else 0)).sum ≤
        (ls.map (fun l => l.weight)).sum := by
    intro ls
    induction ls with
    | nil => intro _; simp
    | cons a ls ih =>
      intro h
      simp only [List.map_cons, List.sum_cons]
      have h1 := ih (fun l hl => h l (List.mem_cons_of_mem _ hl))
      have h2 := h a (List.mem_cons_self _ _)
      split <;> linarith
  exact this network.links hw

/-- The divisor `2·ΣW − ΣW_self` is positive when no weight is negative and `ΣW` is. -/
theorem sumUndirLinkWeight_pos (network : StateNetwork) (hw : ∀ l ∈ network.links, 0 ≤ l.weight)
    (hpos : 0 < network.sumLinkWeight) :
    0 < 2 * network.sumLinkWeight - network.sumSelfLinkWeight := by
  have := sumSelfLinkWeight_le network hw
  linarith

/-- C3: under `undirected`, for a network with positive total link weight, the flow of node
`i` is the weight of the links incident to `i` (a self-link counted once) divided by
`2·ΣW − ΣW_self`, and the flow of a link is its weight divided by `(2·ΣW − ΣW_self)/2`, the
divisor being positive when no weight is negative; two nodes joined by one link of weight 1
get the node flows `[1/2, 1/2]` and the link flow `[1]`. -/
theorem undirected_flow (network : StateNetwork) (config : Config)
    (hm : config.flowModel = FlowModel.undirected) (hwf : network.WellFormed)
    (hpos : 0 < network.sumLinkWeight) :
    nodeFlows (calculateFlow network config) =
        network.nodes.map (fun nd => network.incidentWeight nd.id /
          (2 * network.sumLinkWeight - network.sumSelfLinkWeight)) ∧
      linkFlows (calculateFlow network config) =
        network.links.map (fun l => l.weight /
          ((2 * network.sumLinkWeight - network.sumSelfLinkWeight) / 2)) ∧
      ((∀ l ∈ network.links, 0 ≤ l.weight) →
        0 < 2 * network.sumLinkWeight - network.sumSelfLinkWeight) ∧
      nodeFlows (calculateFlow twoNodes config) = [1 / 2, 1 / 2] ∧
      linkFlows (calculateFlow twoNodes config) = [1] := by
  refine ⟨undirected_nodeFlows network config hm hwf, undirected_linkFlows network config hm,
    fun hw => sumUndirLinkWeight_pos network hw hpos, ?_, ?_⟩
  · rw [undirected_nodeFlows twoNodes config hm (by decide)]
    decide!
  · rw [undirected_linkFlows twoNodes config hm]
    decide!

/-- The hypotheses of `undirected_flow` hold for two nodes joined by one link. -/
theorem undirected_flow_witness :
    twoNodes.WellFormed ∧ 0 < twoNodes.sumLinkWeight ∧
      nodeFlows (calculateFlow twoNodes (defaultConfig FlowModel.undirected)) = [1 / 2, 1 / 2] ∧
      linkFlows (calculateFlow twoNodes (defaultConfig FlowModel.undirected)) = [1] :=
  ⟨by decide, by decide!,
    (undirected_flow twoNodes (defaultConfig FlowModel.undirected) rfl (by decide)
      (by decide!)).2.2.2⟩

/-- C4, as stated, fails on a node with a self-link of weight 1: the total link weight is
positive and the only link gets the flow 2. -/
theorem undirected_linkFlows_sum_counterexample :
    0 < selfLoop.sumLinkWeight ∧
      (linkFlows (calculateFlow selfLoop (defaultConfig FlowModel.undirected))).sum = 2 ∧
      (linkFlows (calculateFlow selfLoop (defaultConfig FlowModel.undirected))).sum ≠ 1 := by
  decide!

/-- C4, amended: under `undirected`, for a network with positive total link weight, the
link flows sum to `2·ΣW / (2·ΣW − ΣW_self)`, which is 1 exactly when the self-links carry
no weight. -/
theorem undirected_linkFlows_sum (network : StateNetwork) (config : Config)
    (hm : config.flowModel = FlowModel.undirected) (hpos : 0 < network.sumLinkWeight) :
    (linkFlows (calculateFlow network config)).sum =
        2 * network.sumLinkWeight / (2 * network.sumLinkWeight - network.sumSelfLinkWeight) ∧
      ((linkFlows (calculateFlow network config)).sum = 1 ↔ network.sumSelfLinkWeight = 0) := by
  have hsum : (linkFlows (calculateFlow network config)).sum =
      2 * network.sumLinkWeight / (2 * network.sumLinkWeight - network.sumSelfLinkWeight) := by
    rw [undirected_linkFlows network config hm, sum_map_div, StateNetwork.sumUndirLinkWeight]
    rw [div_div_eq_mul_div]
    congr 1
    rw [mul_comm]
    rfl
  refine ⟨hsum, ?_⟩
  rw [hsum]
  constructor
  · intro h
    have hne : 2 * network.sumLinkWeight - network.sumSelfLinkWeight ≠ 0 := by
      intro e
      rw [e, div_zero] at h
      exact zero_ne_one h
    rw [div_eq_one_iff_eq hne] at h
    linarith
  · intro h
    rw [h, sub_zero]
    exact div_self (by linarith)

/-- The hypotheses of `undirected_linkFlows_sum` hold on the self-link, where the sum is 2. -/
theorem undirected_linkFlows_sum_witness :
    0 < selfLoop.sumLinkWeight ∧
      (linkFlows (calculateFlow selfLoop (defaultConfig FlowModel.undirected))).sum =
        2 * selfLoop.sumLinkWeight / (2 * selfLoop.sumLinkWeight - selfLoop.sumSelfLinkWeight) :=
  ⟨by decide!,
    (undirected_linkFlows_sum selfLoop (defaultConfig FlowModel.undirected) rfl (by decide!)).1⟩

/-! ### Reversal of a link -/

theorem map_modifyAt_invariant {α β : Type} (f : α → α) (g : α → β) (h : ∀ a, g (f a) = g a)
    (v : List α) (i : Nat) : (modifyAt f v i).map g = v.map g := by
  induction v generalizing i with
  | nil => rfl
  | cons a v ih => cases i <;> simp [modifyAt, ih, h]

theorem filter_map_sum_eq {β : Type} (p : β → Prop) [DecidablePred p] (h : β → ℚ)
    (xs : List β) :
    ((xs.filter (fun b => p b)).map h).sum = (xs.map (fun b => if p b then h b else 0)).sum :=
  (sum_map_ite_eq_filter p h xs).symm

theorem reverseLinkAt_sumLinkWeight (network : StateNetwork) (k : Nat) :
    (reverseLinkAt network k).sumLinkWeight = network.sumLinkWeight := by
  unfold StateNetwork.sumLinkWeight reverseLinkAt
  exact congrArg List.sum
    (map_modifyAt_invariant (fun l : StateLink => StateLink.mk l.target l.source l.weight l.flow)
      (fun l : StateLink => l.weight) (fun _ => rfl) network.links k)

theorem reverseLinkAt_sumSelfLinkWeight (network : StateNetwork) (k : Nat) :
    (reverseLinkAt network k).sumSelfLinkWeight = network.sumSelfLinkWeight := by
  unfold StateNetwork.sumSelfLinkWeight
  rw [filter_map_sum_eq, filter_map_sum_eq]
  unfold reverseLinkAt
  simp only
  rw [map_modifyAt_invariant]
  intro a
  by_cases h : a.source = a.target
  · simp [h]
  · have h2 : ¬ a.target = a.source := fun e => h e.symm
    simp [h, h2]

theorem reverseLinkAt_indexOf (network : StateNetwork) (k : Nat) (id : Nat) :
    (reverseLinkAt network k).indexOf id = network.indexOf id := rfl

/-- C5: under `undirected`, reversing a link of the input leaves the total and self-link
weight sums, the flow of every node and the flow of every link (the reversed one included)
unchanged. -/
theorem undirected_reverse_link (network : StateNetwork) (config : Config) (k : Nat)
    (hm : config.flowModel = FlowModel.undirected) :
    (reverseLinkAt network k).sumLinkWeight = network.sumLinkWeight ∧
      (reverseLinkAt network k).sumSelfLinkWeight = network.sumSelfLinkWeight ∧
      nodeFlows (calculateFlow (reverseLinkAt network k) config) =
        nodeFlows (calculateFlow network config) ∧
      linkFlows (calculateFlow (reverseLinkAt network k) config) =
        linkFlows (calculateFlow network config) := by
  have hS : (reverseLinkAt network k).sumUndirLinkWeight = network.sumUndirLinkWeight := by
    unfold StateNetwork.sumUndirLinkWeight
    rw [reverseLinkAt_sumLinkWeight, reverseLinkAt_sumSelfLinkWeight]
  refine ⟨reverseLinkAt_sumLinkWeight network k, reverseLinkAt_sumSelfLinkWeight network k,
    ?_, ?_⟩
  · rw [undirected_nodeFlows_eq _ config hm, undirected_nodeFlows_eq _ config hm]
    have hlen : (preprocess (reverseLinkAt network k) config).m_nodeFlow.length =
        (preprocess network config).m_nodeFlow.length := by
      rw [preprocess_nodeFlow_length, preprocess_nodeFlow_length]
      rfl
    apply ext_getD hlen
    intro j hj
    have hj1 : j < (reverseLinkAt network k).numNodes := by
      simpa [preprocess_nodeFlow_length] using hj
    have hj2 : j < network.numNodes := hj1
    rw [preprocess_nodeFlow_getD _ config j hj1, preprocess_nodeFlow_getD _ config j hj2, hS]
    simp only [reverseLinkAt_indexOf]
    unfold reverseLinkAt
    simp only
    rw [map_modifyAt_invariant]
    intro a
    simp only
    have hmod : config.flowModel ≠ FlowModel.outdirdir := by rw [hm]; decide
    by_cases h1 : network.indexOf a.source = network.indexOf a.target
    · simp [h1]
    · have h2 : ¬ network.indexOf a.target = network.indexOf a.source := fun e => h1 e.symm
      simp only [h1, h2, hmod, ne_eq, not_false_eq_true, true_and]
      ring
  · rw [undirected_linkFlows _ config hm, undirected_linkFlows _ config hm, hS]
    unfold reverseLinkAt
    simp only
    rw [map_modifyAt_invariant]
    intro a
    rfl

/-- The hypothesis of `undirected_reverse_link` holds for the default undirected
configuration: reversing the only link of two joined nodes keeps the node flows. -/
theorem undirected_reverse_link_witness :
    nodeFlows (calculateFlow (reverseLinkAt twoNodes 0) (defaultConfig FlowModel.undirected)) =
      nodeFlows (calculateFlow twoNodes (defaultConfig FlowModel.undirected)) :=
  (undirected_reverse_link twoNodes (defaultConfig FlowModel.undirected) 0 rfl).2.2.1

end infomap

namespace infomap

/-! ## The PageRank loop -/

theorem pageRankStep_numIterations (rates : List ℚ) (flowLinks : List Link)
    (danglings : List Nat) (s : PageRank) :
    (pageRankStep rates flowLinks danglings s).numIterations = s.numIterations + 1 := rfl

theorem iterate_numIterations (rates : List ℚ) (flowLinks : List Link)
    (danglings : List Nat) (s : PageRank) (k : Nat) :
    ((pageRankStep rates flowLinks danglings)^[k] s).numIterations = s.numIterations + k := by
  induction k generalizing s with
  | zero => rfl
  | succ k ih =>
    rw [Function.iterate_succ_apply, ih, pageRankStep_numIterations]
    omega

/-- The loop, started with enough fuel to reach iteration 200, returns the first iterate at
which the loop condition fails. -/
theorem pageRankLoop_spec (rates : List ℚ) (flowLinks : List Link) (danglings : List Nat)
    (fuel : Nat) (s : PageRank) (hf : 1 ≤ fuel) (hs : s.numIterations + fuel = 200) :
    ∃ k, 1 ≤ k ∧ k ≤ fuel ∧
      pageRankLoop rates flowLinks danglings fuel s =
        some ((pageRankStep rates flowLinks danglings)^[k] s) ∧
      pageRankContinue ((pageRankStep rates flowLinks danglings)^[k] s) = false ∧
      ∀ j, 1 ≤ j → j < k →
        pageRankContinue ((pageRankStep rates flowLinks danglings)^[j] s) = true := by
  induction fuel generalizing s with
  | zero => omega
  | succ f ih =>
    by_cases hc : pageRankContinue (pageRankStep rates flowLinks danglings s) = true
    · have hlt : (pageRankStep rates flowLinks danglings s).numIterations < 200 := by
        unfold pageRankContinue at hc
        simp only [Bool.and_eq_true, decide_eq_true_eq] at hc
        exact hc.1
      rw [pageRankStep_numIterations] at hlt
      obtain ⟨k, hk1, hk2, hk3, hk4, hk5⟩ := ih (pageRankStep rates flowLinks danglings s)
        (by omega) (by rw [pageRankStep_numIterations]; omega)
      refine ⟨k + 1, by omega, by omega, ?_, ?_, ?_⟩
      · rw [pageRankLoop]
        simp only [hc, if_true]
        rw [hk3, Function.iterate_succ_apply]
      · rw [Function.iterate_succ_apply]; exact hk4
      · intro j hj1 hj2
        obtain ⟨i, rfl⟩ : ∃ i, j = i + 1 := ⟨j - 1, by omega⟩
        rw [Function.iterate_succ_apply]
        by_cases hi : i = 0
        · subst hi; exact hc
        · exact hk5 i (by omega) (by omega)
    · refine ⟨1, le_refl 1, by omega, ?_, ?_, ?_⟩
      · rw [pageRankLoop]
        simp [hc]
      · simpa using hc
      · intro j hj1 hj2; omega

/-- C7: the PageRank loop terminates for every input: it returns the state after `k`
executions of the body for some `50 ≤ k ≤ 200`, where `k` is the first iteration count
with `k ≥ 200`, or `k ≥ 50` and `sqdiff ≤ 1e-15` in that iteration. -/
theorem pageRankLoop_terminates (rates : List ℚ) (flowLinks : List Link) (danglings : List Nat)
    (numNodes : Nat) (nodeFlow : List ℚ) (config : Config) :
    ∃ k, 50 ≤ k ∧ k ≤ 200 ∧
      pageRankLoop rates flowLinks danglings 200 (pageRankInit numNodes nodeFlow config) =
        some ((pageRankStep rates flowLinks danglings)^[k]
          (pageRankInit numNodes nodeFlow config)) ∧
      (200 ≤ k ∨ (50 ≤ k ∧ ((pageRankStep rates flowLinks danglings)^[k]
          (pageRankInit numNodes nodeFlow config)).sqdiff ≤ 1 / 10 ^ 15)) ∧
      ∀ j, 1 ≤ j → j < k →
        ¬ (200 ≤ j ∨ (50 ≤ j ∧ ((pageRankStep rates flowLinks danglings)^[j]
          (pageRankInit numNodes nodeFlow config)).sqdiff ≤ 1 / 10 ^ 15)) := by
  have stop_iff : ∀ j, pageRankContinue ((pageRankStep rates flowLinks danglings)^[j]
        (pageRankInit numNodes nodeFlow config)) = false ↔
      (200 ≤ j ∨ (50 ≤ j ∧ ((pageRankStep rates flowLinks danglings)^[j]
          (pageRankInit numNodes nodeFlow config)).sqdiff ≤ 1 / 10 ^ 15)) := by
    intro j
    have hn := iterate_numIterations rates flowLinks danglings
      (pageRankInit numNodes nodeFlow config) j
    have h0 : (pageRankInit numNodes nodeFlow config).numIterations = 0 := rfl
    rw [h0, zero_add] at hn
    unfold pageRankContinue
    rw [hn]
    simp only [Bool.and_eq_false_iff, Bool.or_eq_false_iff, decide_eq_false_iff_not, not_lt,
      gt_iff_lt]
    tauto
  obtain ⟨k, hk1, hk2, hk3, hk4, hk5⟩ := pageRankLoop_spec rates flowLinks danglings 200
    (pageRankInit numNodes nodeFlow config) (by omega) rfl
  have hstop := (stop_iff k).mp hk4
  refine ⟨k, ?_, hk2, hk3, hstop, ?_⟩
  · rcases hstop with h | h
    · omega
    · exact h.1
  · intro j hj1 hj2 hj3
    have := (stop_iff j).mpr hj3
    rw [hk5 j hj1 hj2] at this
    exact Bool.noConfusion this

end infomap

namespace infomap

/-! ## The teleport distribution -/

/-- The calculator of the directed model (lines 150-277). -/
theorem calculateFlowFull_directed (network : StateNetwork) (config : Config)
    (hm : config.flowModel = FlowModel.directed) :
    calculateFlowFull network config =
      finalize network
        (FlowCalculator.mk
          (afterPageRank config network.numNodes (directedLinks network config)
            (directedResult network config)).1
          (directedRates network config)
          (afterPageRank config network.numNodes (directedLinks network config)
            (directedResult network config)).2)
        false := by
  unfold calculateFlowFull
  simp [hm]

theorem directedRates_eq (network : StateNetwork) (config : Config) :
    directedRates network config =
      teleportRates network config (buildNodeIndexMap network.nodes 0 [])
        (network.links.map network.toLink) := by
  unfold directedRates
  rw [preprocess_flowLinks]

theorem nodeTeleportRates_directed (network : StateNetwork) (config : Config)
    (hm : config.flowModel = FlowModel.directed) :
    nodeTeleportRates network config =
      teleportRates network config (buildNodeIndexMap network.nodes 0 [])
        (network.links.map network.toLink) := by
  unfold nodeTeleportRates
  rw [calculateFlowFull_directed network config hm, ← directedRates_eq]
  rfl

theorem foldl_setAt_length {β : Type} (g : β → Nat) (h : β → ℚ) (xs : List β) (v : List ℚ) :
    (xs.foldl (fun r b => modifyAt (fun _ => h b) r (g b)) v).length = v.length := by
  induction xs generalizing v with
  | nil => rfl
  | cons b xs ih => simp [ih, length_modifyAt]

/-- The loop `for b in xs: v[g b] = h b`, when `g` numbers `xs` consecutively from `k`. -/
theorem foldl_setAt_getD {β : Type} (g : β → Nat) (h : β → ℚ) (xs : List β) (k : Nat)
    (v : List ℚ) (hg : xs.map g = List.range' k xs.length) (hv : k + xs.length ≤ v.length)
    (j : Nat) :
    (xs.foldl (fun r b => modifyAt (fun _ => h b) r (g b)) v).getD j 0 =
      if k ≤ j ∧ j < k + xs.length then (xs.map h).getD (j - k) 0 else v.getD j 0 := by
  induction xs generalizing k v with
  | nil =>
    have h0 : ¬ (k ≤ j ∧ j < k + ([] : List β).length) := by simp
    rw [if_neg h0]
    rfl
  | cons b xs ih =>
    simp only [List.map_cons, List.length_cons, List.range'_succ, List.cons.injEq] at hg
    simp only [List.length_cons] at hv
    rw [List.foldl_cons, ih (k + 1) _ hg.2 (by rw [length_modifyAt]; omega), getD_modifyAt, hg.1]
    simp only [List.length_cons]
    by_cases h1 : j = k
    · subst h1
      have : j < v.length := by omega
      simp [this]
    · by_cases h2 : k + 1 ≤ j ∧ j < k + 1 + xs.length
      · have h3 : k ≤ j ∧ j < k + (xs.length + 1) := by omega
        obtain ⟨i, rfl⟩ : ∃ i, j = k + 1 + i := ⟨j - k - 1, by omega⟩
        rw [if_pos h2, if_pos h3]
        have e1 : k + 1 + i - (k + 1) = i := by omega
        have e2 : k + 1 + i - k = i + 1 := by omega
        rw [e1, e2]
        simp
      · have h3 : ¬ (k ≤ j ∧ j < k + (xs.length + 1)) := by omega
        rw [if_neg h2, if_neg h3, if_neg (fun h => h1 h.1)]

theorem map_indexOf_nodes (network : StateNetwork) (hn : network.ids.Nodup) :
    network.nodes.map (fun nd => network.indexOf nd.id) = List.range' 0 network.nodes.length := by
  apply List.ext_getElem
  · simp
  · intro i h1 h2
    have hi : i < network.nodes.length := by simpa using h1
    simp only [List.getElem_map, List.getElem_range', zero_add, one_mul]
    exact indexOf_getElem network hn i hi

/-- Teleportation to nodes: the rate of a node is its share of the node weight. -/
theorem teleportRates_toNodes (network : StateNetwork) (config : Config)
    (hwf : network.WellFormed) (ht : config.teleportToNodes = true) :
    teleportRates network config (buildNodeIndexMap network.nodes 0 [])
        (network.links.map network.toLink) =
      network.nodes.map (fun nd => nd.weight / network.sumNodeWeight) := by
  unfold teleportRates
  simp only [ht, if_true]
  have hfold : network.nodes.foldl
      (fun r nd => modifyAt (fun _ => nd.weight) r
        (nodeIndexOf (buildNodeIndexMap network.nodes 0 []) nd.id))
      (List.replicate network.numNodes 0) = network.nodes.map (fun nd => nd.weight) := by
    apply ext_getD
    · have := foldl_setAt_length (fun nd : StateNode => network.indexOf nd.id)
        (fun nd => nd.weight) network.nodes (List.replicate network.numNodes 0)
      simpa [StateNetwork.numNodes] using this
    · intro j hj
      have := foldl_setAt_getD (fun nd : StateNode => network.indexOf nd.id)
        (fun nd => nd.weight) network.nodes 0 (List.replicate network.numNodes 0)
        (map_indexOf_nodes network hwf.1) (by simp [StateNetwork.numNodes]) j
      have hj2 : j < network.nodes.length := by
        have hl := foldl_setAt_length (fun nd : StateNode => network.indexOf nd.id)
          (fun nd => nd.weight) network.nodes (List.replicate network.numNodes 0)
        unfold StateNetwork.indexOf at hl
        rw [hl] at hj
        simpa [StateNetwork.numNodes] using hj
      unfold StateNetwork.indexOf at this
      rw [this]
      simp [hj2]
  rw [hfold]
  simp [StateNetwork.sumNodeWeight, Function.comp_def]

end infomap

namespace infomap

/-- Every entry of a vector of non-negative numbers is at most the sum. -/
theorem le_sum_of_nonneg (v : List ℚ) (h : ∀ x ∈ v, 0 ≤ x) : ∀ x ∈ v, x ≤ v.sum :=
  List.single_le_sum h

/-- A vector of non-negative numbers with sum 1 has its entries in `[0,1]`. -/
theorem unit_interval_of_sum_one (v : List ℚ) (h : ∀ x ∈ v, 0 ≤ x) (hs : v.sum = 1) :
    ∀ x ∈ v, 0 ≤ x ∧ x ≤ 1 := by
  intro x hx
  exact ⟨h x hx, hs ▸ le_sum_of_nonneg v h x hx⟩

/-- The entries of a scatter loop over non-negative contributions are non-negative. -/
theorem foldl_addAt_nonneg {β : Type} (g : β → Nat) (h : β → ℚ) (xs : List β) (v : List ℚ)
    (hv : ∀ x ∈ v, 0 ≤ x) (hh : ∀ b ∈ xs, 0 ≤ h b) :
    ∀ x ∈ xs.foldl (fun v b => addAt v (g b) (h b)) v, 0 ≤ x := by
  intro x hx
  obtain ⟨j, hj, rfl⟩ := List.getElem_of_mem hx
  have hj2 : j < v.length := by rwa [foldl_addAt_length] at hj
  rw [← List.getD_eq_getElem _ 0 hj, foldl_addAt_getD _ _ _ _ _ hj2]
  apply add_nonneg
  · rw [List.getD_eq_getElem _ _ hj2]
    exact hv _ (List.getElem_mem _)
  · apply sum_map_nonneg
    intro b hb
    split
    · exact hh b hb
    · exact le_refl 0

/-- Recorded teleportation to links: the rate of a node is its share of the in-weight. -/
theorem teleportRates_recorded (network : StateNetwork) (config : Config)
    (hwf : network.WellFormed) (ht : config.teleportToNodes = false)
    (hr : config.recordedTeleportation = true) :
    teleportRates network config (buildNodeIndexMap network.nodes 0 [])
        (network.links.map network.toLink) =
      network.nodes.map (fun nd => network.inWeight nd.id / network.sumLinkWeight) := by
  unfold teleportRates
  simp only [ht, hr, if_true, Bool.false_eq_true, if_false]
  apply ext_getD
  · simp [foldl_addAt_length, StateNetwork.numNodes]
  · intro j hj
    have hj2 : j < network.nodes.length := by
      simpa [foldl_addAt_length, StateNetwork.numNodes] using hj
    rw [foldl_addAt_getD _ _ _ _ _ (by simpa [StateNetwork.numNodes] using hj2)]
    simp only [getD_replicate_zero, zero_add, List.map_map]
    rw [List.getD_eq_getElem _ _ (by simpa using hj2)]
    simp only [List.getElem_map]
    rw [StateNetwork.inWeight, ← sum_map_div, ← sum_target_index network hwf _ j hj2]
    rfl

/-- Unrecorded teleportation to links: the rate of a node is its share of the out-weight. -/
theorem teleportRates_unrecorded (network : StateNetwork) (config : Config)
    (hwf : network.WellFormed) (ht : config.teleportToNodes = false)
    (hr : config.recordedTeleportation = false) :
    teleportRates network config (buildNodeIndexMap network.nodes 0 [])
        (network.links.map network.toLink) =
      network.nodes.map (fun nd => network.outWeight nd.id / network.sumLinkWeight) := by
  unfold teleportRates
  simp only [ht, hr, if_true, Bool.false_eq_true, if_false]
  apply ext_getD
  · simp [foldl_addAt_length, StateNetwork.numNodes]
  · intro j hj
    have hj2 : j < network.nodes.length := by
      simpa [foldl_addAt_length, StateNetwork.numNodes] using hj
    rw [foldl_addAt_getD _ _ _ _ _ (by simpa [StateNetwork.numNodes] using hj2)]
    simp only [getD_replicate_zero, zero_add, List.map_map]
    rw [List.getD_eq_getElem _ _ (by simpa using hj2)]
    simp only [List.getElem_map]
    rw [StateNetwork.outWeight, ← sum_map_div, ← sum_source_index network hwf _ j hj2]
    rfl

/-- Teleportation to links gives non-negative rates that sum to 1. -/
theorem teleportRates_toLinks_sum (network : StateNetwork) (config : Config)
    (hwf : network.WellFormed) (ht : config.teleportToNodes = false)
    (hw : ∀ l ∈ network.links, 0 ≤ l.weight) (hpos : 0 < network.sumLinkWeight) :
    (∀ x ∈ teleportRates network config (buildNodeIndexMap network.nodes 0 [])
        (network.links.map network.toLink), 0 ≤ x) ∧
      (teleportRates network config (buildNodeIndexMap network.nodes 0 [])
        (network.links.map network.toLink)).sum = 1 := by
  have hn := numNodes_pos_of_sum_pos network hwf hpos
  unfold teleportRates
  simp only [ht, Bool.false_eq_true, if_false]
  constructor
  · apply foldl_addAt_nonneg
    · intro x hx
      rw [List.eq_of_mem_replicate hx]
    · intro b hb
      obtain ⟨l, hl, rfl⟩ := List.mem_map.mp hb
      exact div_nonneg (hw l hl) (le_of_lt hpos)
  · rw [foldl_addAt_sum]
    simp only [List.sum_replicate, smul_zero, zero_add, List.length_replicate, List.map_map]
    rw [sum_map_congr _ (fun l => l.weight / network.sumLinkWeight)]
    · rw [sum_map_div]
      exact div_self (ne_of_gt hpos)
    · intro l _
      have h1 := indexOf_lt network l.target hn
      have h2 := indexOf_lt network l.source hn
      simp only [Function.comp_apply, StateNetwork.toLink]
      split <;> simp [h1, h2]

/-- C8: in the directed model the teleport distribution is the share of the node weight
when teleporting to nodes, and otherwise the share of the in-weight (recorded
teleportation) or of the out-weight (unrecorded) in the total link weight; in each case,
for non-negative weights with positive total, every entry is in `[0,1]` and the entries sum
to 1. -/
theorem teleportRates_distribution (network : StateNetwork) (config : Config)
    (hm : config.flowModel = FlowModel.directed) (hwf : network.WellFormed) :
    (config.teleportToNodes = true →
        nodeTeleportRates network config =
          network.nodes.map (fun nd => nd.weight / network.sumNodeWeight)) ∧
      (config.teleportToNodes = false → config.recordedTeleportation = true →
        nodeTeleportRates network config =
          network.nodes.map (fun nd => network.inWeight nd.id / network.sumLinkWeight)) ∧
      (config.teleportToNodes = false → config.recordedTeleportation = false →
        nodeTeleportRates network config =
          network.nodes.map (fun nd => network.outWeight nd.id / network.sumLinkWeight)) ∧
      ((if config.teleportToNodes = true
          then (∀ nd ∈ network.nodes, 0 ≤ nd.weight) ∧ 0 < network.sumNodeWeight
          else (∀ l ∈ network.links, 0 ≤ l.weight) ∧ 0 < network.sumLinkWeight) →
        (∀ x ∈ nodeTeleportRates network config, 0 ≤ x ∧ x ≤ 1) ∧
          (nodeTeleportRates network config).sum = 1) := by
  rw [nodeTeleportRates_directed network config hm]
  refine ⟨teleportRates_toNodes network config hwf, teleportRates_recorded network config hwf,
    teleportRates_unrecorded network config hwf, ?_⟩
  intro h
  by_cases ht : config.teleportToNodes = true
  · rw [if_pos ht] at h
    rw [teleportRates_toNodes network config hwf ht]
    have hsum : (network.nodes.map (fun nd => nd.weight / network.sumNodeWeight)).sum = 1 := by
      rw [sum_map_div]
      exact div_self (ne_of_gt h.2)
    refine ⟨unit_interval_of_sum_one _ ?_ hsum, hsum⟩
    intro x hx
    obtain ⟨nd, hnd, rfl⟩ := List.mem_map.mp hx
    exact div_nonneg (h.1 nd hnd) (le_of_lt h.2)
  · rw [if_neg ht] at h
    have ht2 : config.teleportToNodes = false := by simpa using ht
    have := teleportRates_toLinks_sum network config hwf ht2 h.1 h.2
    exact ⟨unit_interval_of_sum_one _ this.1 this.2, this.2⟩

/-- The hypotheses of `teleportRates_distribution` hold on the unit triangle with recorded
teleportation to links, where every rate is `1/3`. -/
theorem teleportRates_distribution_witness :
    triangle.WellFormed ∧
      nodeTeleportRates triangle (directedConfig (15 / 100) true false) = [1 / 3, 1 / 3, 1 / 3] ∧
      (nodeTeleportRates triangle (directedConfig (15 / 100) true false)).sum = 1 :=
  ⟨by decide,
    ((teleportRates_distribution triangle (directedConfig (15 / 100) true false) rfl
      (by decide)).2.1 rfl rfl).trans (by decide!),
    ((teleportRates_distribution triangle (directedConfig (15 / 100) true false) rfl
      (by decide)).2.2.2 (by decide!)).2⟩

end infomap

namespace infomap

/-! ## The directed model on a well-formed network -/

theorem sumSelfLinkWeight_eq_zero (network : StateNetwork)
    (hself : ∀ l ∈ network.links, l.source ≠ l.target) : network.sumSelfLinkWeight = 0 := by
  unfold StateNetwork.sumSelfLinkWeight
  rw [← sum_map_ite_eq_filter]
  rw [sum_map_congr _ (fun _ => 0)]
  · simp
  · intro l hl
    simp [hself l hl]

/-- The out-weight of a node when targets are not credited (line 84 not taken). -/
theorem preprocess_sumLinkOutWeight_directed (network : StateNetwork) (config : Config)
    (hu : config.isUndirectedFlow = false) (hwf : network.WellFormed) (j : Nat)
    (hj : j < network.nodes.length) :
    (preprocess network config).sumLinkOutWeight.getD j 0 =
      network.outWeight (network.nodes[j]).id := by
  rw [preprocess_sumLinkOutWeight_getD network config j hj, StateNetwork.outWeight,
    ← sum_source_index network hwf _ j hj]
  apply sum_map_congr
  intro l _
  simp [hu]

/-- The out-weight of the source of a link, read through the dense index. -/
theorem sumLinkOutWeight_source (network : StateNetwork) (config : Config)
    (hu : config.isUndirectedFlow = false) (hwf : network.WellFormed) (l : StateLink)
    (hl : l ∈ network.links) :
    (preprocess network config).sumLinkOutWeight.getD (network.indexOf l.source) 0 =
      network.outWeight l.source := by
  obtain ⟨j, hj, hid⟩ := List.getElem_of_mem (hwf.2 l hl).1
  have hj2 : j < network.nodes.length := by simpa [StateNetwork.ids] using hj
  have e : (network.nodes[j]).id = l.source := by simpa [StateNetwork.ids] using hid
  have hix : network.indexOf l.source = j := by
    rw [← e]; exact indexOf_getElem network hwf.1 j hj2
  rw [hix, preprocess_sumLinkOutWeight_directed network config hu hwf j hj2, e]

/-- The initial node flow of a network without self-links, for a model other than
`outdirdir`: the share of the in- and out-weight in `2·ΣW`. -/
theorem preprocess_nodeFlow_noself (network : StateNetwork) (config : Config)
    (hmod : config.flowModel ≠ FlowModel.outdirdir) (hwf : network.WellFormed)
    (hself : ∀ l ∈ network.links, l.source ≠ l.target) (j : Nat)
    (hj : j < network.nodes.length) :
    (preprocess network config).m_nodeFlow.getD j 0 =
      (network.outWeight (network.nodes[j]).id + network.inWeight (network.nodes[j]).id) /
        (2 * network.sumLinkWeight) := by
  rw [preprocess_nodeFlow_getD network config j hj, sum_map_add,
    StateNetwork.sumUndirLinkWeight, sumSelfLinkWeight_eq_zero network hself, sub_zero, add_div,
    StateNetwork.outWeight, StateNetwork.inWeight, ← sum_map_div, ← sum_map_div,
    ← sum_source_index network hwf _ j hj, ← sum_target_index network hwf _ j hj]
  congr 1
  apply sum_map_congr
  intro l hl
  have hst : network.indexOf l.source ≠ network.indexOf l.target := fun e =>
    hself l hl ((indexOf_inj network hwf.1 _ _ (hwf.2 l hl).1 (hwf.2 l hl).2).mp e)
  simp [hst, hmod]

theorem le_sum_filter_of_mem {β : Type} (p : β → Prop) [DecidablePred p] (f : β → ℚ)
    (xs : List β) (hf : ∀ b ∈ xs, 0 ≤ f b) (b : β) (hb : b ∈ xs) (hp : p b) :
    f b ≤ ((xs.filter (fun b => p b)).map f).sum := by
  apply List.single_le_sum
  · intro x hx
    obtain ⟨c, hc, rfl⟩ := List.mem_map.mp hx
    exact hf c (List.mem_filter.mp hc).1
  · exact List.mem_map.mpr ⟨b, List.mem_filter.mpr ⟨hb, by simpa using hp⟩, rfl⟩

/-- The source of a link of positive weight has a positive out-weight. -/
theorem outWeight_pos (network : StateNetwork) (hw : ∀ l ∈ network.links, 0 < l.weight)
    (l : StateLink) (hl : l ∈ network.links) : 0 < network.outWeight l.source :=
  lt_of_lt_of_le (hw l hl)
    (le_sum_filter_of_mem (fun k : StateLink => k.source = l.source) (fun k => k.weight)
      network.links (fun k hk => le_of_lt (hw k hk)) l hl rfl)

theorem sumLinkWeight_pos (network : StateNetwork) (hw : ∀ l ∈ network.links, 0 < l.weight)
    (hl : network.links ≠ []) : 0 < network.sumLinkWeight := by
  obtain ⟨l, hmem⟩ := List.exists_mem_of_ne_nil _ hl
  have := le_sum_filter_of_mem (fun _ : StateLink => True) (fun k => k.weight)
    network.links (fun k hk => le_of_lt (hw k hk)) l hmem trivial
  simp only [List.filter_true] at this
  exact lt_of_lt_of_le (hw l hmem) (by simpa [StateNetwork.sumLinkWeight] using this)

/-- The normalised links of the directed model, for positive weights. -/
theorem directedLinks_eq (network : StateNetwork) (config : Config)
    (hu : config.isUndirectedFlow = false) (hwf : network.WellFormed)
    (hw : ∀ l ∈ network.links, 0 < l.weight) :
    directedLinks network config =
      network.links.map (fun l => Link.mk (network.indexOf l.source) (network.indexOf l.target)
        (l.weight / network.outWeight l.source)) := by
  unfold directedLinks
  rw [preprocess_flowLinks, List.map_map]
  apply List.map_congr_left
  intro l hl
  simp only [Function.comp_apply, normalizeLink, StateNetwork.toLink]
  rw [sumLinkOutWeight_source network config hu hwf l hl, if_pos (outWeight_pos network hw l hl)]

/-- A node is dangling exactly when it has no out-degree, and then no link leaves it. -/
theorem not_source_of_dangling (network : StateNetwork) (config : Config) (i : Nat)
    (hi : i ∈ directedDanglings network config) :
    i < network.numNodes ∧ ∀ l ∈ network.links, network.indexOf l.source ≠ i := by
  unfold directedDanglings collectDanglings at hi
  rw [List.mem_filter, List.mem_range] at hi
  refine ⟨hi.1, ?_⟩
  intro l hl e
  have hdeg : (preprocess network config).nodeOutDegree.getD i 0 = 0 := by simpa using hi.2
  have hpos : 0 < (preprocess network config).nodeOutDegree.getD i 0 := by
    unfold preprocess
    apply foldl_prepStep_nodeOutDegree_pos
    · simpa using hi.1
    · exact Or.inr ⟨l, hl, e⟩
  omega

/-- A dangling node has no out-weight. -/
theorem outWeight_dangling (network : StateNetwork) (config : Config)
    (hwf : network.WellFormed) (i : Nat) (hi : i ∈ directedDanglings network config)
    (hlt : i < network.nodes.length) :
    network.outWeight (network.nodes[i]).id = 0 := by
  have h := (not_source_of_dangling network config i hi).2
  rw [StateNetwork.outWeight, ← sum_source_index network hwf _ i hlt,
    sum_map_congr _ (fun _ => 0)]
  · simp
  · intro l hl
    simp [h l hl]

end infomap

namespace infomap

/-! ## One power iteration -/

theorem getD_map_mul (c : ℚ) (v : List ℚ) (j : Nat) :
    (v.map (fun r => c * r)).getD j 0 = c * v.getD j 0 := by
  by_cases h : j < v.length
  · rw [List.getD_eq_getElem _ _ (by simpa using h), List.getD_eq_getElem _ _ h]
    simp
  · rw [List.getD_eq_default _ _ (by simpa using h), List.getD_eq_default _ _ (by simpa using h)]
    simp

theorem getD_map_div (c : ℚ) (v : List ℚ) (j : Nat) :
    (v.map (fun x => x / c)).getD j 0 = v.getD j 0 / c := by
  by_cases h : j < v.length
  · rw [List.getD_eq_getElem _ _ (by simpa using h), List.getD_eq_getElem _ _ h]
    simp
  · rw [List.getD_eq_default _ _ (by simpa using h), List.getD_eq_default _ _ (by simpa using h)]
    simp

theorem pageRankStep_nodeFlowTmp_length (rates : List ℚ) (flowLinks : List Link)
    (danglings : List Nat) (s : PageRank) :
    (pageRankStep rates flowLinks danglings s).nodeFlowTmp.length = rates.length := by
  unfold pageRankStep
  simp only
  rw [foldl_addAt_length]
  simp

/-- The new flow of a node: teleportation and dangling flow, plus the flow along the links
into the node (lines 211-221). -/
theorem pageRankStep_nodeFlowTmp_getD (rates : List ℚ) (flowLinks : List Link)
    (danglings : List Nat) (s : PageRank) (j : Nat) (hj : j < rates.length) :
    (pageRankStep rates flowLinks danglings s).nodeFlowTmp.getD j 0 =
      (s.alpha + s.beta * danglingRankOf danglings s.m_nodeFlow) * rates.getD j 0 +
        (flowLinks.map (fun l => if l.target = j
          then s.beta * l.flow * s.m_nodeFlow.getD l.source 0 else 0)).sum := by
  unfold pageRankStep
  simp only
  rw [foldl_addAt_getD _ _ _ _ _ (by simpa using hj), getD_map_mul]

theorem pageRankStep_nodeFlow (rates : List ℚ) (flowLinks : List Link)
    (danglings : List Nat) (s : PageRank) :
    (pageRankStep rates flowLinks danglings s).m_nodeFlow =
      if |(pageRankStep rates flowLinks danglings s).nodeFlowTmp.sum - 1| > 1 / 10 ^ 10
      then (pageRankStep rates flowLinks danglings s).nodeFlowTmp.map
        (fun x => x / (pageRankStep rates flowLinks danglings s).nodeFlowTmp.sum)
      else (pageRankStep rates flowLinks danglings s).nodeFlowTmp := rfl

/-- The perturbation keeps `alpha + beta = 1` (lines 245-249). -/
theorem pageRankStep_alpha_beta (rates : List ℚ) (flowLinks : List Link)
    (danglings : List Nat) (s : PageRank) (h : s.alpha + s.beta = 1) :
    (pageRankStep rates flowLinks danglings s).alpha +
      (pageRankStep rates flowLinks danglings s).beta = 1 := by
  unfold pageRankStep
  simp only
  split
  · ring
  · exact h

end infomap

namespace infomap

/-! ## Balanced networks: the initial flow is stationary -/

/-- The initial node flow of a balanced network without self-links is the share of the
in-weight in `ΣW`. -/
theorem preprocess_nodeFlow_balanced (network : StateNetwork) (config : Config)
    (hmod : config.flowModel ≠ FlowModel.outdirdir) (hwf : network.WellFormed)
    (hself : ∀ l ∈ network.links, l.source ≠ l.target)
    (hbal : ∀ nd ∈ network.nodes, network.inWeight nd.id = network.outWeight nd.id) :
    (preprocess network config).m_nodeFlow =
      network.nodes.map (fun nd => network.inWeight nd.id / network.sumLinkWeight) := by
  apply ext_getD
  · simp [preprocess_nodeFlow_length, StateNetwork.numNodes]
  · intro j hj
    have hj2 : j < network.nodes.length := by
      simpa [preprocess_nodeFlow_length, StateNetwork.numNodes] using hj
    rw [preprocess_nodeFlow_noself network config hmod hwf hself j hj2,
      List.getD_eq_getElem _ _ (by simpa using hj2)]
    simp only [List.getElem_map]
    rw [← hbal _ (List.getElem_mem _), ← two_mul]
    exact mul_div_mul_left _ _ two_ne_zero

theorem Balanced.nodeFlow_eq {network : StateNetwork} {config : Config}
    (h : Balanced network config) :
    (preprocess network config).m_nodeFlow =
      network.nodes.map (fun nd => network.inWeight nd.id / network.sumLinkWeight) :=
  preprocess_nodeFlow_balanced network config (by rw [h.directed]; decide) h.wellFormed
    h.noSelf h.balanced

theorem Balanced.rates_eq {network : StateNetwork} {config : Config}
    (h : Balanced network config) :
    directedRates network config = (preprocess network config).m_nodeFlow := by
  rw [directedRates_eq, teleportRates_recorded network config h.wellFormed h.toLinks h.recorded,
    h.nodeFlow_eq]

/-- The flow that the initial distribution puts on a node, read through the dense index of
an id of the network. -/
theorem Balanced.nodeFlow_source {network : StateNetwork} {config : Config}
    (h : Balanced network config) (l : StateLink) (hl : l ∈ network.links) :
    (preprocess network config).m_nodeFlow.getD (network.indexOf l.source) 0 =
      network.outWeight l.source / network.sumLinkWeight := by
  obtain ⟨j, hj, hid⟩ := List.getElem_of_mem (h.wellFormed.2 l hl).1
  have hj2 : j < network.nodes.length := by simpa [StateNetwork.ids] using hj
  have e : (network.nodes[j]).id = l.source := by simpa [StateNetwork.ids] using hid
  have hix : network.indexOf l.source = j := by
    rw [← e]; exact indexOf_getElem network h.wellFormed.1 j hj2
  rw [hix, h.nodeFlow_eq, List.getD_eq_getElem _ _ (by simpa using hj2)]
  simp only [List.getElem_map]
  rw [h.balanced _ (List.getElem_mem _), e]

theorem Balanced.danglingRank_eq_zero {network : StateNetwork} {config : Config}
    (h : Balanced network config) :
    danglingRankOf (directedDanglings network config) (preprocess network config).m_nodeFlow =
      0 := by
  unfold danglingRankOf
  rw [sum_map_congr _ (fun _ => 0)]
  · simp
  · intro i hi
    have hlt : i < network.nodes.length := (not_source_of_dangling network config i hi).1
    rw [h.nodeFlow_eq, List.getD_eq_getElem _ _ (by simpa using hlt)]
    simp only [List.getElem_map]
    rw [h.balanced _ (List.getElem_mem _),
      outWeight_dangling network config h.wellFormed i hi hlt, zero_div]

/-- One power iteration maps the initial flow of a balanced network to itself, whatever
`alpha` and `beta` with `alpha + beta = 1`. -/
theorem Balanced.step_nodeFlowTmp {network : StateNetwork} {config : Config}
    (h : Balanced network config) (s : PageRank)
    (hs : s.m_nodeFlow = (preprocess network config).m_nodeFlow)
    (hab : s.alpha + s.beta = 1) :
    (directedStep network config s).nodeFlowTmp = (preprocess network config).m_nodeFlow := by
  unfold directedStep
  apply ext_getD
  · rw [pageRankStep_nodeFlowTmp_length, h.rates_eq]
  · intro j hj
    rw [pageRankStep_nodeFlowTmp_length] at hj
    have hj2 : j < network.nodes.length := by
      rw [h.rates_eq, preprocess_nodeFlow_length] at hj
      exact hj
    rw [pageRankStep_nodeFlowTmp_getD _ _ _ _ j hj, hs, h.danglingRank_eq_zero, mul_zero,
      add_zero, h.rates_eq, directedLinks_eq network config h.notUndirected h.wellFormed
        h.positive, List.map_map]
    have hlinks : (network.links.map ((fun l : Link => if l.target = j
          then s.beta * l.flow * (preprocess network config).m_nodeFlow.getD l.source 0 else 0) ∘
          (fun l : StateLink => Link.mk (network.indexOf l.source) (network.indexOf l.target)
            (l.weight / network.outWeight l.source)))).sum =
        s.beta * (network.inWeight (network.nodes[j]).id / network.sumLinkWeight) := by
      rw [StateNetwork.inWeight, ← sum_map_div, ← sum_map_mul_left_const,
        ← sum_target_index network h.wellFormed _ j hj2]
      apply sum_map_congr
      intro l hl
      simp only [Function.comp_apply]
      split
      · rw [h.nodeFlow_source l hl]
        have hne : network.outWeight l.source ≠ 0 :=
          ne_of_gt (outWeight_pos network h.positive l hl)
        field_simp
      · rfl
    rw [hlinks, h.nodeFlow_eq, List.getD_eq_getElem _ _ (by simpa using hj2)]
    simp only [List.getElem_map]
    rw [← add_mul, hab, one_mul]

/-- The initial flow of a balanced network sums to 1, or is zero everywhere when the
network has no link: the normalisation of lines 235-242 leaves it unchanged. -/
theorem Balanced.normalize_eq {network : StateNetwork} {config : Config}
    (h : Balanced network config) :
    (if |(preprocess network config).m_nodeFlow.sum - 1| > 1 / 10 ^ 10
      then (preprocess network config).m_nodeFlow.map
        (fun x => x / (preprocess network config).m_nodeFlow.sum)
      else (preprocess network config).m_nodeFlow) = (preprocess network config).m_nodeFlow := by
  by_cases hl : network.links = []
  · have hz : (preprocess network config).m_nodeFlow =
        List.replicate network.numNodes 0 := by
      unfold preprocess
      simp [hl]
    rw [hz]
    split
    · simp
    · rfl
  · have hpos := sumLinkWeight_pos network h.positive hl
    have hsum : (preprocess network config).m_nodeFlow.sum = 1 := by
      rw [← h.rates_eq, directedRates_eq]
      exact (teleportRates_toLinks_sum network config h.wellFormed h.toLinks
        (fun l hl => le_of_lt (h.positive l hl)) hpos).2
    rw [hsum, if_neg]
    norm_num

theorem Balanced.step_nodeFlow {network : StateNetwork} {config : Config}
    (h : Balanced network config) (s : PageRank)
    (hs : s.m_nodeFlow = (preprocess network config).m_nodeFlow)
    (hab : s.alpha + s.beta = 1) :
    (directedStep network config s).m_nodeFlow = (preprocess network config).m_nodeFlow := by
  have htmp := h.step_nodeFlowTmp s hs hab
  unfold directedStep at htmp ⊢
  rw [pageRankStep_nodeFlow, htmp]
  exact h.normalize_eq

/-- Every iterate of the loop carries the initial flow. -/
theorem Balanced.iterate_nodeFlow {network : StateNetwork} {config : Config}
    (h : Balanced network config) (k : Nat) :
    ((directedStep network config)^[k] (directedInit network config)).m_nodeFlow =
        (preprocess network config).m_nodeFlow ∧
      ((directedStep network config)^[k] (directedInit network config)).alpha +
        ((directedStep network config)^[k] (directedInit network config)).beta = 1 := by
  induction k with
  | zero =>
    refine ⟨rfl, ?_⟩
    simp [directedInit, pageRankInit]
  | succ k ih =>
    rw [Function.iterate_succ_apply']
    exact ⟨h.step_nodeFlow _ ih.1 ih.2, pageRankStep_alpha_beta _ _ _ _ ih.2⟩

/-- The loop of the directed model ends in one of its first 200 iterates. -/
theorem directedResult_eq_iterate (network : StateNetwork) (config : Config) :
    ∃ k, k ≤ 200 ∧
      directedResult network config =
        (directedStep network config)^[k] (directedInit network config) := by
  obtain ⟨k, _, h2, h3, _⟩ := pageRankLoop_spec (directedRates network config)
    (directedLinks network config) (directedDanglings network config) 200
    (directedInit network config) (by omega) rfl
  refine ⟨k, h2, ?_⟩
  unfold directedResult
  rw [h3]
  rfl

/-- The node flows written back by the directed model with recorded teleportation. -/
theorem directed_recorded_nodeFlows (network : StateNetwork) (config : Config)
    (hm : config.flowModel = FlowModel.directed) (hr : config.recordedTeleportation = true)
    (hlen : (directedResult network config).m_nodeFlow.length = network.numNodes) :
    nodeFlows (calculateFlow network config) = (directedResult network config).m_nodeFlow := by
  unfold calculateFlow
  rw [calculateFlowFull_directed network config hm, nodeFlows_finalize _ _ _
    (by simpa [afterPageRank, hr] using hlen)]
  simp [normalizeFlow, afterPageRank, hr]

end infomap

namespace infomap

/-- C6: under the directed model with recorded teleportation to links, on a network
without self-links, with positive weights, in which every node has equal in- and
out-weight, for every teleportation probability the initial flow is a fixed point of the
power iteration, every iterate of the loop carries it, and the final flow of a node is its
in-weight divided by `ΣW`; on the unit triangle with `α = 0.15` the node flows are
`[1/3, 1/3, 1/3]`. -/
theorem directed_balanced_flow (network : StateNetwork) (config : Config)
    (hm : config.flowModel = FlowModel.directed) (ht : config.teleportToNodes = false)
    (hr : config.recordedTeleportation = true) (hu : config.isUndirectedFlow = false)
    (hwf : network.WellFormed) (hself : ∀ l ∈ network.links, l.source ≠ l.target)
    (hw : ∀ l ∈ network.links, 0 < l.weight)
    (hbal : ∀ nd ∈ network.nodes, network.inWeight nd.id = network.outWeight nd.id) :
    (directedStep network config (directedInit network config)).m_nodeFlow =
        (directedInit network config).m_nodeFlow ∧
      (∀ k, ((directedStep network config)^[k] (directedInit network config)).m_nodeFlow =
        (directedInit network config).m_nodeFlow) ∧
      nodeFlows (calculateFlow network config) =
        network.nodes.map (fun nd => network.inWeight nd.id / network.sumLinkWeight) ∧
      nodeFlows (calculateFlow triangle (directedConfig (15 / 100) true false)) =
        [1 / 3, 1 / 3, 1 / 3] := by
  have h : Balanced network config := ⟨hm, ht, hr, hu, hwf, hself, hw, hbal⟩
  have hit := fun k => (h.iterate_nodeFlow k).1
  refine ⟨hit 1, hit, ?_, by decide!⟩
  obtain ⟨k, _, hk⟩ := directedResult_eq_iterate network config
  have hres : (directedResult network config).m_nodeFlow =
      (preprocess network config).m_nodeFlow := by rw [hk]; exact hit k
  rw [directed_recorded_nodeFlows network config hm hr
    (by rw [hres, preprocess_nodeFlow_length]), hres]
  exact h.nodeFlow_eq

/-- The hypotheses of `directed_balanced_flow` hold on the unit triangle with `α = 0.15`. -/
theorem directed_balanced_flow_witness :
    triangle.WellFormed ∧ (∀ l ∈ triangle.links, l.source ≠ l.target) ∧
      (∀ l ∈ triangle.links, 0 < l.weight) ∧
      (∀ nd ∈ triangle.nodes, triangle.inWeight nd.id = triangle.outWeight nd.id) ∧
      nodeFlows (calculateFlow triangle (directedConfig (15 / 100) true false)) =
        triangle.nodes.map (fun nd => triangle.inWeight nd.id / triangle.sumLinkWeight) :=
  ⟨by decide, by decide, by decide!, by decide!,
    (directed_balanced_flow triangle (directedConfig (15 / 100) true false) rfl rfl rfl rfl
      (by decide) (by decide) (by decide!) (by decide!)).2.2.1⟩

end infomap

namespace infomap

/-! ## The `undirdir` and `outdirdir` models -/

theorem le_sum_map_of_mem {β : Type} (f : β → ℚ) (xs : List β) (hf : ∀ b ∈ xs, 0 ≤ f b)
    (b : β) (hb : b ∈ xs) : f b ≤ (xs.map f).sum := by
  apply List.single_le_sum
  · intro x hx
    obtain ⟨c, hc, rfl⟩ := List.mem_map.mp hx
    exact hf c hc
  · exact List.mem_map.mpr ⟨b, hb, rfl⟩

theorem sum_map_pos {β : Type} (f : β → ℚ) (xs : List β) (hf : ∀ b ∈ xs, 0 < f b)
    (hne : xs ≠ []) : 0 < (xs.map f).sum := by
  obtain ⟨b, hb⟩ := List.exists_mem_of_ne_nil _ hne
  exact lt_of_lt_of_le (hf b hb) (le_sum_map_of_mem f xs (fun c hc => le_of_lt (hf c hc)) b hb)

/-- The links written back keep their end nodes and weight and take the flow of the link of
the calculator built from them. -/
theorem writeLinks_map (links : List StateLink) (f : StateLink → Link) (pre : List Link) :
    writeLinks links pre.length (pre ++ links.map f) =
      links.map (fun l => StateLink.mk l.source l.target l.weight (f l).flow) := by
  induction links generalizing pre with
  | nil => rfl
  | cons l rest ih =>
    simp only [writeLinks, List.map_cons, List.cons.injEq]
    constructor
    · congr 1
      rw [List.getD_eq_getElem?_getD, List.map_append, List.getElem?_append_right (by simp)]
      simp
    · have := ih (pre ++ [f l])
      simpa using this

theorem links_finalize_map (network : StateNetwork) (fc : FlowCalculator) (b : Bool)
    (f : StateLink → Link) (h : fc.m_flowLinks = network.links.map f) :
    (finalize network fc b).2.links =
      network.links.map (fun l => StateLink.mk l.source l.target l.weight (f l).flow) := by
  unfold finalize
  simp only
  rw [h]
  exact writeLinks_map network.links f []

/-- The initial flow of the source of a link of positive weight is positive. -/
theorem steady_pos (network : StateNetwork) (config : Config) (hwf : network.WellFormed)
    (hw : ∀ l ∈ network.links, 0 < l.weight) (l : StateLink) (hl : l ∈ network.links) :
    0 < (preprocess network config).m_nodeFlow.getD (network.indexOf l.source) 0 := by
  have hn := numNodes_pos_of_link network hwf l hl
  have hS : 0 < network.sumUndirLinkWeight :=
    sumUndirLinkWeight_pos network (fun k hk => le_of_lt (hw k hk))
      (sumLinkWeight_pos network hw (List.ne_nil_of_mem hl))
  rw [preprocess_nodeFlow_getD network config _ (indexOf_lt network l.source hn)]
  refine lt_of_lt_of_le ?_ (le_sum_map_of_mem _ network.links ?_ l hl)
  · simp only [if_true]
    exact lt_of_lt_of_le (div_pos (hw l hl) hS) (le_add_of_nonneg_right (by
      split
      · exact le_of_lt (div_pos (hw l hl) hS)
      · exact le_refl 0))
  · intro k hk
    have hk0 : 0 ≤ k.weight / network.sumUndirLinkWeight :=
      le_of_lt (div_pos (hw k hk) hS)
    apply add_nonneg <;> split <;> first | exact hk0 | exact le_refl 0

/-- The out-weight of the source of a link of positive weight is positive, under either
value of `isUndirectedFlow`. -/
theorem sumLinkOutWeight_pos (network : StateNetwork) (config : Config)
    (hwf : network.WellFormed) (hw : ∀ l ∈ network.links, 0 < l.weight) (l : StateLink)
    (hl : l ∈ network.links) :
    0 < (preprocess network config).sumLinkOutWeight.getD (network.indexOf l.source) 0 := by
  have hn := numNodes_pos_of_link network hwf l hl
  rw [preprocess_sumLinkOutWeight_getD network config _ (indexOf_lt network l.source hn)]
  refine lt_of_lt_of_le ?_ (le_sum_map_of_mem _ network.links ?_ l hl)
  · simp only [if_true]
    exact lt_of_lt_of_le (hw l hl) (le_add_of_nonneg_right (by
      split
      · exact le_of_lt (hw l hl)
      · exact le_refl 0))
  · intro k hk
    have hk0 : 0 ≤ k.weight := le_of_lt (hw k hk)
    apply add_nonneg <;> split <;> first | exact hk0 | exact le_refl 0

theorem steadyShare_pos (network : StateNetwork) (config : Config) (hwf : network.WellFormed)
    (hw : ∀ l ∈ network.links, 0 < l.weight) (l : StateLink) (hl : l ∈ network.links) :
    0 < steadyShare network config l :=
  div_pos (mul_pos (steady_pos network config hwf hw l hl) (hw l hl))
    (sumLinkOutWeight_pos network config hwf hw l hl)

/-- The calculator of `undirdir` and `outdirdir` (lines 120-140). -/
theorem calculateFlowFull_dir (network : StateNetwork) (config : Config)
    (hm : config.flowModel = FlowModel.undirdir ∨ config.flowModel = FlowModel.outdirdir) :
    calculateFlowFull network config =
      finalize network
        (FlowCalculator.mk
          (network.links.foldl (fun v l => addAt v (network.indexOf l.target)
            (steadyShare network config l)) (List.replicate network.numNodes 0))
          (List.replicate network.numNodes 0)
          (network.links.map (fun l => dirLink (preprocess network config).m_nodeFlow
            (preprocess network config).sumLinkOutWeight
            (network.links.foldl (fun v l => addAt v (network.indexOf l.target)
              (steadyShare network config l)) (List.replicate network.numNodes 0)).sum
            (network.toLink l)))) true := by
  have hfold : ∀ (ls : List StateLink) (v : List ℚ),
      (ls.map network.toLink).foldl (dirStep (preprocess network config).m_nodeFlow
        (preprocess network config).sumLinkOutWeight) v =
      ls.foldl (fun v l => addAt v (network.indexOf l.target) (steadyShare network config l))
        v := by
    intro ls
    induction ls with
    | nil => intro v; rfl
    | cons l ls ih =>
      intro v
      simp only [List.map_cons, List.foldl_cons]
      rw [ih]
      rfl
  have h1 : config.flowModel ≠ FlowModel.rawdir := by
    rcases hm with h | h <;> rw [h] <;> decide
  have h2 : config.flowModel ≠ FlowModel.directed := by
    rcases hm with h | h <;> rw [h] <;> decide
  unfold calculateFlowFull
  simp only [h1, h2, hm, if_false, if_true, ne_eq, not_false_eq_true]
  rw [preprocess_flowLinks, hfold, List.map_map]
  rfl

/-- The total flow `c` sent along the links by the directed step. -/
theorem dir_sumNodeFlow (network : StateNetwork) (config : Config) (hwf : network.WellFormed) :
    (network.links.foldl (fun v l => addAt v (network.indexOf l.target)
      (steadyShare network config l)) (List.replicate network.numNodes 0)).sum =
      (network.links.map (steadyShare network config)).sum := by
  rw [foldl_addAt_sum]
  simp only [List.sum_replicate, smul_zero, zero_add, List.length_replicate]
  apply sum_map_congr
  intro l hl
  rw [if_pos (indexOf_lt network l.target (numNodes_pos_of_link network hwf l hl))]

/-- The links written back by `undirdir` and `outdirdir`. -/
theorem dir_links (network : StateNetwork) (config : Config)
    (hm : config.flowModel = FlowModel.undirdir ∨ config.flowModel = FlowModel.outdirdir)
    (hwf : network.WellFormed) :
    (calculateFlow network config).links =
      network.links.map (fun l => StateLink.mk l.source l.target l.weight
        (steadyShare network config l / (network.links.map (steadyShare network config)).sum)) := by
  unfold calculateFlow
  rw [calculateFlowFull_dir network config hm, links_finalize_map _ _ _ _ rfl,
    dir_sumNodeFlow network config hwf]
  apply List.map_congr_left
  intro l _
  simp only [dirLink, StateNetwork.toLink, steadyShare, StateLink.mk.injEq, true_and]
  ring

/-- The node flows written back by `undirdir` and `outdirdir`. -/
theorem dir_nodeFlows (network : StateNetwork) (config : Config)
    (hm : config.flowModel = FlowModel.undirdir ∨ config.flowModel = FlowModel.outdirdir)
    (hwf : network.WellFormed) :
    nodeFlows (calculateFlow network config) =
      network.nodes.map (fun nd =>
        ((network.links.filter (fun l => l.target = nd.id)).map
          (steadyShare network config)).sum /
        (network.links.map (steadyShare network config)).sum) := by
  unfold calculateFlow
  rw [calculateFlowFull_dir network config hm, nodeFlows_finalize _ _ _
    (by simp [foldl_addAt_length])]
  simp only [normalizeFlow, if_true]
  rw [dir_sumNodeFlow network config hwf]
  apply ext_getD
  · simp [foldl_addAt_length, StateNetwork.numNodes]
  · intro j hj
    have hj2 : j < network.nodes.length := by
      simpa [foldl_addAt_length, StateNetwork.numNodes] using hj
    rw [getD_map_div, foldl_addAt_getD _ _ _ _ _ (by simpa [StateNetwork.numNodes] using hj2)]
    simp only [getD_replicate_zero, zero_add]
    rw [List.getD_eq_getElem _ _ (by simpa using hj2)]
    simp only [List.getElem_map]
    rw [sum_target_index network hwf _ j hj2]

/-- C10, as stated, fails on the network without nodes and links: all its links have
positive weight, and its link flows sum to 0 under `undirdir` and `outdirdir`. -/
theorem dir_flow_counterexample :
    (∀ l ∈ emptyNetwork.links, 0 < l.weight) ∧
      (linkFlows (calculateFlow emptyNetwork (defaultConfig FlowModel.undirdir))).sum ≠ 1 ∧
      (linkFlows (calculateFlow emptyNetwork (defaultConfig FlowModel.outdirdir))).sum ≠ 1 := by
  decide!

/-- C10, amended: under `undirdir` and `outdirdir`, for a network with at least one link
whose links have positive weight, the link flows sum to 1, the flow of every node is the
sum of the flows of the links into it, and every link `(s,t,w)` gets the flow
`steady[s]·w/sumOutWeight[s]` divided by the sum of these values over all links. -/
theorem dir_flow (network : StateNetwork) (config : Config)
    (hm : config.flowModel = FlowModel.undirdir ∨ config.flowModel = FlowModel.outdirdir)
    (hwf : network.WellFormed) (hw : ∀ l ∈ network.links, 0 < l.weight)
    (hne : network.links ≠ []) :
    (linkFlows (calculateFlow network config)).sum = 1 ∧
      nodeFlows (calculateFlow network config) =
        network.nodes.map (fun nd => (calculateFlow network config).inFlow nd.id) ∧
      linkFlows (calculateFlow network config) =
        network.links.map (fun l => steadyShare network config l /
          (network.links.map (steadyShare network config)).sum) := by
  have hc : 0 < (network.links.map (steadyShare network config)).sum :=
    sum_map_pos _ _ (steadyShare_pos network config hwf hw) hne
  have hlinks : linkFlows (calculateFlow network config) =
      network.links.map (fun l => steadyShare network config l /
        (network.links.map (steadyShare network config)).sum) := by
    unfold linkFlows
    rw [dir_links network config hm hwf, List.map_map]
    rfl
  refine ⟨?_, ?_, hlinks⟩
  · rw [hlinks, sum_map_div]
    exact div_self (ne_of_gt hc)
  · rw [dir_nodeFlows network config hm hwf]
    apply List.map_congr_left
    intro nd _
    unfold StateNetwork.inFlow
    rw [dir_links network config hm hwf, List.filter_map, List.map_map, ← sum_map_div]
    rfl

/-- The hypotheses of `dir_flow` hold on the unit triangle under `undirdir`. -/
theorem dir_flow_witness :
    triangle.WellFormed ∧ (∀ l ∈ triangle.links, 0 < l.weight) ∧ triangle.links ≠ [] ∧
      (linkFlows (calculateFlow triangle (defaultConfig FlowModel.undirdir))).sum = 1 :=
  ⟨by decide, by decide!, by decide,
    (dir_flow triangle (defaultConfig FlowModel.undirdir) (Or.inl rfl) (by decide)
      (by decide!) (by decide)).1⟩

end infomap

namespace infomap

/-! ## Grouping a sum over the links by node -/

theorem sum_range_ite (n k : Nat) (c : ℚ) :
    ((List.range n).map (fun j => if k = j then c else 0)).sum = if k < n then c else 0 := by
  induction n with
  | zero => simp
  | succ n ih =>
    rw [List.range_succ, List.map_append, List.sum_append, ih]
    simp only [List.map_cons, List.map_nil, List.sum_cons, List.sum_nil, add_zero]
    by_cases h1 : k < n
    · have h2 : k ≠ n := by omega
      have h3 : k < n + 1 := by omega
      simp [h1, h2, h3]
    · by_cases h2 : k = n
      · subst h2; simp
      · have h3 : ¬ k < n + 1 := by omega
        simp [h1, h2, h3]

/-- A sum over a list is the sum, over the indices below `n`, of the entries sent to each
index, when every entry is sent to an index below `n`. -/
theorem sum_group_by_index {β : Type} (f : β → ℚ) (g : β → Nat) (n : Nat) (xs : List β)
    (hg : ∀ b ∈ xs, g b < n) :
    (xs.map f).sum =
      ((List.range n).map (fun j => (xs.map (fun b => if g b = j then f b else 0)).sum)).sum := by
  induction xs with
  | nil => simp
  | cons b xs ih =>
    simp only [List.map_cons, List.sum_cons]
    rw [sum_map_add, sum_range_ite, if_pos (hg b (List.mem_cons_self _ _)),
      ← ih (fun c hc => hg c (List.mem_cons_of_mem _ hc))]

theorem sum_eq_sum_range (v : List ℚ) :
    v.sum = ((List.range v.length).map (fun j => v.getD j 0)).sum := by
  congr 1
  apply List.ext_getElem
  · simp
  · intro j h1 h2
    simp only [List.getElem_map, List.getElem_range]
    rw [List.getD_eq_getElem _ _ h1]

theorem getD_nonneg (v : List ℚ) (h : ∀ x ∈ v, 0 ≤ x) (j : Nat) : 0 ≤ v.getD j 0 := by
  by_cases hj : j < v.length
  · rw [List.getD_eq_getElem _ _ hj]
    exact h _ (List.getElem_mem _)
  · rw [List.getD_eq_default _ _ (by simpa using hj)]

theorem sum_filter_le_sum {β : Type} (p : β → Prop) [DecidablePred p] (f : β → ℚ)
    (xs : List β) (hf : ∀ b ∈ xs, 0 ≤ f b) :
    ((xs.filter (fun b => p b)).map f).sum ≤ (xs.map f).sum := by
  induction xs with
  | nil => simp
  | cons b xs ih =>
    have h1 := ih (fun c hc => hf c (List.mem_cons_of_mem _ hc))
    have h2 := hf b (List.mem_cons_self _ _)
    by_cases hb : p b
    · simp only [List.filter_cons, hb, decide_True, if_true, List.map_cons, List.sum_cons]
      linarith
    · simp only [List.filter_cons, hb, decide_False, List.map_cons, List.sum_cons]
      simp only [Bool.false_eq_true, if_false]
      linarith

theorem sum_filter_nonneg {β : Type} (p : β → Prop) [DecidablePred p] (f : β → ℚ)
    (xs : List β) (hf : ∀ b ∈ xs, 0 ≤ f b) :
    0 ≤ ((xs.filter (fun b => p b)).map f).sum :=
  sum_map_nonneg f _ (fun b hb => hf b (List.mem_filter.mp hb).1)

/-! ## The node without out-links -/

theorem foldl_prepStep_nodeOutDegree_zero (config : Config) (m : List (Nat × Nat)) (S : ℚ)
    (hu : config.isUndirectedFlow = false) (ls : List StateLink) (p : Prep) (j : Nat)
    (h : ∀ l ∈ ls, nodeIndexOf m l.source ≠ j) :
    (ls.foldl (prepStep config m S) p).nodeOutDegree.getD j 0 = p.nodeOutDegree.getD j 0 := by
  induction ls generalizing p with
  | nil => rfl
  | cons l ls ih =>
    rw [List.foldl_cons, ih _ (fun k hk => h k (List.mem_cons_of_mem _ hk)),
      prepStep_nodeOutDegree, if_neg (by simp [hu]), getD_modifyAt,
      if_neg (fun e => h l (List.mem_cons_self _ _) e.1.symm)]

/-- Under a directed flow, the dangling nodes are the nodes that are the source of no
link. -/
theorem mem_directedDanglings_iff (network : StateNetwork) (config : Config)
    (hu : config.isUndirectedFlow = false) (j : Nat) :
    j ∈ directedDanglings network config ↔
      j < network.numNodes ∧ ∀ l ∈ network.links, network.indexOf l.source ≠ j := by
  constructor
  · exact not_source_of_dangling network config j
  · rintro ⟨hj, h⟩
    unfold directedDanglings collectDanglings
    rw [List.mem_filter, List.mem_range]
    refine ⟨hj, ?_⟩
    have : (preprocess network config).nodeOutDegree.getD j 0 = 0 := by
      unfold preprocess
      simp only
      rw [foldl_prepStep_nodeOutDegree_zero _ _ _ hu _ _ _ h]
      simp
    simpa using this

end infomap

namespace infomap

/-! ## One power iteration preserves the total flow -/

/-- The flow leaving a node along its links, as a share of the flow on the node: all of
it, or nothing on a node without out-links. -/
theorem source_share (network : StateNetwork) (config : Config)
    (hu : config.isUndirectedFlow = false) (hwf : network.WellFormed)
    (hw : ∀ l ∈ network.links, 0 < l.weight) (nf : List ℚ) (j : Nat)
    (hj : j < network.nodes.length) :
    (network.links.map (fun l => if network.indexOf l.source = j
      then l.weight / network.outWeight l.source * nf.getD (network.indexOf l.source) 0
      else 0)).sum =
      if j ∈ directedDanglings network config then 0 else nf.getD j 0 := by
  have hterm : (network.links.map (fun l => if network.indexOf l.source = j
      then l.weight / network.outWeight l.source * nf.getD (network.indexOf l.source) 0
      else 0)).sum =
      (network.links.map (fun l => if network.indexOf l.source = j
        then l.weight / network.outWeight (network.nodes[j]).id * nf.getD j 0 else 0)).sum := by
    apply sum_map_congr
    intro l hl
    split
    · rename_i e
      have := (indexOf_eq_iff network hwf.1 l.source (hwf.2 l hl).1 j hj).mp e
      rw [e, this]
    · rfl
  rw [hterm, sum_source_index network hwf
    (fun l => l.weight / network.outWeight (network.nodes[j]).id * nf.getD j 0) j hj]
  have hsum : ((network.links.filter (fun l => l.source = (network.nodes[j]).id)).map
      (fun l => l.weight / network.outWeight (network.nodes[j]).id * nf.getD j 0)).sum =
      network.outWeight (network.nodes[j]).id / network.outWeight (network.nodes[j]).id *
        nf.getD j 0 := by
    have e : (fun l : StateLink =>
        l.weight / network.outWeight (network.nodes[j]).id * nf.getD j 0) =
        (fun l : StateLink => (nf.getD j 0 / network.outWeight (network.nodes[j]).id) *
          l.weight) := by
      funext l; ring
    rw [e, sum_map_mul_left_const]
    unfold StateNetwork.outWeight
    ring
  rw [hsum]
  by_cases hd : j ∈ directedDanglings network config
  · rw [if_pos hd, outWeight_dangling network config hwf j hd hj]
    simp
  · rw [if_neg hd]
    have hex : ∃ l ∈ network.links, network.indexOf l.source = j := by
      by_contra hcon
      exact hd ((mem_directedDanglings_iff network config hu j).mpr
        ⟨hj, fun l hl e => hcon ⟨l, hl, e⟩⟩)
    obtain ⟨l, hl, e⟩ := hex
    have hid := (indexOf_eq_iff network hwf.1 l.source (hwf.2 l hl).1 j hj).mp e
    have hpos := outWeight_pos network hw l hl
    rw [hid] at hpos
    rw [div_self (ne_of_gt hpos), one_mul]

/-- The flow on the dangling nodes, as a sum over all nodes. -/
theorem danglingRankOf_eq (network : StateNetwork) (config : Config) (nf : List ℚ) :
    danglingRankOf (directedDanglings network config) nf =
      ((List.range network.numNodes).map (fun j =>
        if j ∈ directedDanglings network config then nf.getD j 0 else 0)).sum := by
  have hmem : ∀ j ∈ List.range network.numNodes,
      (j ∈ directedDanglings network config ↔
        (preprocess network config).nodeOutDegree.getD j 0 = 0) := by
    intro j hj
    unfold directedDanglings collectDanglings
    rw [List.mem_filter]
    simp only [decide_eq_true_eq, and_iff_right_iff_imp]
    intro _
    exact hj
  rw [sum_map_congr _ (fun j => if (preprocess network config).nodeOutDegree.getD j 0 = 0
    then nf.getD j 0 else 0) _ (fun j hj => by rw [if_congr (hmem j hj) rfl rfl]),
    sum_map_ite_eq_filter]
  rfl

/-- The flow sent along the links is the flow on the nodes that are not dangling. -/
theorem directed_links_sum (network : StateNetwork) (config : Config)
    (hu : config.isUndirectedFlow = false) (hwf : network.WellFormed)
    (hw : ∀ l ∈ network.links, 0 < l.weight) (nf : List ℚ)
    (hlen : nf.length = network.numNodes) :
    (network.links.map (fun l =>
      l.weight / network.outWeight l.source * nf.getD (network.indexOf l.source) 0)).sum =
      nf.sum - danglingRankOf (directedDanglings network config) nf := by
  rw [sum_group_by_index _ (fun l => network.indexOf l.source) network.numNodes network.links
    (fun l hl => indexOf_lt network l.source (numNodes_pos_of_link network hwf l hl)),
    danglingRankOf_eq, sum_eq_sum_range nf, hlen, eq_sub_iff_add_eq, ← sum_map_add]
  apply sum_map_congr
  intro j hj
  rw [source_share network config hu hwf hw nf j (by simpa [StateNetwork.numNodes] using hj)]
  split <;> simp

end infomap

namespace infomap

theorem directedRates_length (network : StateNetwork) (config : Config) :
    (directedRates network config).length = network.numNodes := by
  unfold directedRates teleportRates
  simp only
  split
  · simp [foldl_setAt_length]
  · simp [foldl_addAt_length]

theorem directedLinks_length (network : StateNetwork) (config : Config) :
    (directedLinks network config).length = network.numLinks := by
  unfold directedLinks
  rw [preprocess_flowLinks]
  simp [StateNetwork.numLinks]

theorem danglingRankOf_nonneg (danglings : List Nat) (nf : List ℚ) (h : ∀ x ∈ nf, 0 ≤ x) :
    0 ≤ danglingRankOf danglings nf :=
  sum_map_nonneg _ _ (fun i _ => getD_nonneg nf h i)

/-- The total flow after one power iteration (lines 211-229). -/
theorem directedStep_tmp_sum (network : StateNetwork) (config : Config)
    (hu : config.isUndirectedFlow = false) (hwf : network.WellFormed)
    (hw : ∀ l ∈ network.links, 0 < l.weight) (s : PageRank)
    (hlen : s.m_nodeFlow.length = network.numNodes) :
    (directedStep network config s).nodeFlowTmp.sum =
      (s.alpha + s.beta * danglingRankOf (directedDanglings network config) s.m_nodeFlow) *
          (directedRates network config).sum +
        s.beta * (s.m_nodeFlow.sum -
          danglingRankOf (directedDanglings network config) s.m_nodeFlow) := by
  have hlinks : ((directedLinks network config).map (fun l =>
      if l.target < network.numNodes
      then s.beta * l.flow * s.m_nodeFlow.getD l.source 0 else 0)).sum =
      s.beta * (s.m_nodeFlow.sum -
        danglingRankOf (directedDanglings network config) s.m_nodeFlow) := by
    rw [directedLinks_eq network config hu hwf hw, List.map_map,
      ← directed_links_sum network config hu hwf hw s.m_nodeFlow hlen,
      ← sum_map_mul_left_const]
    apply sum_map_congr
    intro l hl
    simp only [Function.comp_apply]
    rw [if_pos (indexOf_lt network l.target (numNodes_pos_of_link network hwf l hl))]
    ring
  unfold directedStep pageRankStep
  simp only
  rw [foldl_addAt_sum, sum_map_mul_left_const]
  simp only [List.length_map, directedRates_length]
  rw [hlinks, List.map_id']

theorem directedLinks_flow_nonneg (network : StateNetwork) (config : Config)
    (hu : config.isUndirectedFlow = false) (hwf : network.WellFormed)
    (hw : ∀ l ∈ network.links, 0 < l.weight) :
    ∀ l ∈ directedLinks network config, 0 ≤ l.flow := by
  rw [directedLinks_eq network config hu hwf hw]
  intro l hl
  obtain ⟨k, hk, rfl⟩ := List.mem_map.mp hl
  exact le_of_lt (div_pos (hw k hk) (outWeight_pos network hw k hk))

/-- One execution of the loop body keeps the invariant, up to iteration 200. -/
theorem FlowInv.step {network : StateNetwork} {config : Config}
    (h : DirectedSetting network config) {s : PageRank} (hs : FlowInv network config s)
    (hit : s.numIterations < 200) : FlowInv network config (directedStep network config s) := by
  have hbeta : 0 ≤ s.beta := by
    have h1 := hs.alpha_le
    have h2 := hs.alpha_beta
    have h3 := h.alpha_le
    have h4 : (s.numIterations : ℚ) ≤ 200 := by exact_mod_cast le_of_lt hit
    have h5 : (s.numIterations : ℚ) / 10 ^ 10 ≤ 200 / 10 ^ 10 :=
      div_le_div_of_nonneg_right h4 (by norm_num)
    linarith
  have hdr := danglingRankOf_nonneg (directedDanglings network config) s.m_nodeFlow hs.nonneg
  have hsum : (directedStep network config s).nodeFlowTmp.sum = 1 := by
    rw [directedStep_tmp_sum network config h.notUndirected h.wellFormed h.positive s hs.length,
      h.rates_sum, hs.sum]
    have := hs.alpha_beta
    linear_combination this
  have htmp : ∀ x ∈ (directedStep network config s).nodeFlowTmp, 0 ≤ x := by
    unfold directedStep pageRankStep
    simp only
    apply foldl_addAt_nonneg
    · intro x hx
      obtain ⟨r, hr, rfl⟩ := List.mem_map.mp hx
      exact mul_nonneg (add_nonneg hs.alpha_nonneg (mul_nonneg hbeta hdr))
        (h.rates_nonneg r hr)
    · intro l hl
      exact mul_nonneg (mul_nonneg hbeta
        (directedLinks_flow_nonneg network config h.notUndirected h.wellFormed h.positive l hl))
        (getD_nonneg _ hs.nonneg _)
  have hnf : (directedStep network config s).m_nodeFlow =
      (directedStep network config s).nodeFlowTmp := by
    unfold directedStep at hsum ⊢
    rw [pageRankStep_nodeFlow, hsum, if_neg]
    norm_num
  refine ⟨?_, ?_, ?_, htmp, ?_, ?_, ?_⟩
  · rw [hnf]
    unfold directedStep
    rw [pageRankStep_nodeFlowTmp_length, directedRates_length]
  · rw [hnf]; exact htmp
  · rw [hnf]; exact hsum
  · exact pageRankStep_alpha_beta _ _ _ _ hs.alpha_beta
  · unfold directedStep pageRankStep
    simp only
    have := hs.alpha_nonneg
    split
    · positivity
    · exact this
  · have h1 := hs.alpha_le
    have e : ((directedStep network config s).numIterations : ℚ) = s.numIterations + 1 := by
      unfold directedStep
      rw [pageRankStep_numIterations]
      push_cast
      rfl
    rw [e, add_div]
    unfold directedStep pageRankStep
    simp only
    split
    · linarith
    · have : (0 : ℚ) ≤ 1 / 10 ^ 10 := by norm_num
      linarith

end infomap

namespace infomap

/-! ## The initial flow is a distribution -/

theorem preprocess_nodeFlow_nonneg (network : StateNetwork) (config : Config)
    (hw : ∀ l ∈ network.links, 0 ≤ l.weight) (hpos : 0 < network.sumLinkWeight) :
    ∀ x ∈ (preprocess network config).m_nodeFlow, 0 ≤ x := by
  have hS : 0 < network.sumUndirLinkWeight := sumUndirLinkWeight_pos network hw hpos
  intro x hx
  obtain ⟨j, hj, rfl⟩ := List.getElem_of_mem hx
  rw [← List.getD_eq_getElem _ 0 hj,
    preprocess_nodeFlow_getD network config j (by rwa [preprocess_nodeFlow_length] at hj)]
  apply sum_map_nonneg
  intro l hl
  have h0 : 0 ≤ l.weight / network.sumUndirLinkWeight := div_nonneg (hw l hl) (le_of_lt hS)
  apply add_nonneg <;> split <;> first | exact h0 | exact le_refl 0

/-- The symmetrised total weight, link by link. -/
theorem sumUndirLinkWeight_eq (network : StateNetwork) :
    network.sumUndirLinkWeight =
      (network.links.map (fun l => l.weight +
        (if l.source ≠ l.target then l.weight else 0))).sum := by
  unfold StateNetwork.sumUndirLinkWeight StateNetwork.sumLinkWeight
    StateNetwork.sumSelfLinkWeight
  rw [← sum_map_ite_eq_filter]
  have e : (network.links.map (fun l => l.weight +
      (if l.source ≠ l.target then l.weight else 0))).sum =
      (network.links.map (fun l => 2 * l.weight +
        (-1) * (if l.source = l.target then l.weight else 0))).sum := by
    apply sum_map_congr
    intro l _
    by_cases h : l.source = l.target
    · simp [h]; ring
    · simp [h]; ring
  rw [e, sum_map_add, sum_map_mul_left_const, sum_map_mul_left_const]
  ring

/-- The initial node flow sums to 1, for every model but `outdirdir`. -/
theorem preprocess_nodeFlow_sum (network : StateNetwork) (config : Config)
    (hmod : config.flowModel ≠ FlowModel.outdirdir) (hwf : network.WellFormed)
    (hw : ∀ l ∈ network.links, 0 ≤ l.weight) (hpos : 0 < network.sumLinkWeight) :
    (preprocess network config).m_nodeFlow.sum = 1 := by
  have hS : 0 < network.sumUndirLinkWeight := sumUndirLinkWeight_pos network hw hpos
  have hlt : ∀ l ∈ network.links, network.indexOf l.source < network.numNodes ∧
      network.indexOf l.target < network.numNodes := fun l hl =>
    ⟨indexOf_lt network _ (numNodes_pos_of_link network hwf l hl),
      indexOf_lt network _ (numNodes_pos_of_link network hwf l hl)⟩
  have hB : ∀ j, (network.links.map (fun l =>
      if network.indexOf l.source ≠ network.indexOf l.target ∧
          config.flowModel ≠ FlowModel.outdirdir ∧ network.indexOf l.target = j
      then l.weight / network.sumUndirLinkWeight else 0)).sum =
      (network.links.map (fun l => if network.indexOf l.target = j
        then (if l.source ≠ l.target then l.weight / network.sumUndirLinkWeight else 0)
        else 0)).sum := by
    intro j
    apply sum_map_congr
    intro l hl
    have hst := indexOf_inj network hwf.1 l.source l.target (hwf.2 l hl).1 (hwf.2 l hl).2
    by_cases h1 : network.indexOf l.target = j
    · by_cases h2 : l.source = l.target
      · rw [if_neg (fun hh => hh.1 (hst.mpr h2)), if_pos h1, if_neg (fun hh => hh h2)]
      · rw [if_pos ⟨fun e => h2 (hst.mp e), hmod, h1⟩, if_pos h1, if_pos h2]
    · rw [if_neg (fun hh => h1 hh.2.2), if_neg h1]
  rw [sum_eq_sum_range, preprocess_nodeFlow_length,
    sum_map_congr _ (fun j =>
      (network.links.map (fun l => if network.indexOf l.source = j
        then l.weight / network.sumUndirLinkWeight else 0)).sum +
      (network.links.map (fun l => if network.indexOf l.target = j
        then (if l.source ≠ l.target then l.weight / network.sumUndirLinkWeight else 0)
        else 0)).sum) _ (fun j hj => by
      rw [preprocess_nodeFlow_getD network config j (List.mem_range.mp hj), sum_map_add, hB]),
    sum_map_add,
    ← sum_group_by_index (fun l => l.weight / network.sumUndirLinkWeight)
      (fun l => network.indexOf l.source) network.numNodes network.links
      (fun l hl => (hlt l hl).1),
    ← sum_group_by_index
      (fun l => if l.source ≠ l.target then l.weight / network.sumUndirLinkWeight else 0)
      (fun l => network.indexOf l.target) network.numNodes network.links
      (fun l hl => (hlt l hl).2),
    ← sum_map_add]
  have e : (network.links.map (fun l => l.weight / network.sumUndirLinkWeight +
      (if l.source ≠ l.target then l.weight / network.sumUndirLinkWeight else 0))).sum =
      (network.links.map (fun l => (l.weight +
        (if l.source ≠ l.target then l.weight else 0)) / network.sumUndirLinkWeight)).sum := by
    apply sum_map_congr
    intro l _
    by_cases h : l.source = l.target <;> simp [h, add_div]
  rw [e, sum_map_div, ← sumUndirLinkWeight_eq]
  exact div_self (ne_of_gt hS)

/-- The invariant holds on entry to the loop. -/
theorem FlowInv.init {network : StateNetwork} {config : Config}
    (h : DirectedSetting network config) :
    FlowInv network config (directedInit network config) := by
  have hw0 : ∀ l ∈ network.links, 0 ≤ l.weight := fun l hl => le_of_lt (h.positive l hl)
  have hpos := sumLinkWeight_pos network h.positive h.nonempty
  refine ⟨preprocess_nodeFlow_length network config,
    preprocess_nodeFlow_nonneg network config hw0 hpos,
    preprocess_nodeFlow_sum network config (by rw [h.directed]; decide) h.wellFormed hw0 hpos,
    ?_, ?_, h.alpha_nonneg, ?_⟩
  · intro x hx
    have : x = 0 := List.eq_of_mem_replicate hx
    rw [this]
  · simp [directedInit, pageRankInit]
  · simp [directedInit, pageRankInit]

/-- The invariant holds after every iteration up to the 200th. -/
theorem FlowInv.iterate {network : StateNetwork} {config : Config}
    (h : DirectedSetting network config) (k : Nat) (hk : k ≤ 200) :
    FlowInv network config ((directedStep network config)^[k] (directedInit network config)) := by
  induction k with
  | zero => exact FlowInv.init h
  | succ k ih =>
    rw [Function.iterate_succ_apply']
    apply FlowInv.step h (ih (by omega))
    have := iterate_numIterations (directedRates network config) (directedLinks network config)
      (directedDanglings network config) (directedInit network config) k
    have e : ((directedStep network config)^[k] (directedInit network config)).numIterations =
        k := by
      unfold directedStep
      rw [this]
      simp [directedInit, pageRankInit]
    rw [e]
    omega

/-- The invariant holds on exit from the loop. -/
theorem FlowInv.result {network : StateNetwork} {config : Config}
    (h : DirectedSetting network config) :
    FlowInv network config (directedResult network config) ∧
      (directedResult network config).numIterations ≤ 200 := by
  obtain ⟨k, hk, e⟩ := directedResult_eq_iterate network config
  rw [e]
  refine ⟨FlowInv.iterate h k hk, ?_⟩
  have := iterate_numIterations (directedRates network config) (directedLinks network config)
    (directedDanglings network config) (directedInit network config) k
  unfold directedStep
  rw [this]
  simpa [directedInit, pageRankInit] using hk

end infomap

namespace infomap

/-! ## Bounds on the flows -/

/-- The teleport distribution is non-negative and sums to 1, for non-negative weights with
positive total. -/
theorem directedRates_distribution (network : StateNetwork) (config : Config)
    (hwf : network.WellFormed) (hw : ∀ l ∈ network.links, 0 ≤ l.weight)
    (hpos : 0 < network.sumLinkWeight) (hnw : ∀ nd ∈ network.nodes, 0 ≤ nd.weight)
    (hnpos : 0 < network.sumNodeWeight) :
    (∀ x ∈ directedRates network config, 0 ≤ x) ∧ (directedRates network config).sum = 1 := by
  rw [directedRates_eq]
  by_cases ht : config.teleportToNodes = true
  · rw [teleportRates_toNodes network config hwf ht]
    constructor
    · intro x hx
      obtain ⟨nd, hnd, rfl⟩ := List.mem_map.mp hx
      exact div_nonneg (hnw nd hnd) (le_of_lt hnpos)
    · rw [sum_map_div]
      exact div_self (ne_of_gt hnpos)
  · exact teleportRates_toLinks_sum network config hwf (by simpa using ht) hw hpos

/-- The node and link flows of the directed model with recorded teleportation. -/
theorem directed_recorded_bounds (network : StateNetwork) (config : Config)
    (h : DirectedSetting network config) (hr : config.recordedTeleportation = true) :
    (∀ x ∈ nodeFlows (calculateFlow network config), 0 ≤ x ∧ x ≤ 1) ∧
      (∀ x ∈ linkFlows (calculateFlow network config), 0 ≤ x) := by
  obtain ⟨hinv, hit⟩ := FlowInv.result h
  constructor
  · rw [directed_recorded_nodeFlows network config h.directed hr hinv.length]
    exact unit_interval_of_sum_one _ hinv.nonneg hinv.sum
  · have hbeta : 0 ≤ (directedResult network config).beta := by
      have h1 := hinv.alpha_le
      have h2 := hinv.alpha_beta
      have h3 := h.alpha_le
      have h4 : ((directedResult network config).numIterations : ℚ) ≤ 200 := by
        exact_mod_cast hit
      have h5 : ((directedResult network config).numIterations : ℚ) / 10 ^ 10 ≤
          200 / 10 ^ 10 := div_le_div_of_nonneg_right h4 (by norm_num)
      linarith
    unfold calculateFlow
    rw [calculateFlowFull_directed network config h.directed, linkFlows_finalize _ _ _
      (by simp [afterPageRank, hr, directedLinks_length])]
    simp only [afterPageRank, hr, if_true, List.map_map]
    intro x hx
    obtain ⟨l, hl, rfl⟩ := List.mem_map.mp hx
    simp only [Function.comp_apply, div_one]
    exact mul_nonneg
      (directedLinks_flow_nonneg network config h.notUndirected h.wellFormed h.positive l hl)
      (mul_nonneg hbeta (getD_nonneg _ hinv.tmp_nonneg _))

theorem inWeight_bounds (network : StateNetwork) (hw : ∀ l ∈ network.links, 0 ≤ l.weight)
    (id : Nat) : 0 ≤ network.inWeight id ∧ network.inWeight id ≤ network.sumLinkWeight :=
  ⟨sum_filter_nonneg _ _ _ hw, sum_filter_le_sum _ _ _ hw⟩

theorem incidentWeight_bounds (network : StateNetwork)
    (hw : ∀ l ∈ network.links, 0 ≤ l.weight) (id : Nat) :
    0 ≤ network.incidentWeight id ∧ network.incidentWeight id ≤ network.sumLinkWeight :=
  ⟨sum_filter_nonneg _ _ _ hw, sum_filter_le_sum _ _ _ hw⟩

theorem rawdir_bounds (network : StateNetwork) (config : Config)
    (hm : config.flowModel = FlowModel.rawdir) (hwf : network.WellFormed)
    (hw : ∀ l ∈ network.links, 0 ≤ l.weight) (hpos : 0 < network.sumLinkWeight) :
    (∀ x ∈ nodeFlows (calculateFlow network config), 0 ≤ x ∧ x ≤ 1) ∧
      (∀ x ∈ linkFlows (calculateFlow network config), 0 ≤ x) := by
  constructor
  · rw [rawdir_nodeFlows network config hm hwf hpos]
    intro x hx
    obtain ⟨nd, _, rfl⟩ := List.mem_map.mp hx
    have hb := inWeight_bounds network hw nd.id
    exact ⟨div_nonneg hb.1 (le_of_lt hpos), (div_le_one hpos).mpr hb.2⟩
  · rw [rawdir_linkFlows network config hm]
    intro x hx
    obtain ⟨l, hl, rfl⟩ := List.mem_map.mp hx
    exact div_nonneg (hw l hl) (le_of_lt hpos)

theorem undirected_bounds (network : StateNetwork) (config : Config)
    (hm : config.flowModel = FlowModel.undirected) (hwf : network.WellFormed)
    (hw : ∀ l ∈ network.links, 0 ≤ l.weight) (hpos : 0 < network.sumLinkWeight) :
    (∀ x ∈ nodeFlows (calculateFlow network config), 0 ≤ x ∧ x ≤ 1) ∧
      (∀ x ∈ linkFlows (calculateFlow network config), 0 ≤ x) := by
  have hS : 0 < network.sumUndirLinkWeight := sumUndirLinkWeight_pos network hw hpos
  have hle : network.sumLinkWeight ≤ network.sumUndirLinkWeight := by
    have := sumSelfLinkWeight_le network hw
    unfold StateNetwork.sumUndirLinkWeight
    linarith
  constructor
  · rw [undirected_nodeFlows network config hm hwf]
    intro x hx
    obtain ⟨nd, _, rfl⟩ := List.mem_map.mp hx
    have hb := incidentWeight_bounds network hw nd.id
    exact ⟨div_nonneg hb.1 (le_of_lt hS), (div_le_one hS).mpr (le_trans hb.2 hle)⟩
  · rw [undirected_linkFlows network config hm]
    intro x hx
    obtain ⟨l, hl, rfl⟩ := List.mem_map.mp hx
    exact div_nonneg (hw l hl) (by linarith)

theorem dir_bounds (network : StateNetwork) (config : Config)
    (hm : config.flowModel = FlowModel.undirdir ∨ config.flowModel = FlowModel.outdirdir)
    (hwf : network.WellFormed) (hw : ∀ l ∈ network.links, 0 < l.weight)
    (hne : network.links ≠ []) :
    (∀ x ∈ nodeFlows (calculateFlow network config), 0 ≤ x ∧ x ≤ 1) ∧
      (∀ x ∈ linkFlows (calculateFlow network config), 0 ≤ x) := by
  have hshare : ∀ l ∈ network.links, 0 ≤ steadyShare network config l := fun l hl =>
    le_of_lt (steadyShare_pos network config hwf hw l hl)
  have hc : 0 < (network.links.map (steadyShare network config)).sum :=
    sum_map_pos _ _ (steadyShare_pos network config hwf hw) hne
  constructor
  · rw [dir_nodeFlows network config hm hwf]
    intro x hx
    obtain ⟨nd, _, rfl⟩ := List.mem_map.mp hx
    exact ⟨div_nonneg (sum_filter_nonneg _ _ _ hshare) (le_of_lt hc),
      (div_le_one hc).mpr (sum_filter_le_sum _ _ _ hshare)⟩
  · unfold linkFlows
    rw [dir_links network config hm hwf, List.map_map]
    intro x hx
    obtain ⟨l, hl, rfl⟩ := List.mem_map.mp hx
    exact div_nonneg (hshare l hl) (le_of_lt hc)

/-- With a link of weight 0 the divisor of line 128 can be zero: on the network with the
links `0→1` of weight 1 and `2→1` of weight 0, whose weights are non-negative with positive
total, node 2 has the initial flow 0 and the out-weight 0 under `undirdir` and `outdirdir`,
so that the source evaluates `0.0 * 0.0 / 0.0` for the second link.  The bounds below
therefore ask for positive link weights. -/
theorem dirStep_zero_divisor :
    zeroLink.WellFormed ∧ (∀ l ∈ zeroLink.links, 0 ≤ l.weight) ∧ 0 < zeroLink.sumLinkWeight ∧
      (preprocess zeroLink (defaultConfig FlowModel.undirdir)).m_nodeFlow.getD
        (zeroLink.indexOf 2) 0 = 0 ∧
      (preprocess zeroLink (defaultConfig FlowModel.undirdir)).sumLinkOutWeight.getD
        (zeroLink.indexOf 2) 0 = 0 ∧
      (preprocess zeroLink (defaultConfig FlowModel.outdirdir)).sumLinkOutWeight.getD
        (zeroLink.indexOf 2) 0 = 0 := by
  decide!

/-- C9, as stated, fails on the unit triangle with `α = 1` under the directed model with
recorded teleportation to links: the weights are non-negative with positive totals, and the
perturbation of line 247 makes `β` negative, so that every link flow is `-49/30000000000`. -/
theorem flow_bounds_counterexample :
    (∀ l ∈ triangle.links, 0 ≤ l.weight) ∧ (∀ nd ∈ triangle.nodes, 0 ≤ nd.weight) ∧
      0 < triangle.sumLinkWeight ∧ 0 < triangle.sumNodeWeight ∧
      linkFlows (calculateFlow triangle (directedConfig 1 true false)) =
        [-49 / 30000000000, -49 / 30000000000, -49 / 30000000000] ∧
      ¬ (∀ x ∈ linkFlows (calculateFlow triangle (directedConfig 1 true false)), 0 ≤ x) := by
  decide!

/-- C9, amended: for a well-formed network with at least one link, positive link weights
and non-negative node weights with positive total, for every flow model (the directed model
with recorded teleportation) and every teleportation probability `0 ≤ α ≤ 1 − 2e-8`, every
node flow written back lies in `[0,1]` and every link flow is non-negative. -/
theorem flow_bounds (network : StateNetwork) (config : Config) (hwf : network.WellFormed)
    (hw : ∀ l ∈ network.links, 0 < l.weight) (hne : network.links ≠ [])
    (hnw : ∀ nd ∈ network.nodes, 0 ≤ nd.weight) (hnpos : 0 < network.sumNodeWeight)
    (hα0 : 0 ≤ config.teleportationProbability)
    (hα1 : config.teleportationProbability ≤ 1 - 2 / 10 ^ 8)
    (hdir : config.flowModel = FlowModel.directed →
      config.recordedTeleportation = true ∧ config.isUndirectedFlow = false) :
    (∀ x ∈ nodeFlows (calculateFlow network config), 0 ≤ x ∧ x ≤ 1) ∧
      (∀ x ∈ linkFlows (calculateFlow network config), 0 ≤ x) := by
  have hw0 : ∀ l ∈ network.links, 0 ≤ l.weight := fun l hl => le_of_lt (hw l hl)
  have hpos := sumLinkWeight_pos network hw hne
  cases hm : config.flowModel with
  | undirected => exact undirected_bounds network config hm hwf hw0 hpos
  | undirdir => exact dir_bounds network config (Or.inl hm) hwf hw hne
  | directed =>
    have hrates := directedRates_distribution network config hwf hw0 hpos hnw hnpos
    have hset : DirectedSetting network config :=
      ⟨hm, (hdir hm).2, hwf, hw, hne, hrates.1, hrates.2, hα0, by norm_num at hα1 ⊢; linarith⟩
    exact directed_recorded_bounds network config hset (hdir hm).1
  | rawdir => exact rawdir_bounds network config hm hwf hw0 hpos
  | outdirdir => exact dir_bounds network config (Or.inr hm) hwf hw hne

/-- The hypotheses of `flow_bounds` hold on the unit triangle under the directed model with
`α = 0.15` and recorded teleportation to links. -/
theorem flow_bounds_witness :
    triangle.WellFormed ∧ (∀ l ∈ triangle.links, 0 < l.weight) ∧ triangle.links ≠ [] ∧
      (∀ nd ∈ triangle.nodes, 0 ≤ nd.weight) ∧ 0 < triangle.sumNodeWeight ∧
      (∀ x ∈ linkFlows (calculateFlow triangle (directedConfig (15 / 100) true false)),
        0 ≤ x) :=
  ⟨by decide, by decide!, by decide, by decide!, by decide!,
    (flow_bounds triangle (directedConfig (15 / 100) true false) (by decide) (by decide!)
      (by decide) (by decide!) (by decide!) (by decide!) (by decide!)
      (fun _ => ⟨rfl, rfl⟩)).2⟩

end infomap

namespace infomap

/-! ## The sum of the node flows -/

/-- The normalisation of `finalize` yields node flows that sum to 1, when the sum it
divides by is not zero. -/
theorem sum_normalizeFlow (v : List ℚ) (h : v.sum ≠ 0) : (normalizeFlow true v).sum = 1 := by
  unfold normalizeFlow
  simp only [if_true]
  rw [sum_map_div (fun x => x) v.sum v, List.map_id']
  exact div_self h

/-- The node flows written back sum to exactly 1 under `rawdir`, `undirected`, `undirdir`,
`outdirdir` and the directed model with recorded teleportation, on a well-formed network
with at least one link, positive link weights, non-negative node weights with positive
total and `0 ≤ α ≤ 1 − 2e-8`. -/
theorem nodeFlows_sum_eq_one (network : StateNetwork) (config : Config)
    (hwf : network.WellFormed) (hw : ∀ l ∈ network.links, 0 < l.weight)
    (hne : network.links ≠ []) (hnw : ∀ nd ∈ network.nodes, 0 ≤ nd.weight)
    (hnpos : 0 < network.sumNodeWeight) (hα0 : 0 ≤ config.teleportationProbability)
    (hα1 : config.teleportationProbability ≤ 1 - 2 / 10 ^ 8)
    (hdir : config.flowModel = FlowModel.directed →
      config.recordedTeleportation = true ∧ config.isUndirectedFlow = false) :
    (nodeFlows (calculateFlow network config)).sum = 1 := by
  have hw0 : ∀ l ∈ network.links, 0 ≤ l.weight := fun l hl => le_of_lt (hw l hl)
  have hpos := sumLinkWeight_pos network hw hne
  have hn := numNodes_pos_of_sum_pos network hwf hpos
  have hdirsum : config.flowModel = FlowModel.undirdir ∨
      config.flowModel = FlowModel.outdirdir →
      (nodeFlows (calculateFlow network config)).sum = 1 := by
    intro hm
    unfold calculateFlow
    rw [calculateFlowFull_dir network config hm, nodeFlows_finalize _ _ _
      (by simp [foldl_addAt_length])]
    apply sum_normalizeFlow
    simp only
    rw [dir_sumNodeFlow network config hwf]
    exact ne_of_gt (sum_map_pos _ _ (steadyShare_pos network config hwf hw) hne)
  cases hm : config.flowModel with
  | undirected =>
    rw [undirected_nodeFlows_eq network config hm]
    exact preprocess_nodeFlow_sum network config (by rw [hm]; decide) hwf hw0 hpos
  | undirdir => exact hdirsum (Or.inl hm)
  | directed =>
    have hrates := directedRates_distribution network config hwf hw0 hpos hnw hnpos
    have hset : DirectedSetting network config :=
      ⟨hm, (hdir hm).2, hwf, hw, hne, hrates.1, hrates.2, hα0, by norm_num at hα1 ⊢; linarith⟩
    rw [directed_recorded_nodeFlows network config hm (hdir hm).1 (FlowInv.result hset).1.length]
    exact (FlowInv.result hset).1.sum
  | rawdir =>
    unfold calculateFlow
    rw [calculateFlowFull_rawdir network config hm, nodeFlows_finalize _ _ _
      (by simp [foldl_addAt_length])]
    apply sum_normalizeFlow
    simp only
    rw [foldl_addAt_sum]
    simp only [List.sum_replicate, smul_zero, zero_add, List.length_replicate, List.map_map]
    rw [sum_map_congr _ (fun l => l.weight / network.sumLinkWeight)]
    · rw [sum_map_div]
      have e : (network.links.map (fun l => l.weight)).sum / network.sumLinkWeight = 1 :=
        div_self (ne_of_gt hpos)
      rw [e]
      exact one_ne_zero
    · intro l _
      simp [StateNetwork.toLink, indexOf_lt network l.target hn]
  | outdirdir => exact hdirsum (Or.inr hm)

/-- C1, evaluated on a failing input: two nodes with the node weights 19 and 1, joined by
one link of weight 1, under the directed model with `α = 0`, unrecorded teleportation and
teleportation to nodes.  The weights are non-negative with positive totals; the loop runs
for 200 iterations without perturbation; the node flows written back are `0` and a value
above `1 + 1e-6`, so that their sum is not within `1e-10` of 1. -/
theorem nodeFlows_sum_unrecorded :
    (∀ l ∈ weightedPair.links, 0 ≤ l.weight) ∧ 0 < weightedPair.sumLinkWeight ∧
      (∀ nd ∈ weightedPair.nodes, 0 ≤ nd.weight) ∧ 0 < weightedPair.sumNodeWeight ∧
      (directedResult weightedPair (directedConfig 0 false true)).numIterations = 200 ∧
      (directedResult weightedPair (directedConfig 0 false true)).alpha = 0 ∧
      1 + 1 / 10 ^ 6 < (nodeFlows (calculateFlow weightedPair (directedConfig 0 false true))).sum ∧
      ¬ |(nodeFlows (calculateFlow weightedPair (directedConfig 0 false true))).sum - 1| ≤
        1 / 10 ^ 10 := by
  decide!

end infomap

namespace infomap

/-! ## Unrecorded teleportation: node flow and link flow -/

theorem normalizeLink_source (sow : List ℚ) (link : Link) :
    (normalizeLink sow link).source = link.source := by
  unfold normalizeLink
  split <;> rfl

theorem normalizeLink_target (sow : List ℚ) (link : Link) :
    (normalizeLink sow link).target = link.target := by
  unfold normalizeLink
  split <;> rfl

/-- The links of the directed model, built link by link from the links of the network. -/
theorem directedLinks_map (network : StateNetwork) (config : Config) :
    directedLinks network config =
      network.links.map (fun l =>
        normalizeLink (preprocess network config).sumLinkOutWeight (network.toLink l)) := by
  unfold directedLinks
  rw [preprocess_flowLinks, List.map_map]
  rfl

/-- The calculator of the directed model with unrecorded teleportation (lines 256-274). -/
theorem afterPageRank_unrecorded (config : Config) (numNodes : Nat) (flowLinks : List Link)
    (s : PageRank) (hr : config.recordedTeleportation = false) :
    afterPageRank config numNodes flowLinks s =
      (flowLinks.foldl (fun nf link => addAt nf link.target
          (link.flow * s.nodeFlowTmp.getD link.source 0 / (1 - s.danglingRank)))
          (List.replicate numNodes 0),
        flowLinks.map (fun link => Link.mk link.source link.target
          (link.flow * (1 * s.nodeFlowTmp.getD link.source 0 / (1 - s.danglingRank))))) := by
  unfold afterPageRank
  simp [hr]

theorem unrecorded_links (network : StateNetwork) (config : Config)
    (hm : config.flowModel = FlowModel.directed) (hr : config.recordedTeleportation = false) :
    (calculateFlow network config).links =
      network.links.map (fun l => StateLink.mk l.source l.target l.weight
        (unrecordedLinkFlow network config l)) := by
  unfold calculateFlow
  rw [calculateFlowFull_directed network config hm,
    afterPageRank_unrecorded _ _ _ _ hr, directedLinks_map, List.map_map,
    links_finalize_map _ _ _ _ rfl]
  apply List.map_congr_left
  intro l _
  simp only [Function.comp_apply, normalizeLink_source, StateNetwork.toLink,
    unrecordedLinkFlow, StateLink.mk.injEq, true_and]
  ring

theorem unrecorded_nodeFlows_getD (network : StateNetwork) (config : Config)
    (hm : config.flowModel = FlowModel.directed) (hr : config.recordedTeleportation = false) :
    nodeFlows (calculateFlow network config) =
      network.links.foldl (fun nf l => addAt nf (network.indexOf l.target)
        (unrecordedLinkFlow network config l)) (List.replicate network.numNodes 0) := by
  have hfold : ∀ (ls : List StateLink) (v : List ℚ),
      (ls.map (fun l => normalizeLink (preprocess network config).sumLinkOutWeight
        (network.toLink l))).foldl (fun nf link => addAt nf link.target
          (link.flow * (directedResult network config).nodeFlowTmp.getD link.source 0 /
            (1 - (directedResult network config).danglingRank))) v =
      ls.foldl (fun nf l => addAt nf (network.indexOf l.target)
        (unrecordedLinkFlow network config l)) v := by
    intro ls
    induction ls with
    | nil => intro v; rfl
    | cons l ls ih =>
      intro v
      simp only [List.map_cons, List.foldl_cons]
      rw [ih]
      simp only [normalizeLink_source, normalizeLink_target, StateNetwork.toLink,
        unrecordedLinkFlow]
  unfold calculateFlow
  rw [calculateFlowFull_directed network config hm,
    afterPageRank_unrecorded _ _ _ _ hr, directedLinks_map, nodeFlows_finalize _ _ _
      (by simp [foldl_addAt_length])]
  simp only [normalizeFlow, Bool.false_eq_true, if_false]
  exact hfold _ _

/-- C11: under the directed model with unrecorded teleportation the final flow of every
node is the sum of the final flows of the links entering it, and the link flows sum to the
same value as the node flows; no hypothesis on the link weights is needed. -/
theorem unrecorded_nodeFlow_eq_inFlow (network : StateNetwork) (config : Config)
    (hm : config.flowModel = FlowModel.directed) (hr : config.recordedTeleportation = false)
    (hwf : network.WellFormed) :
    nodeFlows (calculateFlow network config) =
        network.nodes.map (fun nd => (calculateFlow network config).inFlow nd.id) ∧
      (linkFlows (calculateFlow network config)).sum =
        (nodeFlows (calculateFlow network config)).sum := by
  constructor
  · rw [unrecorded_nodeFlows_getD network config hm hr]
    apply ext_getD
    · simp [foldl_addAt_length, StateNetwork.numNodes]
    · intro j hj
      have hj2 : j < network.nodes.length := by
        simpa [foldl_addAt_length, StateNetwork.numNodes] using hj
      rw [foldl_addAt_getD _ _ _ _ _ (by simpa [StateNetwork.numNodes] using hj2)]
      simp only [getD_replicate_zero, zero_add]
      rw [List.getD_eq_getElem _ _ (by simpa using hj2)]
      simp only [List.getElem_map]
      rw [sum_target_index network hwf _ j hj2]
      unfold StateNetwork.inFlow
      rw [unrecorded_links network config hm hr, List.filter_map, List.map_map]
      rfl
  · rw [unrecorded_nodeFlows_getD network config hm hr, foldl_addAt_sum]
    simp only [List.sum_replicate, smul_zero, zero_add, List.length_replicate]
    unfold linkFlows
    rw [unrecorded_links network config hm hr, List.map_map]
    apply sum_map_congr
    intro l hl
    rw [if_pos (indexOf_lt network l.target (numNodes_pos_of_link network hwf l hl))]
    rfl

/-- The hypotheses of `unrecorded_nodeFlow_eq_inFlow` hold on the unit triangle with
unrecorded teleportation to links. -/
theorem unrecorded_nodeFlow_eq_inFlow_witness :
    triangle.WellFormed ∧
      (linkFlows (calculateFlow triangle (directedConfig (15 / 100) false false))).sum =
        (nodeFlows (calculateFlow triangle (directedConfig (15 / 100) false false))).sum :=
  ⟨by decide,
    (unrecorded_nodeFlow_eq_inFlow triangle (directedConfig (15 / 100) false false) rfl rfl
      (by decide)).2⟩

end infomap

namespace infomap

/-! ## The write-back, and the absence of error exits -/

theorem length_writeNodes (nodes : List StateNode) (k : Nat) (nodeFlow : List ℚ) :
    (writeNodes nodes k nodeFlow).length = nodes.length := by
  induction nodes generalizing k with
  | nil => rfl
  | cons nd rest ih => simp [writeNodes, ih]

theorem length_writeLinks (links : List StateLink) (k : Nat) (flowLinks : List Link) :
    (writeLinks links k flowLinks).length = links.length := by
  induction links generalizing k with
  | nil => rfl
  | cons l rest ih => simp [writeLinks, ih]

/-- Every path of `calculateFlow` ends in the write-back of `finalize`. -/
theorem calculateFlow_writeBack (network : StateNetwork) (config : Config) :
    calculateFlow network config =
      StateNetwork.mk
        (writeNodes network.nodes 0 (calculateFlowFull network config).1.m_nodeFlow)
        (writeLinks network.links 0 (calculateFlowFull network config).1.m_flowLinks) := by
  unfold calculateFlow calculateFlowFull
  simp only
  split
  · rfl
  · split
    · split <;> rfl
    · rfl

theorem length_nodeFlows (network : StateNetwork) (config : Config) :
    (nodeFlows (calculateFlow network config)).length = network.numNodes := by
  rw [calculateFlow_writeBack]
  simp [nodeFlows, length_writeNodes, StateNetwork.numNodes]

theorem length_linkFlows (network : StateNetwork) (config : Config) :
    (linkFlows (calculateFlow network config)).length = network.numLinks := by
  rw [calculateFlow_writeBack]
  simp [linkFlows, length_writeLinks, StateNetwork.numLinks]

/-- C12, as stated, fails on one node without links under the undirected model: the network
has a node and total link weight 0, and the call ends normally with the node flow 0 written
back, not with the error `EmptyFlow`. -/
theorem emptyFlow_counterexample :
    0 < oneNode.numNodes ∧ oneNode.sumLinkWeight = 0 ∧
      calculateFlowOutcome oneNode (defaultConfig FlowModel.undirected) =
        Except.ok (StateNetwork.mk [StateNode.mk 0 1 0] []) ∧
      calculateFlowOutcome oneNode (defaultConfig FlowModel.undirected) ≠
        Except.error FlowError.EmptyFlow := by
  refine ⟨by decide, by decide!, ?_, ?_⟩
  · have : calculateFlow oneNode (defaultConfig FlowModel.undirected) =
        StateNetwork.mk [StateNode.mk 0 1 0] [] := by decide!
    unfold calculateFlowOutcome
    rw [this]
  · unfold calculateFlowOutcome
    intro h
    cases h

/-- C12, amended: `calculateFlow` has no error exit: for every network, also one with at
least one node and total link weight 0, it ends normally with a flow written back for
every node and every link; without links, the undirected model writes back the node flow 0
everywhere. -/
theorem emptyFlow_no_error (network : StateNetwork) (config : Config) :
    calculateFlowOutcome network config = Except.ok (calculateFlow network config) ∧
      (∀ e, calculateFlowOutcome network config ≠ Except.error e) ∧
      (nodeFlows (calculateFlow network config)).length = network.numNodes ∧
      (linkFlows (calculateFlow network config)).length = network.numLinks ∧
      (network.links = [] → config.flowModel = FlowModel.undirected →
        nodeFlows (calculateFlow network config) = List.replicate network.numNodes 0) := by
  refine ⟨rfl, ?_, length_nodeFlows network config, length_linkFlows network config, ?_⟩
  · intro e h
    unfold calculateFlowOutcome at h
    cases h
  · intro hl hm
    rw [undirected_nodeFlows_eq network config hm]
    unfold preprocess
    simp [hl]

/-- On one node without links, which has total link weight 0, `emptyFlow_no_error` gives the
node flow 0. -/
theorem emptyFlow_no_error_witness :
    0 < oneNode.numNodes ∧ oneNode.sumLinkWeight = 0 ∧
      nodeFlows (calculateFlow oneNode (defaultConfig FlowModel.undirected)) =
        List.replicate oneNode.numNodes 0 :=
  ⟨by decide, by decide!,
    (emptyFlow_no_error oneNode (defaultConfig FlowModel.undirected)).2.2.2.2 rfl rfl⟩

/-! ## Ids that name no node -/

theorem lookup_eq_none_of_not_mem (nodes : List StateNode) (id : Nat)
    (h : id ∉ nodes.map (fun nd => nd.id)) :
    (buildNodeIndexMap nodes 0 []).lookup id = none := by
  rw [lookup_build_not_mem nodes 0 [] id h]
  rfl

/-- The lookup of an id that names no node yields the dense index 0. -/
theorem indexOf_unknown (network : StateNetwork) (id : Nat) (h : id ∉ network.ids) :
    network.indexOf id = 0 := by
  unfold StateNetwork.indexOf nodeIndexOf
  rw [lookup_eq_none_of_not_mem network.nodes id h]
  rfl

/-- C14, as stated, fails on the network with the nodes 5 and 7 and a link from 7 to the
id 9: under `rawdir` the call ends normally, the calculator builds the link `(1, 0)` and
the node 5, of dense index 0, receives the whole flow. -/
theorem unknown_id_counterexample :
    9 ∉ strayLink.ids ∧
      (∀ e, calculateFlowOutcome strayLink (defaultConfig FlowModel.rawdir) ≠ Except.error e) ∧
      (preprocess strayLink (defaultConfig FlowModel.rawdir)).m_flowLinks = [Link.mk 1 0 1] ∧
      nodeFlows (calculateFlow strayLink (defaultConfig FlowModel.rawdir)) = [1, 0] ∧
      linkFlows (calculateFlow strayLink (defaultConfig FlowModel.rawdir)) = [1] := by
  refine ⟨by decide, ?_, by decide!, by decide!, by decide!⟩
  intro e h
  unfold calculateFlowOutcome at h
  cases h

/-- C14, amended: when a link names a source or target id that is the id of no node,
`calculateFlow` reports no error: the lookup yields the dense index 0, and the link of the
calculator built from it has the index 0 at that end, like a link of the node with dense
index 0. -/
theorem unknown_id_index (network : StateNetwork) (config : Config) (l : StateLink)
    (hl : l ∈ network.links) (hid : l.source ∉ network.ids ∨ l.target ∉ network.ids) :
    (∀ e, calculateFlowOutcome network config ≠ Except.error e) ∧
      (l.source ∉ network.ids → (network.toLink l).source = 0) ∧
      (l.target ∉ network.ids → (network.toLink l).target = 0) ∧
      network.toLink l ∈ (preprocess network config).m_flowLinks ∧
      ((network.toLink l).source = 0 ∨ (network.toLink l).target = 0) := by
  refine ⟨?_, fun h => indexOf_unknown network _ h, fun h => indexOf_unknown network _ h,
    ?_, ?_⟩
  · intro e h
    unfold calculateFlowOutcome at h
    cases h
  · rw [preprocess_flowLinks]
    exact List.mem_map_of_mem _ hl
  · rcases hid with h | h
    · exact Or.inl (indexOf_unknown network _ h)
    · exact Or.inr (indexOf_unknown network _ h)

/-- The hypotheses of `unknown_id_index` hold for the link to the id 9. -/
theorem unknown_id_index_witness :
    StateLink.mk 7 9 1 0 ∈ strayLink.links ∧ 9 ∉ strayLink.ids ∧
      (strayLink.toLink (StateLink.mk 7 9 1 0)).target = 0 :=
  ⟨by decide, by decide,
    (unknown_id_index strayLink (defaultConfig FlowModel.rawdir) (StateLink.mk 7 9 1 0)
      (by decide) (Or.inr (by decide))).2.2.1 (by decide)⟩

end infomap

namespace infomap

/-! ## Non-negative flows, and the nodes without in-links -/

theorem normalizeLink_flow_nonneg (sow : List ℚ) (link : Link) (h : 0 ≤ link.flow) :
    0 ≤ (normalizeLink sow link).flow := by
  unfold normalizeLink
  split
  · rename_i hpos
    exact div_nonneg h (le_of_lt hpos)
  · exact h

theorem directedLinks_flow_nonneg_of_nonneg (network : StateNetwork) (config : Config)
    (hw : ∀ l ∈ network.links, 0 ≤ l.weight) :
    ∀ l ∈ directedLinks network config, 0 ≤ l.flow := by
  rw [directedLinks_map]
  intro l hl
  obtain ⟨k, hk, rfl⟩ := List.mem_map.mp hl
  exact normalizeLink_flow_nonneg _ _ (hw k hk)

/-- The new flow is non-negative when the old flow, the rates, the link flows, `alpha` and
`beta` are. -/
theorem pageRankStep_tmp_nonneg (rates : List ℚ) (flowLinks : List Link)
    (danglings : List Nat) (s : PageRank) (hrates : ∀ x ∈ rates, 0 ≤ x)
    (hfl : ∀ l ∈ flowLinks, 0 ≤ l.flow) (hnf : ∀ x ∈ s.m_nodeFlow, 0 ≤ x)
    (ha : 0 ≤ s.alpha) (hb : 0 ≤ s.beta) :
    ∀ x ∈ (pageRankStep rates flowLinks danglings s).nodeFlowTmp, 0 ≤ x := by
  unfold pageRankStep
  simp only
  apply foldl_addAt_nonneg
  · intro x hx
    obtain ⟨r, hr, rfl⟩ := List.mem_map.mp hx
    exact mul_nonneg (add_nonneg ha (mul_nonneg hb (danglingRankOf_nonneg _ _ hnf)))
      (hrates r hr)
  · intro l hl
    exact mul_nonneg (mul_nonneg hb (hfl l hl)) (getD_nonneg _ hnf _)

theorem pageRankStep_nodeFlow_nonneg (rates : List ℚ) (flowLinks : List Link)
    (danglings : List Nat) (s : PageRank) (hrates : ∀ x ∈ rates, 0 ≤ x)
    (hfl : ∀ l ∈ flowLinks, 0 ≤ l.flow) (hnf : ∀ x ∈ s.m_nodeFlow, 0 ≤ x)
    (ha : 0 ≤ s.alpha) (hb : 0 ≤ s.beta) :
    ∀ x ∈ (pageRankStep rates flowLinks danglings s).m_nodeFlow, 0 ≤ x := by
  have htmp := pageRankStep_tmp_nonneg rates flowLinks danglings s hrates hfl hnf ha hb
  rw [pageRankStep_nodeFlow]
  split
  · intro x hx
    obtain ⟨y, hy, rfl⟩ := List.mem_map.mp hx
    exact div_nonneg (htmp y hy) (sum_nonneg_of_forall _ htmp)
  · exact htmp

/-- After one iteration a node without in-links has at most the flow of any node with the
same teleport rate. -/
theorem pageRankStep_no_inlink_le (rates : List ℚ) (flowLinks : List Link)
    (danglings : List Nat) (s : PageRank) (hrates : ∀ x ∈ rates, 0 ≤ x)
    (hfl : ∀ l ∈ flowLinks, 0 ≤ l.flow) (hnf : ∀ x ∈ s.m_nodeFlow, 0 ≤ x)
    (ha : 0 ≤ s.alpha) (hb : 0 ≤ s.beta) (i j : Nat) (hi : i < rates.length)
    (hj : j < rates.length) (hij : rates.getD i 0 = rates.getD j 0)
    (hin : ∀ l ∈ flowLinks, l.target ≠ i) :
    (pageRankStep rates flowLinks danglings s).m_nodeFlow.getD i 0 ≤
      (pageRankStep rates flowLinks danglings s).m_nodeFlow.getD j 0 := by
  have htmp := pageRankStep_tmp_nonneg rates flowLinks danglings s hrates hfl hnf ha hb
  have hle : (pageRankStep rates flowLinks danglings s).nodeFlowTmp.getD i 0 ≤
      (pageRankStep rates flowLinks danglings s).nodeFlowTmp.getD j 0 := by
    rw [pageRankStep_nodeFlowTmp_getD _ _ _ _ i hi, pageRankStep_nodeFlowTmp_getD _ _ _ _ j hj,
      hij, sum_map_congr _ (fun _ => 0) flowLinks (fun l hl => if_neg (hin l hl))]
    simp only [List.map_const', List.sum_replicate, smul_zero, add_zero]
    apply le_add_of_nonneg_right
    apply sum_map_nonneg
    intro l hl
    split
    · exact mul_nonneg (mul_nonneg hb (hfl l hl)) (getD_nonneg _ hnf _)
    · exact le_refl 0
  rw [pageRankStep_nodeFlow]
  split
  · rw [getD_map_div, getD_map_div]
    exact div_le_div_of_nonneg_right hle (sum_nonneg_of_forall _ htmp)
  · exact hle

/-- The perturbation leaves `alpha` or adds `1e-10` to it. -/
theorem pageRankStep_alpha_cases (rates : List ℚ) (flowLinks : List Link)
    (danglings : List Nat) (s : PageRank) :
    (pageRankStep rates flowLinks danglings s).alpha = s.alpha ∨
      (pageRankStep rates flowLinks danglings s).alpha = s.alpha + 1 / 10 ^ 10 := by
  unfold pageRankStep
  simp only
  split
  · exact Or.inr rfl
  · exact Or.inl rfl

theorem directedStep_alpha_cases (network : StateNetwork) (config : Config) (s : PageRank) :
    (directedStep network config s).alpha = s.alpha ∨
      (directedStep network config s).alpha = s.alpha + 1 / 10 ^ 10 :=
  pageRankStep_alpha_cases _ _ _ s

end infomap

namespace infomap

theorem sumUndirLinkWeight_nonneg (network : StateNetwork)
    (hw : ∀ l ∈ network.links, 0 ≤ l.weight) : 0 ≤ network.sumUndirLinkWeight := by
  have h1 := sumSelfLinkWeight_le network hw
  have h2 : 0 ≤ network.sumLinkWeight := sum_map_nonneg _ _ hw
  unfold StateNetwork.sumUndirLinkWeight
  linarith

/-- The initial flow is non-negative when the link weights are. -/
theorem preprocess_nodeFlow_nonneg_of_nonneg (network : StateNetwork) (config : Config)
    (hw : ∀ l ∈ network.links, 0 ≤ l.weight) :
    ∀ x ∈ (preprocess network config).m_nodeFlow, 0 ≤ x := by
  have hS := sumUndirLinkWeight_nonneg network hw
  intro x hx
  obtain ⟨j, hj, rfl⟩ := List.getElem_of_mem hx
  rw [← List.getD_eq_getElem _ 0 hj,
    preprocess_nodeFlow_getD network config j (by rwa [preprocess_nodeFlow_length] at hj)]
  apply sum_map_nonneg
  intro l hl
  have h0 : 0 ≤ l.weight / network.sumUndirLinkWeight := div_nonneg (hw l hl) hS
  apply add_nonneg <;> split <;> first | exact h0 | exact le_refl 0

/-- The part of the loop invariant that needs no sum: for non-negative link weights the flow
is non-negative, and `alpha` grows from its initial value by at most `1e-10` per iteration,
with `alpha + beta = 1`. -/
theorem iterate_nonneg_inv (network : StateNetwork) (config : Config)
    (hw : ∀ l ∈ network.links, 0 ≤ l.weight)
    (hrates : ∀ x ∈ directedRates network config, 0 ≤ x)
    (hα0 : 0 ≤ config.teleportationProbability)
    (hα1 : config.teleportationProbability + 200 / 10 ^ 10 ≤ 1) (k : Nat) (hk : k ≤ 200) :
    (∀ x ∈ ((directedStep network config)^[k] (directedInit network config)).m_nodeFlow,
        0 ≤ x) ∧
      0 ≤ ((directedStep network config)^[k] (directedInit network config)).alpha ∧
      ((directedStep network config)^[k] (directedInit network config)).alpha ≤
        config.teleportationProbability + k / 10 ^ 10 ∧
      ((directedStep network config)^[k] (directedInit network config)).alpha +
        ((directedStep network config)^[k] (directedInit network config)).beta = 1 := by
  induction k with
  | zero =>
    refine ⟨preprocess_nodeFlow_nonneg_of_nonneg network config hw, hα0, ?_, ?_⟩
    · simp [directedInit, pageRankInit]
    · simp [directedInit, pageRankInit]
  | succ k ih =>
    obtain ⟨h1, h2, h3, h4⟩ := ih (by omega)
    have hk2 : (k : ℚ) ≤ 199 := by exact_mod_cast (by omega : k ≤ 199)
    have hb : 0 ≤ ((directedStep network config)^[k] (directedInit network config)).beta := by
      have : (k : ℚ) / 10 ^ 10 ≤ 199 / 10 ^ 10 := div_le_div_of_nonneg_right hk2 (by norm_num)
      have e : (200 : ℚ) / 10 ^ 10 = 199 / 10 ^ 10 + 1 / 10 ^ 10 := by norm_num
      have : (0 : ℚ) ≤ 1 / 10 ^ 10 := by norm_num
      linarith
    rw [Function.iterate_succ_apply']
    refine ⟨pageRankStep_nodeFlow_nonneg _ _ _ _ hrates
      (directedLinks_flow_nonneg_of_nonneg network config hw) h1 h2 hb, ?_, ?_,
      pageRankStep_alpha_beta _ _ _ _ h4⟩
    · rcases directedStep_alpha_cases network config
        ((directedStep network config)^[k] (directedInit network config)) with e | e
      · rw [e]; exact h2
      · rw [e]
        have : (0 : ℚ) ≤ 1 / 10 ^ 10 := by norm_num
        linarith
    · have h0 : (0 : ℚ) ≤ 1 / 10 ^ 10 := by norm_num
      push_cast
      rw [add_div]
      rcases directedStep_alpha_cases network config
        ((directedStep network config)^[k] (directedInit network config)) with e | e
      · rw [e]; linarith
      · rw [e]; linarith

/-- The loop of the directed model ends in an iterate after at least one and at most 200
executions of the body. -/
theorem directedResult_eq_iterate_succ (network : StateNetwork) (config : Config) :
    ∃ k, k < 200 ∧
      directedResult network config =
        directedStep network config
          ((directedStep network config)^[k] (directedInit network config)) := by
  obtain ⟨k, h1, h2, h3, _⟩ := pageRankLoop_spec (directedRates network config)
    (directedLinks network config) (directedDanglings network config) 200
    (directedInit network config) (by omega) rfl
  obtain ⟨i, rfl⟩ : ∃ i, k = i + 1 := ⟨k - 1, by omega⟩
  refine ⟨i, by omega, ?_⟩
  unfold directedResult
  rw [h3, Function.iterate_succ_apply']
  rfl

theorem pageRankStep_nodeFlow_length (rates : List ℚ) (flowLinks : List Link)
    (danglings : List Nat) (s : PageRank) :
    (pageRankStep rates flowLinks danglings s).m_nodeFlow.length = rates.length := by
  rw [pageRankStep_nodeFlow]
  split
  · rw [List.length_map, pageRankStep_nodeFlowTmp_length]
  · exact pageRankStep_nodeFlowTmp_length _ _ _ _

/-- The node flow has one entry per node when the loop ends. -/
theorem directedResult_nodeFlow_length (network : StateNetwork) (config : Config) :
    (directedResult network config).m_nodeFlow.length = network.numNodes := by
  obtain ⟨k, _, e⟩ := directedResult_eq_iterate_succ network config
  rw [e]
  unfold directedStep
  rw [pageRankStep_nodeFlow_length, directedRates_length]

end infomap

namespace infomap

/-- The node flows written back by the directed model with recorded teleportation are the
node flows at the end of the loop. -/
theorem directed_recorded_nodeFlows_eq (network : StateNetwork) (config : Config)
    (hm : config.flowModel = FlowModel.directed) (hr : config.recordedTeleportation = true) :
    nodeFlows (calculateFlow network config) = (directedResult network config).m_nodeFlow :=
  directed_recorded_nodeFlows network config hm hr
    (directedResult_nodeFlow_length network config)

/-- C13: under the directed model with recorded teleportation to nodes, equal positive node
weights, non-negative link weights and `0 ≤ α ≤ 0.5`, a node without in-links ends with at
most the flow of any other node; on the path `0→1, 1→2` with `α = 0.15` the node flows sum
to 1 and node 2 ends with more flow than node 0. -/
theorem no_inlink_least_flow (network : StateNetwork) (config : Config)
    (hm : config.flowModel = FlowModel.directed) (ht : config.teleportToNodes = true)
    (hr : config.recordedTeleportation = true) (hwf : network.WellFormed)
    (hw : ∀ l ∈ network.links, 0 ≤ l.weight) (w : ℚ) (hwpos : 0 < w)
    (hnode : ∀ nd ∈ network.nodes, nd.weight = w)
    (hα0 : 0 ≤ config.teleportationProbability)
    (hα1 : config.teleportationProbability ≤ 1 / 2) :
    (∀ i j (hi : i < network.nodes.length), j < network.nodes.length →
        (∀ l ∈ network.links, l.target ≠ (network.nodes[i]).id) →
        (nodeFlows (calculateFlow network config)).getD i 0 ≤
          (nodeFlows (calculateFlow network config)).getD j 0) ∧
      (nodeFlows (calculateFlow pathNetwork (directedConfig (15 / 100) true true))).sum = 1 ∧
      (nodeFlows (calculateFlow pathNetwork (directedConfig (15 / 100) true true))).getD 0 0 <
        (nodeFlows (calculateFlow pathNetwork (directedConfig (15 / 100) true true))).getD 2 0 := by
  refine ⟨?_, by decide!, by decide!⟩
  intro i j hi hj hin
  have hrates_eq := teleportRates_toNodes network config hwf ht
  rw [← directedRates_eq] at hrates_eq
  have hrates : ∀ x ∈ directedRates network config, 0 ≤ x := by
    rw [hrates_eq]
    intro x hx
    obtain ⟨nd, hnd, rfl⟩ := List.mem_map.mp hx
    rw [hnode nd hnd]
    apply div_nonneg (le_of_lt hwpos)
    unfold StateNetwork.sumNodeWeight
    exact sum_map_nonneg _ _ (fun a ha => by rw [hnode a ha]; exact le_of_lt hwpos)
  have hα2 : config.teleportationProbability + 200 / 10 ^ 10 ≤ 1 := by
    have : (200 : ℚ) / 10 ^ 10 ≤ 1 / 2 := by norm_num
    linarith
  obtain ⟨k, hk, e⟩ := directedResult_eq_iterate_succ network config
  obtain ⟨h1, h2, h3, h4⟩ := iterate_nonneg_inv network config hw hrates hα0 hα2 k (by omega)
  have hb : 0 ≤ ((directedStep network config)^[k] (directedInit network config)).beta := by
    have hk2 : (k : ℚ) ≤ 200 := by exact_mod_cast (by omega : k ≤ 200)
    have : (k : ℚ) / 10 ^ 10 ≤ 200 / 10 ^ 10 := div_le_div_of_nonneg_right hk2 (by norm_num)
    linarith
  have hgetD : ∀ a, a < network.nodes.length →
      (directedRates network config).getD a 0 = w / network.sumNodeWeight := by
    intro a ha
    rw [hrates_eq, List.getD_eq_getElem _ _ (by simpa using ha)]
    simp only [List.getElem_map]
    rw [hnode _ (List.getElem_mem _)]
  rw [directed_recorded_nodeFlows_eq network config hm hr, e]
  unfold directedStep
  apply pageRankStep_no_inlink_le _ _ _ _ hrates
    (directedLinks_flow_nonneg_of_nonneg network config hw) h1 h2 hb i j
    (by rw [directedRates_length]; exact hi) (by rw [directedRates_length]; exact hj)
    (by rw [hgetD i hi, hgetD j hj])
  rw [directedLinks_map]
  intro l hl
  obtain ⟨a, ha, rfl⟩ := List.mem_map.mp hl
  rw [normalizeLink_target]
  intro hix
  exact hin a ha ((indexOf_eq_iff network hwf.1 a.target (hwf.2 a ha).2 i hi).mp hix)

/-- The hypotheses of `no_inlink_least_flow` hold on the path `0→1, 1→2` with `α = 0.15`,
where node 0 has no in-link and at most the flow of node 1. -/
theorem no_inlink_least_flow_witness :
    pathNetwork.WellFormed ∧ (∀ l ∈ pathNetwork.links, 0 ≤ l.weight) ∧
      (∀ nd ∈ pathNetwork.nodes, nd.weight = 1) ∧
      (∀ l ∈ pathNetwork.links, l.target ≠ 0) ∧
      (nodeFlows (calculateFlow pathNetwork (directedConfig (15 / 100) true true))).getD 0 0 ≤
        (nodeFlows (calculateFlow pathNetwork (directedConfig (15 / 100) true true))).getD 1 0 :=
  ⟨by decide, by decide!, by decide!, by decide,
    (no_inlink_least_flow pathNetwork (directedConfig (15 / 100) true true) rfl rfl rfl
      (by decide) (by decide!) 1 (by norm_num) (by decide!) (by decide!) (by decide!)).1
      0 1 (by decide) (by decide) (by decide)⟩

end infomap

namespace infomap

/-! ## Conservation of the flow, in terms of out-degree and out-weight -/

/-- The out-weight of a node under a directed flow, in dense indices. -/
theorem preprocess_sumLinkOutWeight_index (network : StateNetwork) (config : Config)
    (hu : config.isUndirectedFlow = false) (j : Nat) (hj : j < network.numNodes) :
    (preprocess network config).sumLinkOutWeight.getD j 0 =
      (network.links.map (fun l => if network.indexOf l.source = j then l.weight else 0)).sum := by
  rw [preprocess_sumLinkOutWeight_getD network config j hj]
  apply sum_map_congr
  intro l _
  simp [hu]

/-- The flow leaving a node along its normalised links: all of the flow on the node, or
nothing on a dangling node, when every node with out-links has a positive out-weight. -/
theorem source_share_index (network : StateNetwork) (config : Config)
    (hu : config.isUndirectedFlow = false)
    (hout : ∀ j, j < network.numNodes →
      0 < (preprocess network config).nodeOutDegree.getD j 0 →
      0 < (preprocess network config).sumLinkOutWeight.getD j 0)
    (nf : List ℚ) (j : Nat) (hj : j < network.numNodes) :
    (network.links.map (fun l => if network.indexOf l.source = j
      then (normalizeLink (preprocess network config).sumLinkOutWeight (network.toLink l)).flow *
        nf.getD (network.indexOf l.source) 0
      else 0)).sum =
      if j ∈ directedDanglings network config then 0 else nf.getD j 0 := by
  by_cases hd : j ∈ directedDanglings network config
  · rw [if_pos hd, sum_map_congr _ (fun _ => 0)]
    · simp
    · intro l hl
      rw [if_neg ((mem_directedDanglings_iff network config hu j).mp hd |>.2 l hl)]
  · rw [if_neg hd]
    have hdeg : 0 < (preprocess network config).nodeOutDegree.getD j 0 := by
      by_contra h0
      apply hd
      unfold directedDanglings collectDanglings
      rw [List.mem_filter, List.mem_range]
      exact ⟨hj, by simpa using h0⟩
    have hsow := hout j hj hdeg
    have hterm : (network.links.map (fun l => if network.indexOf l.source = j
        then (normalizeLink (preprocess network config).sumLinkOutWeight
          (network.toLink l)).flow * nf.getD (network.indexOf l.source) 0
        else 0)).sum =
        (network.links.map (fun l =>
          (nf.getD j 0 / (preprocess network config).sumLinkOutWeight.getD j 0) *
            (if network.indexOf l.source = j then l.weight else 0))).sum := by
      apply sum_map_congr
      intro l _
      by_cases e : network.indexOf l.source = j
      · rw [if_pos e, if_pos e]
        have hs : (network.toLink l).source = j := e
        unfold normalizeLink
        rw [hs, if_pos hsow, e]
        simp only [StateNetwork.toLink]
        ring
      · rw [if_neg e, if_neg e, mul_zero]
    rw [hterm, sum_map_mul_left_const, ← preprocess_sumLinkOutWeight_index network config hu j hj,
      div_mul_cancel₀ _ (ne_of_gt hsow)]

/-- The flow sent along the normalised links is the flow on the nodes that are not
dangling. -/
theorem directed_links_sum_index (network : StateNetwork) (config : Config)
    (hu : config.isUndirectedFlow = false)
    (hidx : ∀ l ∈ network.links, network.indexOf l.source < network.numNodes)
    (hout : ∀ j, j < network.numNodes →
      0 < (preprocess network config).nodeOutDegree.getD j 0 →
      0 < (preprocess network config).sumLinkOutWeight.getD j 0)
    (nf : List ℚ) (hlen : nf.length = network.numNodes) :
    (network.links.map (fun l =>
      (normalizeLink (preprocess network config).sumLinkOutWeight (network.toLink l)).flow *
        nf.getD (network.indexOf l.source) 0)).sum =
      nf.sum - danglingRankOf (directedDanglings network config) nf := by
  rw [sum_group_by_index _ (fun l => network.indexOf l.source) network.numNodes network.links
    hidx, danglingRankOf_eq, sum_eq_sum_range nf, hlen, eq_sub_iff_add_eq, ← sum_map_add]
  apply sum_map_congr
  intro j hj
  rw [source_share_index network config hu hout nf j (List.mem_range.mp hj)]
  split <;> simp

/-- The total flow after one power iteration, when every node with out-links has a
positive out-weight. -/
theorem directedStep_tmp_sum_index (network : StateNetwork) (config : Config)
    (hu : config.isUndirectedFlow = false)
    (hidx : ∀ l ∈ network.links, network.indexOf l.source < network.numNodes ∧
      network.indexOf l.target < network.numNodes)
    (hout : ∀ j, j < network.numNodes →
      0 < (preprocess network config).nodeOutDegree.getD j 0 →
      0 < (preprocess network config).sumLinkOutWeight.getD j 0)
    (s : PageRank) (hlen : s.m_nodeFlow.length = network.numNodes) :
    (directedStep network config s).nodeFlowTmp.sum =
      (s.alpha + s.beta * danglingRankOf (directedDanglings network config) s.m_nodeFlow) *
          (directedRates network config).sum +
        s.beta * (s.m_nodeFlow.sum -
          danglingRankOf (directedDanglings network config) s.m_nodeFlow) := by
  have hlinks : ((directedLinks network config).map (fun l =>
      if l.target < network.numNodes
      then s.beta * l.flow * s.m_nodeFlow.getD l.source 0 else 0)).sum =
      s.beta * (s.m_nodeFlow.sum -
        danglingRankOf (directedDanglings network config) s.m_nodeFlow) := by
    rw [directedLinks_map, List.map_map,
      ← directed_links_sum_index network config hu (fun l hl => (hidx l hl).1) hout
        s.m_nodeFlow hlen, ← sum_map_mul_left_const]
    apply sum_map_congr
    intro l hl
    simp only [Function.comp_apply, normalizeLink_target, normalizeLink_source]
    have ht : (network.toLink l).target < network.numNodes := (hidx l hl).2
    rw [if_pos ht]
    simp only [StateNetwork.toLink]
    ring
  unfold directedStep pageRankStep
  simp only
  rw [foldl_addAt_sum, sum_map_mul_left_const]
  simp only [List.length_map, directedRates_length]
  rw [hlinks, List.map_id']

/-- One power iteration keeps a total flow of 1 and does not normalise. -/
theorem directedStep_sum_one (network : StateNetwork) (config : Config)
    (hu : config.isUndirectedFlow = false)
    (hidx : ∀ l ∈ network.links, network.indexOf l.source < network.numNodes ∧
      network.indexOf l.target < network.numNodes)
    (hout : ∀ j, j < network.numNodes →
      0 < (preprocess network config).nodeOutDegree.getD j 0 →
      0 < (preprocess network config).sumLinkOutWeight.getD j 0)
    (hrates : (directedRates network config).sum = 1)
    (s : PageRank) (hlen : s.m_nodeFlow.length = network.numNodes)
    (hsum : s.m_nodeFlow.sum = 1) (hab : s.alpha + s.beta = 1) :
    (directedStep network config s).nodeFlowTmp.sum = 1 ∧
      (directedStep network config s).m_nodeFlow = (directedStep network config s).nodeFlowTmp := by
  have h1 : (directedStep network config s).nodeFlowTmp.sum = 1 := by
    rw [directedStep_tmp_sum_index network config hu hidx hout s hlen, hrates, hsum]
    linear_combination hab
  refine ⟨h1, ?_⟩
  unfold directedStep at h1 ⊢
  rw [pageRankStep_nodeFlow, h1, if_neg]
  norm_num

theorem indices_lt_of_wellFormed (network : StateNetwork) (hwf : network.WellFormed) :
    ∀ l ∈ network.links, network.indexOf l.source < network.numNodes ∧
      network.indexOf l.target < network.numNodes := fun l hl =>
  ⟨indexOf_lt network _ (numNodes_pos_of_link network hwf l hl),
    indexOf_lt network _ (numNodes_pos_of_link network hwf l hl)⟩

/-- C16: in the directed model, when every node with out-degree above 0 has a positive
out-weight and the teleport distribution sums to 1, one power iteration maps node flows
that sum to 1, with `α + β = 1`, to node flows that sum to exactly 1, and the branch that
normalises is not taken; starting from the initial flow of the preprocessing this holds at
every iteration, whatever perturbations of `α` have happened. -/
theorem pageRank_preserves_sum (network : StateNetwork) (config : Config)
    (hm : config.flowModel = FlowModel.directed) (hu : config.isUndirectedFlow = false)
    (hwf : network.WellFormed)
    (hout : ∀ j, j < network.numNodes →
      0 < (preprocess network config).nodeOutDegree.getD j 0 →
      0 < (preprocess network config).sumLinkOutWeight.getD j 0)
    (hrates : (directedRates network config).sum = 1) :
    (∀ s : PageRank, s.m_nodeFlow.length = network.numNodes → s.m_nodeFlow.sum = 1 →
        s.alpha + s.beta = 1 →
        (directedStep network config s).nodeFlowTmp.sum = 1 ∧
          (directedStep network config s).m_nodeFlow =
            (directedStep network config s).nodeFlowTmp ∧
          (directedStep network config s).m_nodeFlow.sum = 1 ∧
          (directedStep network config s).alpha + (directedStep network config s).beta = 1) ∧
      ((∀ l ∈ network.links, 0 ≤ l.weight) → 0 < network.sumLinkWeight → ∀ k,
        ((directedStep network config)^[k] (directedInit network config)).m_nodeFlow.sum = 1 ∧
          ((directedStep network config)^[k + 1] (directedInit network config)).m_nodeFlow =
            ((directedStep network config)^[k + 1] (directedInit network config)).nodeFlowTmp) := by
  have hidx := indices_lt_of_wellFormed network hwf
  have hstep : ∀ s : PageRank, s.m_nodeFlow.length = network.numNodes → s.m_nodeFlow.sum = 1 →
      s.alpha + s.beta = 1 →
      (directedStep network config s).nodeFlowTmp.sum = 1 ∧
        (directedStep network config s).m_nodeFlow =
          (directedStep network config s).nodeFlowTmp ∧
        (directedStep network config s).m_nodeFlow.sum = 1 ∧
        (directedStep network config s).alpha + (directedStep network config s).beta = 1 := by
    intro s hlen hsum hab
    have h := directedStep_sum_one network config hu hidx hout hrates s hlen hsum hab
    exact ⟨h.1, h.2, by rw [h.2]; exact h.1, pageRankStep_alpha_beta _ _ _ _ hab⟩
  refine ⟨hstep, ?_⟩
  intro hw hpos
  have hinv : ∀ k,
      ((directedStep network config)^[k] (directedInit network config)).m_nodeFlow.length =
          network.numNodes ∧
        ((directedStep network config)^[k] (directedInit network config)).m_nodeFlow.sum = 1 ∧
        ((directedStep network config)^[k] (directedInit network config)).alpha +
          ((directedStep network config)^[k] (directedInit network config)).beta = 1 := by
    intro k
    induction k with
    | zero =>
      refine ⟨preprocess_nodeFlow_length network config,
        preprocess_nodeFlow_sum network config (by rw [hm]; decide) hwf hw hpos, ?_⟩
      simp [directedInit, pageRankInit]
    | succ k ih =>
      rw [Function.iterate_succ_apply']
      have h := hstep _ ih.1 ih.2.1 ih.2.2
      refine ⟨?_, h.2.2.1, h.2.2.2⟩
      unfold directedStep
      rw [pageRankStep_nodeFlow_length, directedRates_length]
  intro k
  refine ⟨(hinv k).2.1, ?_⟩
  rw [Function.iterate_succ_apply']
  exact (hstep _ (hinv k).1 (hinv k).2.1 (hinv k).2.2).2.1

/-- The hypotheses of `pageRank_preserves_sum` hold on the unit triangle: the first
iteration yields node flows that sum to 1. -/
theorem pageRank_preserves_sum_witness :
    triangle.WellFormed ∧
      (directedRates triangle (directedConfig (15 / 100) true false)).sum = 1 ∧
      ((directedStep triangle (directedConfig (15 / 100) true false))^[1]
        (directedInit triangle (directedConfig (15 / 100) true false))).m_nodeFlow.sum = 1 :=
  ⟨by decide, by decide!,
    ((pageRank_preserves_sum triangle (directedConfig (15 / 100) true false) rfl rfl
      (by decide) (by decide!) (by decide!)).2 (by decide!) (by decide!) 1).1⟩

end infomap

namespace infomap

/-! ## The link flows of the directed model with recorded teleportation -/

/-- The links written back under recorded teleportation (lines 182 and 273). -/
theorem recorded_linkFlows (network : StateNetwork) (config : Config)
    (hm : config.flowModel = FlowModel.directed) (hr : config.recordedTeleportation = true) :
    linkFlows (calculateFlow network config) =
      network.links.map (fun l =>
        (normalizeLink (preprocess network config).sumLinkOutWeight (network.toLink l)).flow *
          ((directedResult network config).beta *
            (directedResult network config).nodeFlowTmp.getD (network.indexOf l.source) 0)) := by
  unfold calculateFlow
  rw [calculateFlowFull_directed network config hm, linkFlows_finalize _ _ _
    (by simp [afterPageRank, hr, directedLinks_length])]
  simp only [afterPageRank, hr, if_true, List.map_map, directedLinks_map]
  apply List.map_congr_left
  intro l _
  simp only [Function.comp_apply, div_one, normalizeLink_source, StateNetwork.toLink]

/-- The perturbation adds `1e-10` to `alpha` exactly when `sqdiff` repeats. -/
theorem pageRankStep_alpha (rates : List ℚ) (flowLinks : List Link)
    (danglings : List Nat) (s : PageRank) :
    (pageRankStep rates flowLinks danglings s).alpha =
      s.alpha + (if (pageRankStep rates flowLinks danglings s).sqdiff = s.sqdiff then 1 else 0) /
        10 ^ 10 := by
  unfold pageRankStep
  simp only
  split
  · rfl
  · simp

/-- The value of `alpha` after `n` executions of the loop body. -/
theorem iterate_alpha (network : StateNetwork) (config : Config) (n : Nat) :
    ((directedStep network config)^[n] (directedInit network config)).alpha =
        config.teleportationProbability +
          perturbCount (directedStep network config) (directedInit network config) n / 10 ^ 10 ∧
      ((directedStep network config)^[n] (directedInit network config)).beta =
        1 - ((directedStep network config)^[n] (directedInit network config)).alpha := by
  induction n with
  | zero => simp [perturbCount, directedInit, pageRankInit]
  | succ n ih =>
    constructor
    · have h := pageRankStep_alpha (directedRates network config) (directedLinks network config)
        (directedDanglings network config)
        ((directedStep network config)^[n] (directedInit network config))
      have e : (directedStep network config)^[n + 1] (directedInit network config) =
          pageRankStep (directedRates network config) (directedLinks network config)
            (directedDanglings network config)
            ((directedStep network config)^[n] (directedInit network config)) := by
        rw [Function.iterate_succ_apply']
        rfl
      rw [perturbCount, e, h, ih.1]
      split <;> push_cast <;> ring
    · have h := pageRankStep_alpha_beta (directedRates network config)
        (directedLinks network config) (directedDanglings network config)
        ((directedStep network config)^[n] (directedInit network config))
        (by rw [ih.2]; ring)
      rw [Function.iterate_succ_apply']
      have h2 : (directedStep network config
          ((directedStep network config)^[n] (directedInit network config))).alpha +
          (directedStep network config
          ((directedStep network config)^[n] (directedInit network config))).beta = 1 := h
      linarith

/-- The loop ends in the iterate numbered by its own iteration counter. -/
theorem directedResult_eq_iterate_num (network : StateNetwork) (config : Config) :
    directedResult network config =
      (directedStep network config)^[(directedResult network config).numIterations]
        (directedInit network config) := by
  obtain ⟨k, _, e⟩ := directedResult_eq_iterate network config
  have hk : (directedResult network config).numIterations = k := by
    rw [e]
    have := iterate_numIterations (directedRates network config) (directedLinks network config)
      (directedDanglings network config) (directedInit network config) k
    unfold directedStep
    rw [this]
    simp [directedInit, pageRankInit]
  rw [hk]
  exact e

/-- With positive link weights a node with out-links has a positive out-weight. -/
theorem sumLinkOutWeight_pos_of_degree (network : StateNetwork) (config : Config)
    (hu : config.isUndirectedFlow = false) (hwf : network.WellFormed)
    (hw : ∀ l ∈ network.links, 0 < l.weight) (j : Nat) (hj : j < network.numNodes)
    (hdeg : 0 < (preprocess network config).nodeOutDegree.getD j 0) :
    0 < (preprocess network config).sumLinkOutWeight.getD j 0 := by
  have hnd : j ∉ directedDanglings network config := by
    unfold directedDanglings collectDanglings
    rw [List.mem_filter, List.mem_range]
    rintro ⟨_, h0⟩
    have : (preprocess network config).nodeOutDegree.getD j 0 = 0 := by simpa using h0
    omega
  have hex : ∃ l ∈ network.links, network.indexOf l.source = j := by
    by_contra hno
    apply hnd
    rw [mem_directedDanglings_iff network config hu j]
    exact ⟨hj, fun l hl e => hno ⟨l, hl, e⟩⟩
  obtain ⟨l, hl, e⟩ := hex
  rw [← e]
  exact sumLinkOutWeight_pos network config hwf hw l hl

end infomap

namespace infomap

/-! ## A bound on the iterates that holds also when `beta` is negative -/

theorem abs_sum_le_sum_abs (v : List ℚ) : |v.sum| ≤ (v.map (fun x => |x|)).sum := by
  induction v with
  | nil => simp
  | cons a v ih =>
    simp only [List.sum_cons, List.map_cons]
    exact le_trans (abs_add a v.sum) (add_le_add_left ih _)

theorem sum_abs_of_nonneg (v : List ℚ) (h : ∀ x ∈ v, 0 ≤ x) :
    (v.map (fun x => |x|)).sum = v.sum := by
  induction v with
  | nil => rfl
  | cons a v ih =>
    simp only [List.sum_cons, List.map_cons]
    rw [abs_of_nonneg (h a (List.mem_cons_self _ _)),
      ih (fun x hx => h x (List.mem_cons_of_mem _ hx))]

theorem getD_map_abs (v : List ℚ) (j : Nat) :
    (v.map (fun x => |x|)).getD j 0 = |v.getD j 0| := by
  by_cases h : j < v.length
  · rw [List.getD_eq_getElem _ _ (by simpa using h), List.getD_eq_getElem _ _ h]
    simp
  · rw [List.getD_eq_default _ _ (by simpa using h), List.getD_eq_default _ _ (by simpa using h)]
    simp

theorem sum_map_le_sum_map {β : Type} (f g : β → ℚ) (xs : List β) (h : ∀ b ∈ xs, f b ≤ g b) :
    (xs.map f).sum ≤ (xs.map g).sum := by
  induction xs with
  | nil => simp
  | cons b xs ih =>
    simp only [List.map_cons, List.sum_cons]
    exact add_le_add (h b (List.mem_cons_self _ _))
      (ih (fun c hc => h c (List.mem_cons_of_mem _ hc)))

theorem abs_sum_map_le {β : Type} (f : β → ℚ) (xs : List β) :
    |(xs.map f).sum| ≤ (xs.map (fun b => |f b|)).sum := by
  have h := abs_sum_le_sum_abs (xs.map f)
  rwa [List.map_map] at h

theorem sum_abs_eq_sum_range (v : List ℚ) (n : Nat) (hlen : v.length = n) :
    (v.map (fun x => |x|)).sum = ((List.range n).map (fun j => |v.getD j 0|)).sum := by
  rw [sum_eq_sum_range (v.map (fun x => |x|)), List.length_map, hlen]
  apply sum_map_congr
  intro j _
  exact getD_map_abs v j

/-- The flow on the dangling nodes is bounded by the total absolute flow. -/
theorem abs_danglingRankOf_le (network : StateNetwork) (config : Config) (nf : List ℚ)
    (hlen : nf.length = network.numNodes) :
    |danglingRankOf (directedDanglings network config) nf| ≤ (nf.map (fun x => |x|)).sum := by
  rw [danglingRankOf_eq, sum_abs_eq_sum_range nf _ hlen]
  refine le_trans (abs_sum_map_le _ _) (sum_map_le_sum_map _ _ _ ?_)
  intro j _
  split
  · exact le_refl _
  · simp

/-- The absolute flow sent along the normalised links is at most the total absolute
flow. -/
theorem links_abs_le (network : StateNetwork) (config : Config)
    (hu : config.isUndirectedFlow = false)
    (hidx : ∀ l ∈ network.links, network.indexOf l.source < network.numNodes ∧
      network.indexOf l.target < network.numNodes)
    (hout : ∀ j, j < network.numNodes →
      0 < (preprocess network config).nodeOutDegree.getD j 0 →
      0 < (preprocess network config).sumLinkOutWeight.getD j 0)
    (nf : List ℚ) (hlen : nf.length = network.numNodes) :
    (network.links.map (fun l =>
      (normalizeLink (preprocess network config).sumLinkOutWeight (network.toLink l)).flow *
        |nf.getD (network.indexOf l.source) 0|)).sum ≤ (nf.map (fun x => |x|)).sum := by
  have h := directed_links_sum_index network config hu (fun l hl => (hidx l hl).1) hout
    (nf.map (fun x => |x|)) (by simpa using hlen)
  have hd := danglingRankOf_nonneg (directedDanglings network config) (nf.map (fun x => |x|))
    (fun x hx => by
      obtain ⟨y, _, rfl⟩ := List.mem_map.mp hx
      exact abs_nonneg y)
  have e : (network.links.map (fun l =>
      (normalizeLink (preprocess network config).sumLinkOutWeight (network.toLink l)).flow *
        |nf.getD (network.indexOf l.source) 0|)).sum =
      (network.links.map (fun l =>
      (normalizeLink (preprocess network config).sumLinkOutWeight (network.toLink l)).flow *
        (nf.map (fun x => |x|)).getD (network.indexOf l.source) 0)).sum := by
    apply sum_map_congr
    intro l _
    rw [getD_map_abs]
  rw [e, h]
  linarith

/-- The total absolute flow after one power iteration. -/
theorem directedStep_tmp_abs_le (network : StateNetwork) (config : Config)
    (hu : config.isUndirectedFlow = false)
    (hidx : ∀ l ∈ network.links, network.indexOf l.source < network.numNodes ∧
      network.indexOf l.target < network.numNodes)
    (hout : ∀ j, j < network.numNodes →
      0 < (preprocess network config).nodeOutDegree.getD j 0 →
      0 < (preprocess network config).sumLinkOutWeight.getD j 0)
    (hw : ∀ l ∈ network.links, 0 ≤ l.weight)
    (s : PageRank) (hlen : s.m_nodeFlow.length = network.numNodes) :
    ((directedStep network config s).nodeFlowTmp.map (fun x => |x|)).sum ≤
      |s.alpha + s.beta * danglingRankOf (directedDanglings network config) s.m_nodeFlow| *
          ((directedRates network config).map (fun x => |x|)).sum +
        |s.beta| * (s.m_nodeFlow.map (fun x => |x|)).sum := by
  have hxlen : (directedStep network config s).nodeFlowTmp.length = network.numNodes := by
    unfold directedStep
    rw [pageRankStep_nodeFlowTmp_length, directedRates_length]
  have hterm : ∀ j ∈ List.range network.numNodes,
      |(directedStep network config s).nodeFlowTmp.getD j 0| ≤
        |s.alpha + s.beta * danglingRankOf (directedDanglings network config) s.m_nodeFlow| *
            |(directedRates network config).getD j 0| +
          (network.links.map (fun l => if network.indexOf l.target = j
            then |s.beta| * ((normalizeLink (preprocess network config).sumLinkOutWeight
              (network.toLink l)).flow * |s.m_nodeFlow.getD (network.indexOf l.source) 0|)
            else 0)).sum := by
    intro j hj
    have hj2 : j < (directedRates network config).length := by
      rw [directedRates_length]
      exact List.mem_range.mp hj
    unfold directedStep
    rw [pageRankStep_nodeFlowTmp_getD _ _ _ _ j hj2, directedLinks_map, List.map_map]
    refine le_trans (abs_add _ _) (add_le_add (le_of_eq (abs_mul _ _)) ?_)
    refine le_trans (abs_sum_map_le _ _) (sum_map_le_sum_map _ _ _ ?_)
    intro l hl
    simp only [Function.comp_apply, normalizeLink_target, normalizeLink_source]
    have ht : (network.toLink l).target = network.indexOf l.target := rfl
    have hs : (network.toLink l).source = network.indexOf l.source := rfl
    rw [ht, hs]
    split
    · rw [abs_mul, abs_mul, abs_of_nonneg (normalizeLink_flow_nonneg _ _ (hw l hl)), mul_assoc]
    · simp
  rw [sum_abs_eq_sum_range _ _ hxlen]
  refine le_trans (sum_map_le_sum_map _ _ _ hterm) ?_
  rw [sum_map_add, sum_map_mul_left_const,
    ← sum_abs_eq_sum_range _ _ (directedRates_length network config),
    ← sum_group_by_index _ (fun l => network.indexOf l.target) network.numNodes network.links
      (fun l hl => (hidx l hl).2),
    sum_map_mul_left_const]
  exact add_le_add_left (mul_le_mul_of_nonneg_left
    (links_abs_le network config hu hidx hout s.m_nodeFlow hlen) (abs_nonneg _)) _

end infomap

namespace infomap

/-- One iteration keeps the invariant, without normalising. -/
theorem boundedInv_step {network : StateNetwork} {config : Config}
    (h : ConservingSetting network config) {s : PageRank} (hs : BoundedInv network config s)
    (hit : s.numIterations < 200) :
    BoundedInv network config (directedStep network config s) ∧
      (directedStep network config s).nodeFlowTmp.sum = 1 ∧
      (directedStep network config s).m_nodeFlow =
        (directedStep network config s).nodeFlowTmp := by
  have hidx := indices_lt_of_wellFormed network h.wellFormed
  have h1 := directedStep_sum_one network config h.notUndirected hidx h.outWeight h.rates_sum
    s hs.length hs.sum hs.alpha_beta
  have hab := pageRankStep_alpha_beta (directedRates network config)
    (directedLinks network config) (directedDanglings network config) s hs.alpha_beta
  have hab2 : (directedStep network config s).alpha + (directedStep network config s).beta = 1 :=
    hab
  have hge : s.alpha ≤ (directedStep network config s).alpha := by
    rcases directedStep_alpha_cases network config s with e | e <;> rw [e]
    norm_num
  have hα0 : 0 ≤ s.alpha := le_trans h.alpha_nonneg hs.alpha_ge
  have hfl := directedLinks_flow_nonneg_of_nonneg network config h.nonneg
  have hpos : 0 ≤ s.beta → ∀ x ∈ (directedStep network config s).m_nodeFlow, 0 ≤ x :=
    fun hb => pageRankStep_nodeFlow_nonneg _ _ _ s h.rates_nonneg hfl (hs.nonneg hb) hα0 hb
  have hnum : ((directedStep network config s).numIterations : ℚ) = s.numIterations + 1 := by
    unfold directedStep
    rw [pageRankStep_numIterations]
    push_cast
    rfl
  have hit2 : (s.numIterations : ℚ) / 10 ^ 10 ≤ 200 / 10 ^ 10 :=
    div_le_div_of_nonneg_right (by exact_mod_cast le_of_lt hit) (by norm_num)
  refine ⟨⟨?_, ?_, ?_, ?_, hab2, le_trans hs.alpha_ge hge, ?_⟩, h1.1, h1.2⟩
  · unfold directedStep
    rw [pageRankStep_nodeFlow_length, directedRates_length]
  · rw [h1.2]
    exact h1.1
  · by_cases hb : 0 ≤ s.beta
    · rw [sum_abs_of_nonneg _ (hpos hb), h1.2, h1.1]
      norm_num
    · have hb1 : |s.beta| ≤ 200 / 10 ^ 10 := by
        rw [abs_of_neg (not_le.mp hb)]
        have := hs.alpha_le
        have := hs.alpha_beta
        have := h.alpha_le
        linarith
      have hD := abs_danglingRankOf_le network config s.m_nodeFlow hs.length
      have hA := hs.abs_le
      have hA0 : 0 ≤ (s.m_nodeFlow.map (fun x => |x|)).sum :=
        le_trans (abs_nonneg _) hD
      have hc : |s.alpha + s.beta *
          danglingRankOf (directedDanglings network config) s.m_nodeFlow| ≤
          1 + 200 / 10 ^ 10 + 200 / 10 ^ 10 * 2 := by
        refine le_trans (abs_add _ _) ?_
        rw [abs_mul, abs_of_nonneg hα0]
        have h2 : |s.beta| * |danglingRankOf (directedDanglings network config) s.m_nodeFlow| ≤
            200 / 10 ^ 10 * 2 :=
          mul_le_mul hb1 (le_trans hD hA) (abs_nonneg _) (by norm_num)
        have := hs.alpha_le
        have := h.alpha_le
        linarith
      have hbound := directedStep_tmp_abs_le network config h.notUndirected hidx h.outWeight
        h.nonneg s hs.length
      rw [sum_abs_of_nonneg _ h.rates_nonneg, h.rates_sum, mul_one] at hbound
      rw [h1.2]
      have h3 : |s.beta| * (s.m_nodeFlow.map (fun x => |x|)).sum ≤ 200 / 10 ^ 10 * 2 :=
        mul_le_mul hb1 hA hA0 (by norm_num)
      have h4 : (1 : ℚ) + 200 / 10 ^ 10 + 200 / 10 ^ 10 * 2 + 200 / 10 ^ 10 * 2 ≤ 2 := by
        norm_num
      linarith
  · intro hb
    apply hpos
    linarith [hs.alpha_beta]
  · rw [hnum, add_div]
    rcases directedStep_alpha_cases network config s with e | e <;> rw [e]
    · have : (0 : ℚ) ≤ 1 / 10 ^ 10 := by norm_num
      linarith [hs.alpha_le]
    · linarith [hs.alpha_le]

/-- The initial flow satisfies the invariant. -/
theorem boundedInv_init {network : StateNetwork} {config : Config}
    (h : ConservingSetting network config) :
    BoundedInv network config (directedInit network config) := by
  have hnn := preprocess_nodeFlow_nonneg_of_nonneg network config h.nonneg
  have hsum := preprocess_nodeFlow_sum network config (by rw [h.directed]; decide)
    h.wellFormed h.nonneg h.positive
  refine ⟨preprocess_nodeFlow_length network config, hsum, ?_, fun _ => hnn, ?_, ?_, ?_⟩
  · have e : (directedInit network config).m_nodeFlow = (preprocess network config).m_nodeFlow :=
      rfl
    rw [e, sum_abs_of_nonneg _ hnn, hsum]
    norm_num
  · simp [directedInit, pageRankInit]
  · simp [directedInit, pageRankInit]
  · simp [directedInit, pageRankInit]

/-- The invariant holds after every iteration up to the 200th. -/
theorem boundedInv_iterate {network : StateNetwork} {config : Config}
    (h : ConservingSetting network config) (k : Nat) (hk : k ≤ 200) :
    BoundedInv network config
      ((directedStep network config)^[k] (directedInit network config)) := by
  induction k with
  | zero => exact boundedInv_init h
  | succ k ih =>
    rw [Function.iterate_succ_apply']
    apply (boundedInv_step h (ih (by omega)) ?_).1
    have := iterate_numIterations (directedRates network config) (directedLinks network config)
      (directedDanglings network config) (directedInit network config) k
    have e : ((directedStep network config)^[k] (directedInit network config)).numIterations =
        k := by
      unfold directedStep
      rw [this]
      simp [directedInit, pageRankInit]
    rw [e]
    omega

end infomap

namespace infomap

/-- C15, as stated, fails on two nodes with the links `0→1` of weight 1 and `1→0` of weight
0, under recorded teleportation to nodes with `α = 0.15`: node 1 has out-degree 1 and
out-weight 0, no node is dangling, `α` is not perturbed, and the link flows are
`β·x[0] = 0.85·0.075` and 0, so they sum to `51/800` and not to
`β_final·(1 − flow on dangling nodes) = 0.85`. -/
theorem recorded_link_flow_counterexample :
    zeroReturn.WellFormed ∧
      (preprocess zeroReturn (directedConfig (15 / 100) true true)).nodeOutDegree = [1, 1] ∧
      (preprocess zeroReturn (directedConfig (15 / 100) true true)).sumLinkOutWeight = [1, 0] ∧
      directedDanglings zeroReturn (directedConfig (15 / 100) true true) = [] ∧
      (directedResult zeroReturn (directedConfig (15 / 100) true true)).beta = 85 / 100 ∧
      (directedResult zeroReturn (directedConfig (15 / 100) true true)).nodeFlowTmp.getD 0 0 =
        3 / 40 ∧
      linkFlows (calculateFlow zeroReturn (directedConfig (15 / 100) true true)) =
        [51 / 800, 0] ∧
      (linkFlows (calculateFlow zeroReturn (directedConfig (15 / 100) true true))).sum ≠
        (directedResult zeroReturn (directedConfig (15 / 100) true true)).beta *
          (1 - danglingRankOf (directedDanglings zeroReturn (directedConfig (15 / 100) true true))
            (directedResult zeroReturn (directedConfig (15 / 100) true true)).nodeFlowTmp) := by
  decide!

/-- C15, amended: under the directed model with recorded teleportation, the flow of a link
`(s,t,w)` with `sumOutWeight[s] > 0` is `β_final · (w / sumOutWeight[s]) · x[s]`, with `x`
the last un-normalised iterate, `β_final = 1 − α_final` and `α_final = α + k·1e-10` for the
number `k` of iterations whose `sqdiff` equalled the one before; on a well-formed network
with non-negative link weights of positive total in which every node with out-degree above
0 has a positive out-weight, with a non-negative teleport distribution of sum 1 and
`0 < α ≤ 1`, the link flows sum to `β_final · (1 − flow of x on dangling nodes)`, which is
below 1. -/
theorem recorded_link_flow (network : StateNetwork) (config : Config)
    (hm : config.flowModel = FlowModel.directed) (hr : config.recordedTeleportation = true) :
    (∀ k (hk : k < network.links.length),
        0 < (preprocess network config).sumLinkOutWeight.getD
          (network.indexOf (network.links[k]).source) 0 →
        (linkFlows (calculateFlow network config)).getD k 0 =
          (directedResult network config).beta *
            ((network.links[k]).weight / (preprocess network config).sumLinkOutWeight.getD
              (network.indexOf (network.links[k]).source) 0) *
            (directedResult network config).nodeFlowTmp.getD
              (network.indexOf (network.links[k]).source) 0) ∧
      (directedResult network config).beta = 1 - (directedResult network config).alpha ∧
      (directedResult network config).alpha = config.teleportationProbability +
        perturbCount (directedStep network config) (directedInit network config)
          (directedResult network config).numIterations / 10 ^ 10 ∧
      (config.isUndirectedFlow = false → network.WellFormed →
        (∀ l ∈ network.links, 0 ≤ l.weight) → 0 < network.sumLinkWeight →
        (∀ j, j < network.numNodes →
          0 < (preprocess network config).nodeOutDegree.getD j 0 →
          0 < (preprocess network config).sumLinkOutWeight.getD j 0) →
        (∀ x ∈ directedRates network config, 0 ≤ x) →
        (directedRates network config).sum = 1 →
        0 < config.teleportationProbability → config.teleportationProbability ≤ 1 →
        (linkFlows (calculateFlow network config)).sum =
            (directedResult network config).beta *
              (1 - danglingRankOf (directedDanglings network config)
                (directedResult network config).nodeFlowTmp) ∧
          (linkFlows (calculateFlow network config)).sum < 1) := by
  have halpha := iterate_alpha network config (directedResult network config).numIterations
  rw [← directedResult_eq_iterate_num network config] at halpha
  refine ⟨?_, halpha.2, halpha.1, ?_⟩
  · intro k hk hsow
    rw [recorded_linkFlows network config hm hr, List.getD_eq_getElem _ _ (by simpa using hk),
      List.getElem_map]
    unfold normalizeLink
    have hs : (network.toLink (network.links[k])).source =
        network.indexOf (network.links[k]).source := rfl
    rw [hs, if_pos hsow]
    simp only [StateNetwork.toLink]
    ring
  · intro hu hwf hw hpos hout hr0 hr1 hα0 hα1
    have hset : ConservingSetting network config :=
      ⟨hm, hu, hwf, hw, hpos, hout, hr0, hr1, le_of_lt hα0, hα1⟩
    obtain ⟨k, hk, e⟩ := directedResult_eq_iterate_succ network config
    have hinv := boundedInv_iterate hset k (le_of_lt hk)
    have hnum : ((directedStep network config)^[k] (directedInit network config)).numIterations =
        k := by
      have := iterate_numIterations (directedRates network config)
        (directedLinks network config) (directedDanglings network config)
        (directedInit network config) k
      unfold directedStep
      rw [this]
      simp [directedInit, pageRankInit]
    obtain ⟨hres, hx1, hmx⟩ := boundedInv_step hset hinv (by rw [hnum]; exact hk)
    rw [← e] at hres hx1 hmx
    have hidx := indices_lt_of_wellFormed network hwf
    have hxlen : (directedResult network config).nodeFlowTmp.length = network.numNodes := by
      rw [← hmx]
      exact hres.length
    have hsum : (linkFlows (calculateFlow network config)).sum =
        (directedResult network config).beta *
          (1 - danglingRankOf (directedDanglings network config)
            (directedResult network config).nodeFlowTmp) := by
      rw [recorded_linkFlows network config hm hr, ← hx1,
        ← directed_links_sum_index network config hu (fun l hl => (hidx l hl).1) hout
          (directedResult network config).nodeFlowTmp hxlen, ← sum_map_mul_left_const]
      apply sum_map_congr
      intro l _
      ring
    refine ⟨hsum, ?_⟩
    rw [hsum]
    have hb1 : (directedResult network config).beta < 1 := by
      have := hres.alpha_ge
      have := hres.alpha_beta
      linarith
    by_cases hb : 0 ≤ (directedResult network config).beta
    · have hd := danglingRankOf_nonneg (directedDanglings network config)
        (directedResult network config).nodeFlowTmp (by rw [← hmx]; exact hres.nonneg hb)
      nlinarith [mul_nonneg hb hd]
    · have hd := abs_danglingRankOf_le network config
        (directedResult network config).nodeFlowTmp hxlen
      have hA := hres.abs_le
      rw [hmx] at hA
      have hd2 : danglingRankOf (directedDanglings network config)
          (directedResult network config).nodeFlowTmp ≤ 2 :=
        le_trans (le_abs_self _) (le_trans hd hA)
      have hit : ((directedResult network config).numIterations : ℚ) ≤ 200 := by
        rw [e]
        have e2 : (directedStep network config
            ((directedStep network config)^[k] (directedInit network config))).numIterations =
            k + 1 := by
          unfold directedStep at hnum ⊢
          rw [pageRankStep_numIterations, hnum]
        rw [e2]
        exact_mod_cast hk
      have h5 : ((directedResult network config).numIterations : ℚ) / 10 ^ 10 ≤
          200 / 10 ^ 10 := div_le_div_of_nonneg_right hit (by norm_num)
      have hlow : -(200 / 10 ^ 10) ≤ (directedResult network config).beta := by
        have := hres.alpha_le
        have := hres.alpha_beta
        linarith
      nlinarith [mul_nonneg (neg_nonneg.mpr (le_of_lt (not_le.mp hb))) (sub_nonneg.mpr hd2)]

/-- The hypotheses of `recorded_link_flow` hold on the path `0→1, 1→2` with recorded
teleportation to nodes and `α = 0.15`. -/
theorem recorded_link_flow_witness :
    pathNetwork.WellFormed ∧ (∀ l ∈ pathNetwork.links, 0 ≤ l.weight) ∧
      0 < pathNetwork.sumLinkWeight ∧
      (directedRates pathNetwork (directedConfig (15 / 100) true true)).sum = 1 ∧
      (linkFlows (calculateFlow pathNetwork (directedConfig (15 / 100) true true))).sum < 1 :=
  ⟨by decide, by decide!, by decide!, by decide!,
    ((recorded_link_flow pathNetwork (directedConfig (15 / 100) true true) rfl rfl).2.2.2 rfl
      (by decide) (by decide!) (by decide!) (by decide!) (by decide!) (by decide!)
      (by decide!) (by decide!)).2⟩

end infomap

namespace infomap

/-! ## `outdirdir` against `rawdir` -/

/-- The written-back nodes are determined by the flows written. -/
theorem writeNodes_eq_of_flows (nodes : List StateNode) (k : Nat) (nf nf2 : List ℚ)
    (h : (writeNodes nodes k nf).map (fun nd => nd.flow) =
      (writeNodes nodes k nf2).map (fun nd => nd.flow)) :
    writeNodes nodes k nf = writeNodes nodes k nf2 := by
  induction nodes generalizing k with
  | nil => rfl
  | cons nd rest ih =>
    simp only [writeNodes, List.map_cons, List.cons.injEq] at h ⊢
    exact ⟨by rw [h.1], ih (k + 1) h.2⟩

/-- The written-back links are determined by the flows written. -/
theorem writeLinks_eq_of_flows (links : List StateLink) (k : Nat) (fl fl2 : List Link)
    (h : (writeLinks links k fl).map (fun l => l.flow) =
      (writeLinks links k fl2).map (fun l => l.flow)) :
    writeLinks links k fl = writeLinks links k fl2 := by
  induction links generalizing k with
  | nil => rfl
  | cons l rest ih =>
    simp only [writeLinks, List.map_cons, List.cons.injEq] at h ⊢
    exact ⟨by rw [h.1], ih (k + 1) h.2⟩

/-- Two results on the same network with the same node and link flows are equal. -/
theorem calculateFlow_eq_of_flows (network : StateNetwork) (c1 c2 : Config)
    (hn : nodeFlows (calculateFlow network c1) = nodeFlows (calculateFlow network c2))
    (hl : linkFlows (calculateFlow network c1) = linkFlows (calculateFlow network c2)) :
    calculateFlow network c1 = calculateFlow network c2 := by
  rw [calculateFlow_writeBack network c1, calculateFlow_writeBack network c2] at hn hl ⊢
  unfold nodeFlows at hn
  unfold linkFlows at hl
  simp only at hn hl
  rw [writeNodes_eq_of_flows _ _ _ _ hn, writeLinks_eq_of_flows _ _ _ _ hl]

/-- Under `outdirdir` the initial flow of a node is its out-weight over the symmetrised
total weight: the target of a link is not credited. -/
theorem outdirdir_steady (network : StateNetwork) (config : Config)
    (hm : config.flowModel = FlowModel.outdirdir) (hu : config.isUndirectedFlow = false)
    (j : Nat) (hj : j < network.numNodes) :
    (preprocess network config).m_nodeFlow.getD j 0 =
      (preprocess network config).sumLinkOutWeight.getD j 0 / network.sumUndirLinkWeight := by
  rw [preprocess_nodeFlow_getD network config j hj,
    preprocess_sumLinkOutWeight_index network config hu j hj, ← sum_map_div]
  apply sum_map_congr
  intro l _
  simp only [hm, ne_eq, not_true_eq_false, false_and, and_false, if_false, add_zero]
  split <;> simp

/-- Under `outdirdir` the share of a link of a network with positive link weights is its
weight over the symmetrised total weight. -/
theorem outdirdir_steadyShare (network : StateNetwork) (config : Config)
    (hm : config.flowModel = FlowModel.outdirdir) (hu : config.isUndirectedFlow = false)
    (hwf : network.WellFormed) (hw : ∀ l ∈ network.links, 0 < l.weight) (l : StateLink)
    (hl : l ∈ network.links) :
    steadyShare network config l = l.weight / network.sumUndirLinkWeight := by
  unfold steadyShare
  rw [outdirdir_steady network config hm hu _
    (indexOf_lt network l.source (numNodes_pos_of_link network hwf l hl))]
  have h := sumLinkOutWeight_pos network config hwf hw l hl
  generalize (preprocess network config).sumLinkOutWeight.getD (network.indexOf l.source) 0 = a
    at h
  have e : a / network.sumUndirLinkWeight * l.weight / a =
      l.weight / network.sumUndirLinkWeight * (a / a) := by ring
  rw [e, div_self (ne_of_gt h), mul_one]

/-- Dividing two sums by the same symmetrised weight and then by each other. -/
theorem div_div_sumUndir (network : StateNetwork) (hw : ∀ l ∈ network.links, 0 < l.weight)
    (a : ℚ) (ha : network.links = [] → a = 0) :
    a / network.sumUndirLinkWeight / (network.sumLinkWeight / network.sumUndirLinkWeight) =
      a / network.sumLinkWeight := by
  by_cases hne : network.links = []
  · rw [ha hne]
    simp
  · have hpos := sumLinkWeight_pos network hw hne
    have hS : 0 < network.sumUndirLinkWeight :=
      sumUndirLinkWeight_pos network (fun l hl => le_of_lt (hw l hl)) hpos
    field_simp

/-- The link flows of `outdirdir` on a network with positive link weights. -/
theorem outdirdir_linkFlows (network : StateNetwork) (config : Config)
    (hm : config.flowModel = FlowModel.outdirdir) (hu : config.isUndirectedFlow = false)
    (hwf : network.WellFormed) (hw : ∀ l ∈ network.links, 0 < l.weight) :
    linkFlows (calculateFlow network config) =
      network.links.map (fun l => l.weight / network.sumLinkWeight) := by
  have hsum : (network.links.map (steadyShare network config)).sum =
      network.sumLinkWeight / network.sumUndirLinkWeight := by
    rw [StateNetwork.sumLinkWeight, ← sum_map_div]
    exact sum_map_congr _ _ _ (outdirdir_steadyShare network config hm hu hwf hw)
  unfold linkFlows
  rw [dir_links network config (Or.inr hm) hwf, List.map_map, hsum]
  apply List.map_congr_left
  intro l hl
  simp only [Function.comp_apply]
  rw [outdirdir_steadyShare network config hm hu hwf hw l hl]
  exact div_div_sumUndir network hw l.weight (fun e => by rw [e] at hl; simp at hl)

/-- The node flows of `outdirdir` on a network with positive link weights. -/
theorem outdirdir_nodeFlows (network : StateNetwork) (config : Config)
    (hm : config.flowModel = FlowModel.outdirdir) (hu : config.isUndirectedFlow = false)
    (hwf : network.WellFormed) (hw : ∀ l ∈ network.links, 0 < l.weight) :
    nodeFlows (calculateFlow network config) =
      network.nodes.map (fun nd => network.inWeight nd.id / network.sumLinkWeight) := by
  have hsum : (network.links.map (steadyShare network config)).sum =
      network.sumLinkWeight / network.sumUndirLinkWeight := by
    rw [StateNetwork.sumLinkWeight, ← sum_map_div]
    exact sum_map_congr _ _ _ (outdirdir_steadyShare network config hm hu hwf hw)
  rw [dir_nodeFlows network config (Or.inr hm) hwf, hsum]
  apply List.map_congr_left
  intro nd _
  have hin : ((network.links.filter (fun l => l.target = nd.id)).map
      (steadyShare network config)).sum = network.inWeight nd.id / network.sumUndirLinkWeight := by
    rw [StateNetwork.inWeight, ← sum_map_div]
    apply sum_map_congr
    intro l hl
    exact outdirdir_steadyShare network config hm hu hwf hw l (List.mem_of_mem_filter hl)
  rw [hin]
  exact div_div_sumUndir network hw _ (fun e => by simp [StateNetwork.inWeight, e])

/-- The node flows of `rawdir` on a network without links. -/
theorem rawdir_nodeFlows_nil (network : StateNetwork) (config : Config)
    (hm : config.flowModel = FlowModel.rawdir) (hnil : network.links = []) :
    nodeFlows (calculateFlow network config) = network.nodes.map (fun _ => 0) := by
  unfold calculateFlow
  rw [calculateFlowFull_rawdir network config hm, nodeFlows_finalize _ _ _
    (by simp [foldl_addAt_length])]
  simp [normalizeFlow, hnil, StateNetwork.numNodes]

/-- The node flows of `rawdir` on a network with positive link weights. -/
theorem rawdir_nodeFlows_pos (network : StateNetwork) (config : Config)
    (hm : config.flowModel = FlowModel.rawdir) (hwf : network.WellFormed)
    (hw : ∀ l ∈ network.links, 0 < l.weight) :
    nodeFlows (calculateFlow network config) =
      network.nodes.map (fun nd => network.inWeight nd.id / network.sumLinkWeight) := by
  by_cases hne : network.links = []
  · rw [rawdir_nodeFlows_nil network config hm hne]
    apply List.map_congr_left
    intro nd _
    simp [StateNetwork.inWeight, hne]
  · exact rawdir_nodeFlows network config hm hwf (sumLinkWeight_pos network hw hne)

/-- C17: for a network whose links all have positive weight, `outdirdir` (not an
undirected-flow model) produces the same result as `rawdir`: every link flow is
`weight/ΣW` and every node flow is `(incoming weight)/ΣW`. -/
theorem outdirdir_eq_rawdir (network : StateNetwork) (config rawConfig : Config)
    (hm : config.flowModel = FlowModel.outdirdir) (hu : config.isUndirectedFlow = false)
    (hraw : rawConfig.flowModel = FlowModel.rawdir) (hwf : network.WellFormed)
    (hw : ∀ l ∈ network.links, 0 < l.weight) :
    calculateFlow network config = calculateFlow network rawConfig ∧
      linkFlows (calculateFlow network config) =
        network.links.map (fun l => l.weight / network.sumLinkWeight) ∧
      nodeFlows (calculateFlow network config) =
        network.nodes.map (fun nd => network.inWeight nd.id / network.sumLinkWeight) := by
  have hl := outdirdir_linkFlows network config hm hu hwf hw
  have hn := outdirdir_nodeFlows network config hm hu hwf hw
  refine ⟨calculateFlow_eq_of_flows network config rawConfig ?_ ?_, hl, hn⟩
  · rw [hn, rawdir_nodeFlows_pos network rawConfig hraw hwf hw]
  · rw [hl, rawdir_linkFlows network rawConfig hraw]

/-- The hypotheses of `outdirdir_eq_rawdir` hold on the path `0→1, 1→2`, where both models
give the node flows `0, 1/2, 1/2`. -/
theorem outdirdir_eq_rawdir_witness :
    pathNetwork.WellFormed ∧ (∀ l ∈ pathNetwork.links, 0 < l.weight) ∧
      calculateFlow pathNetwork (defaultConfig FlowModel.outdirdir) =
        calculateFlow pathNetwork (defaultConfig FlowModel.rawdir) ∧
      nodeFlows (calculateFlow pathNetwork (defaultConfig FlowModel.outdirdir)) =
        [0, 1 / 2, 1 / 2] :=
  ⟨by decide, by decide!,
    (outdirdir_eq_rawdir pathNetwork (defaultConfig FlowModel.outdirdir)
      (defaultConfig FlowModel.rawdir) rfl rfl rfl (by decide) (by decide!)).1,
    by decide!⟩

end infomap

namespace infomap

/-! ## Rescaling of the link weights -/

theorem map_addAt_mul (c : ℚ) (v : List ℚ) (i : Nat) (x : ℚ) :
    addAt (v.map (fun a => c * a)) i (c * x) = (addAt v i x).map (fun a => c * a) := by
  unfold addAt
  induction v generalizing i with
  | nil => rfl
  | cons a v ih => cases i <;> simp [modifyAt, ih, mul_add]

theorem sumLinkWeight_scale (c : ℚ) (network : StateNetwork) :
    (scaleWeights c network).sumLinkWeight = c * network.sumLinkWeight := by
  unfold StateNetwork.sumLinkWeight scaleWeights
  rw [List.map_map, ← sum_map_mul_left_const]
  rfl

theorem sumSelfLinkWeight_scale (c : ℚ) (network : StateNetwork) :
    (scaleWeights c network).sumSelfLinkWeight = c * network.sumSelfLinkWeight := by
  unfold StateNetwork.sumSelfLinkWeight scaleWeights
  rw [← sum_map_ite_eq_filter, ← sum_map_ite_eq_filter, List.map_map, ← sum_map_mul_left_const]
  apply sum_map_congr
  intro l _
  simp only [Function.comp_apply]
  split <;> simp

/-- The body of the loop over the links commutes with the rescaling. -/
theorem prepStep_scale (config : Config) (m : List (Nat × Nat)) (S c : ℚ) (hc : c ≠ 0)
    (p : Prep) (l : StateLink) :
    prepStep config m (c * S) (scalePrep c p)
        (StateLink.mk l.source l.target (c * l.weight) l.flow) =
      scalePrep c (prepStep config m S p l) := by
  unfold prepStep scalePrep
  simp only [mul_div_mul_left _ _ hc, map_addAt_mul]
  split
  · cases config.isUndirectedFlow <;> simp [scaleLink, map_addAt_mul]
  · simp [scaleLink]

theorem foldl_prepStep_scale (config : Config) (m : List (Nat × Nat)) (S c : ℚ) (hc : c ≠ 0)
    (links : List StateLink) (p : Prep) :
    (links.map (fun l => StateLink.mk l.source l.target (c * l.weight) l.flow)).foldl
        (prepStep config m (c * S)) (scalePrep c p) =
      scalePrep c (links.foldl (prepStep config m S) p) := by
  induction links generalizing p with
  | nil => rfl
  | cons l links ih =>
    simp only [List.map_cons, List.foldl_cons]
    rw [prepStep_scale config m S c hc, ih]

/-- The preprocessing of the rescaled network: the same out-degrees and initial flow, the
out-weights and link weights multiplied by `c`. -/
theorem preprocess_scale (network : StateNetwork) (config : Config) (c : ℚ) (hc : c ≠ 0) :
    preprocess (scaleWeights c network) config = scalePrep c (preprocess network config) := by
  unfold preprocess
  simp only
  rw [sumLinkWeight_scale, sumSelfLinkWeight_scale,
    show 2 * (c * network.sumLinkWeight) - c * network.sumSelfLinkWeight =
      c * (2 * network.sumLinkWeight - network.sumSelfLinkWeight) by ring]
  have h := foldl_prepStep_scale config (buildNodeIndexMap network.nodes 0 [])
    (2 * network.sumLinkWeight - network.sumSelfLinkWeight) c hc network.links
    (Prep.mk (List.replicate network.numNodes 0) (List.replicate network.numNodes 0)
      (List.replicate network.numNodes 0) [])
  have e : scalePrep c (Prep.mk (List.replicate network.numNodes 0)
      (List.replicate network.numNodes 0) (List.replicate network.numNodes 0) []) =
      Prep.mk (List.replicate network.numNodes 0) (List.replicate network.numNodes 0)
      (List.replicate network.numNodes 0) [] := by
    simp [scalePrep]
  rw [e] at h
  exact h

end infomap

namespace infomap

theorem foldl_map_scale {β : Type} (c : ℚ) (f g : β → Link → β)
    (h : ∀ acc k, f acc (scaleLink c k) = g acc k) (links : List Link) (init : β) :
    (links.map (scaleLink c)).foldl f init = links.foldl g init := by
  rw [List.foldl_map]
  congr 1
  funext acc k
  exact h acc k

theorem rawdirStep_scale (c W : ℚ) (hc : c ≠ 0) (acc : List ℚ × List Link) (k : Link) :
    rawdirStep (c * W) acc (scaleLink c k) = rawdirStep W acc k := by
  simp [rawdirStep, scaleLink, mul_div_mul_left _ _ hc]

theorem dirStep_scale (c : ℚ) (hc : c ≠ 0) (steady sow v : List ℚ) (k : Link) :
    dirStep steady (sow.map (fun x => c * x)) v (scaleLink c k) = dirStep steady sow v k := by
  simp only [dirStep, scaleLink, getD_map_mul]
  rw [show steady.getD k.source 0 * (c * k.flow) = c * (steady.getD k.source 0 * k.flow) by ring,
    mul_div_mul_left _ _ hc]

theorem dirLink_scale (c : ℚ) (hc : c ≠ 0) (steady sow : List ℚ) (sum : ℚ) (k : Link) :
    dirLink steady (sow.map (fun x => c * x)) sum (scaleLink c k) = dirLink steady sow sum k := by
  simp only [dirLink, scaleLink, getD_map_mul, Link.mk.injEq, true_and]
  rw [show c * k.flow * (steady.getD k.source 0 / (c * sow.getD k.source 0) / sum) =
      c * (k.flow * steady.getD k.source 0) / (c * sow.getD k.source 0) / sum by ring,
    mul_div_mul_left _ _ hc]
  ring

theorem undirectedLink_scale (c S : ℚ) (hc : c ≠ 0) (k : Link) :
    Link.mk (scaleLink c k).source (scaleLink c k).target
        ((scaleLink c k).flow / (c * S / 2)) =
      Link.mk k.source k.target (k.flow / (S / 2)) := by
  simp only [scaleLink, Link.mk.injEq, true_and]
  rw [mul_div_assoc c S 2, mul_div_mul_left _ _ hc]

/-- The weight of a link is at most the out-weight of its source. -/
theorem weight_le_sumLinkOutWeight (network : StateNetwork) (config : Config)
    (hwf : network.WellFormed) (hw : ∀ l ∈ network.links, 0 ≤ l.weight) (l : StateLink)
    (hl : l ∈ network.links) :
    l.weight ≤ (preprocess network config).sumLinkOutWeight.getD (network.indexOf l.source) 0 := by
  have hn := numNodes_pos_of_link network hwf l hl
  rw [preprocess_sumLinkOutWeight_getD network config _ (indexOf_lt network l.source hn)]
  refine le_trans ?_ (le_sum_map_of_mem _ network.links ?_ l hl)
  · simp only [if_true]
    exact le_add_of_nonneg_right (by
      split
      · exact hw l hl
      · exact le_refl 0)
  · intro k hk
    exact add_nonneg (by split; exact hw k hk; exact le_refl 0)
      (by split; exact hw k hk; exact le_refl 0)

/-- The normalisation of a link commutes with the rescaling when the link has weight 0
wherever its source has no out-weight. -/
theorem normalizeLink_scale (c : ℚ) (hc : 0 < c) (sow : List ℚ) (k : Link)
    (h : k.flow ≤ sow.getD k.source 0) (h0 : 0 ≤ k.flow) :
    normalizeLink (sow.map (fun x => c * x)) (scaleLink c k) = normalizeLink sow k := by
  unfold normalizeLink
  have hs : (scaleLink c k).source = k.source := rfl
  rw [hs, getD_map_mul]
  by_cases hp : 0 < sow.getD k.source 0
  · rw [if_pos hp, if_pos (mul_pos hc hp)]
    simp only [scaleLink, Link.mk.injEq, true_and]
    exact mul_div_mul_left _ _ (ne_of_gt hc)
  · have hcp : ¬ 0 < c * sow.getD k.source 0 := fun hcp =>
      hp (pos_of_mul_pos_right hcp (le_of_lt hc))
    rw [if_neg hp, if_neg hcp]
    have hz : k.flow = 0 := le_antisymm (le_trans h (not_lt.mp hp)) h0
    cases k
    simp only [scaleLink, Link.mk.injEq, true_and] at hz ⊢
    rw [hz, mul_zero]

end infomap

namespace infomap

theorem directedRates_scale (network : StateNetwork) (config : Config) (c : ℚ) (hc : c ≠ 0) :
    directedRates (scaleWeights c network) config = directedRates network config := by
  unfold directedRates teleportRates
  rw [preprocess_scale _ _ _ hc, sumLinkWeight_scale]
  simp only [scalePrep]
  split
  · rfl
  · exact foldl_map_scale c _ _
      (fun acc k => by simp [scaleLink, mul_div_mul_left _ _ hc]) _ _

theorem directedLinks_scale (network : StateNetwork) (config : Config) (c : ℚ) (hc : 0 < c)
    (hwf : network.WellFormed) (hw : ∀ l ∈ network.links, 0 ≤ l.weight) :
    directedLinks (scaleWeights c network) config = directedLinks network config := by
  unfold directedLinks
  rw [preprocess_scale _ _ _ (ne_of_gt hc)]
  simp only [scalePrep]
  rw [List.map_map]
  apply List.map_congr_left
  intro k hk
  rw [preprocess_flowLinks] at hk
  obtain ⟨l, hl, rfl⟩ := List.mem_map.mp hk
  exact normalizeLink_scale c hc _ _ (weight_le_sumLinkOutWeight network config hwf hw l hl)
    (hw l hl)

theorem directedDanglings_scale (network : StateNetwork) (config : Config) (c : ℚ)
    (hc : c ≠ 0) :
    directedDanglings (scaleWeights c network) config = directedDanglings network config := by
  unfold directedDanglings
  rw [preprocess_scale _ _ _ hc]
  rfl

theorem directedInit_scale (network : StateNetwork) (config : Config) (c : ℚ) (hc : c ≠ 0) :
    directedInit (scaleWeights c network) config = directedInit network config := by
  unfold directedInit
  rw [preprocess_scale _ _ _ hc]
  rfl

theorem directedStep_scale (network : StateNetwork) (config : Config) (c : ℚ) (hc : 0 < c)
    (hwf : network.WellFormed) (hw : ∀ l ∈ network.links, 0 ≤ l.weight) :
    directedStep (scaleWeights c network) config = directedStep network config := by
  funext s
  unfold directedStep
  rw [directedRates_scale _ _ _ (ne_of_gt hc), directedLinks_scale _ _ _ hc hwf hw,
    directedDanglings_scale _ _ _ (ne_of_gt hc)]

theorem directedResult_scale (network : StateNetwork) (config : Config) (c : ℚ) (hc : 0 < c)
    (hwf : network.WellFormed) (hw : ∀ l ∈ network.links, 0 ≤ l.weight) :
    directedResult (scaleWeights c network) config = directedResult network config := by
  unfold directedResult
  rw [directedRates_scale _ _ _ (ne_of_gt hc), directedLinks_scale _ _ _ hc hwf hw,
    directedDanglings_scale _ _ _ (ne_of_gt hc), directedInit_scale _ _ _ (ne_of_gt hc)]

/-- The calculator is left in the same state by the rescaled network. -/
theorem calculateFlowFull_scale (network : StateNetwork) (config : Config) (c : ℚ)
    (hc : 0 < c) (hwf : network.WellFormed) (hw : ∀ l ∈ network.links, 0 ≤ l.weight) :
    ∃ fc b, calculateFlowFull (scaleWeights c network) config =
        finalize (scaleWeights c network) fc b ∧
      calculateFlowFull network config = finalize network fc b := by
  have hc0 : c ≠ 0 := ne_of_gt hc
  unfold calculateFlowFull
  simp only
  rw [preprocess_scale _ _ _ hc0, sumLinkWeight_scale, sumSelfLinkWeight_scale,
    directedRates_scale _ _ _ hc0, directedLinks_scale _ _ _ hc hwf hw,
    directedResult_scale _ _ _ hc hwf hw]
  have hn : (scaleWeights c network).numNodes = network.numNodes := rfl
  rw [hn]
  simp only [scalePrep]
  split
  · refine ⟨_, _, ?_, rfl⟩
    rw [foldl_map_scale c _ _ (rawdirStep_scale c network.sumLinkWeight hc0)]
  · split
    · split
      · refine ⟨_, _, ?_, rfl⟩
        rw [foldl_map_scale c _ _ (dirStep_scale c hc0 _ _), List.map_map]
        congr 2
        apply List.map_congr_left
        intro k _
        exact dirLink_scale c hc0 _ _ _ k
      · refine ⟨_, _, ?_, rfl⟩
        rw [List.map_map]
        congr 2
        apply List.map_congr_left
        intro k _
        rw [show 2 * (c * network.sumLinkWeight) - c * network.sumSelfLinkWeight =
          c * (2 * network.sumLinkWeight - network.sumSelfLinkWeight) by ring]
        exact undirectedLink_scale c _ hc0 k
    · exact ⟨_, _, rfl, rfl⟩

end infomap

namespace infomap

/-- The flows written to the links do not depend on the links written to. -/
theorem writeLinks_flow_scale (c : ℚ) (links : List StateLink) (k : Nat) (fl : List Link) :
    (writeLinks (links.map (fun l => StateLink.mk l.source l.target (c * l.weight) l.flow))
        k fl).map (fun l => l.flow) =
      (writeLinks links k fl).map (fun l => l.flow) := by
  induction links generalizing k with
  | nil => rfl
  | cons l rest ih => simp [writeLinks, ih]

/-- C18: for `c > 0`, a well-formed network with non-negative link weights, every flow
model and every configuration, multiplying all link weights by `c` (so that `ΣW` and
`ΣW_self` are multiplied by `c`) gives the same node flows and the same link flows, and the
PageRank loop ends in the same state, after the same number of iterations and
perturbations. -/
theorem scale_invariance (network : StateNetwork) (config : Config) (c : ℚ) (hc : 0 < c)
    (hwf : network.WellFormed) (hw : ∀ l ∈ network.links, 0 ≤ l.weight) :
    (scaleWeights c network).sumLinkWeight = c * network.sumLinkWeight ∧
      (scaleWeights c network).sumSelfLinkWeight = c * network.sumSelfLinkWeight ∧
      nodeFlows (calculateFlow (scaleWeights c network) config) =
        nodeFlows (calculateFlow network config) ∧
      linkFlows (calculateFlow (scaleWeights c network) config) =
        linkFlows (calculateFlow network config) ∧
      directedResult (scaleWeights c network) config = directedResult network config ∧
      (directedResult (scaleWeights c network) config).numIterations =
        (directedResult network config).numIterations ∧
      perturbCount (directedStep (scaleWeights c network) config)
          (directedInit (scaleWeights c network) config)
          (directedResult (scaleWeights c network) config).numIterations =
        perturbCount (directedStep network config) (directedInit network config)
          (directedResult network config).numIterations := by
  obtain ⟨fc, b, h1, h2⟩ := calculateFlowFull_scale network config c hc hwf hw
  have hres := directedResult_scale network config c hc hwf hw
  refine ⟨sumLinkWeight_scale c network, sumSelfLinkWeight_scale c network, ?_, ?_, hres,
    by rw [hres], ?_⟩
  · unfold calculateFlow
    rw [h1, h2]
    rfl
  · unfold calculateFlow
    rw [h1, h2]
    exact writeLinks_flow_scale c network.links 0 fc.m_flowLinks
  · rw [hres, directedStep_scale network config c hc hwf hw,
      directedInit_scale network config c (ne_of_gt hc)]

/-- The hypotheses of `scale_invariance` hold on the pair `0→1` with node weights 19 and 1,
with `c = 3`, under the directed model. -/
theorem scale_invariance_witness :
    weightedPair.WellFormed ∧ (∀ l ∈ weightedPair.links, 0 ≤ l.weight) ∧
      (scaleWeights 3 weightedPair).sumLinkWeight = 3 ∧
      nodeFlows (calculateFlow (scaleWeights 3 weightedPair) (defaultConfig FlowModel.directed)) =
        nodeFlows (calculateFlow weightedPair (defaultConfig FlowModel.directed)) :=
  ⟨by decide, by decide!, by decide!,
    (scale_invariance weightedPair (defaultConfig FlowModel.directed) 3 (by norm_num)
      (by decide) (by decide!)).2.2.1⟩

end infomap

namespace infomap

/-! ## The hook of the memory variant -/

/-- C19: `GrassbergerMapEquation::addMemoryContributions` is a no-op: for every node, every
`oldModuleDelta` and every `moduleDeltaFlow` buffer, the two delta-flow arguments, the node
and the terms of the map equation are the same after the call as before it. -/
theorem addMemoryContributions_noop {InfoNode DeltaFlow : Type} {VectorMap : Type → Type}
    (mapEquation : GrassbergerMapEquation) (current : InfoNode) (oldModuleDelta : DeltaFlow)
    (moduleDeltaFlow : VectorMap DeltaFlow) :
    (mapEquation.addMemoryContributions current oldModuleDelta moduleDeltaFlow).oldModuleDelta =
        oldModuleDelta ∧
      (mapEquation.addMemoryContributions current oldModuleDelta
        moduleDeltaFlow).moduleDeltaFlow = moduleDeltaFlow ∧
      (mapEquation.addMemoryContributions current oldModuleDelta
        moduleDeltaFlow).mapEquation = mapEquation ∧
      (mapEquation.addMemoryContributions current oldModuleDelta
        moduleDeltaFlow).current = current :=
  ⟨rfl, rfl, rfl, rfl⟩

/-! ## The dense index table and the write-back -/

/-- The nodes written back, when `f` numbers the nodes in iteration order from `k`. -/
theorem writeNodes_map (nodes : List StateNode) (k : Nat) (nf : List ℚ) (f : StateNode → Nat)
    (h : ∀ i (hi : i < nodes.length), f (nodes[i]) = k + i) :
    writeNodes nodes k nf =
      nodes.map (fun nd => StateNode.mk nd.id nd.weight (nf.getD (f nd) 0)) := by
  induction nodes generalizing k with
  | nil => rfl
  | cons nd rest ih =>
    simp only [writeNodes, List.map_cons, List.cons.injEq]
    constructor
    · have h0 := h 0 (by simp)
      simp only [List.getElem_cons_zero, add_zero] at h0
      rw [h0]
    · apply ih (k + 1)
      intro i hi
      have h1 := h (i + 1) (by simpa using hi)
      simp only [List.getElem_cons_succ] at h1
      omega

/-- The links written back: link `k` receives the flow of `m_flowLinks[k]`. -/
theorem writeLinks_zipWith (links : List StateLink) (k : Nat) (fl : List Link)
    (h : fl.length = k + links.length) :
    writeLinks links k fl =
      List.zipWith (fun l x => StateLink.mk l.source l.target l.weight x.flow) links
        (fl.drop k) := by
  induction links generalizing k with
  | nil => rfl
  | cons l rest ih =>
    have hk : k < fl.length := by simp at h; omega
    rw [List.drop_eq_getElem_cons hk]
    simp only [writeLinks, List.zipWith_cons_cons, List.cons.injEq]
    constructor
    · rw [List.getD_eq_getElem _ _ (by simpa using hk)]
      simp
    · exact ih (k + 1) (by simp at h; omega)

/-- On every path the final `m_flowLinks` keep the ends given to them at line 78: the dense
indices of the ends of the links of the network. -/
theorem flowLinks_ends (network : StateNetwork) (config : Config) :
    (calculateFlowFull network config).1.m_flowLinks.map (fun k => (k.source, k.target)) =
      network.links.map (fun l => (network.indexOf l.source, network.indexOf l.target)) := by
  cases hm : config.flowModel with
  | undirected =>
    rw [calculateFlowFull_undirected network config hm]
    simp [finalize, StateNetwork.toLink, Function.comp_def]
  | undirdir =>
    rw [calculateFlowFull_dir network config (Or.inl hm)]
    simp [finalize, StateNetwork.toLink, Function.comp_def, dirLink]
  | directed =>
    rw [calculateFlowFull_directed network config hm, directedLinks_map]
    cases hr : config.recordedTeleportation <;>
      simp [finalize, afterPageRank, hr, StateNetwork.toLink, Function.comp_def,
        normalizeLink_source, normalizeLink_target]
  | rawdir =>
    rw [calculateFlowFull_rawdir network config hm]
    simp [finalize, StateNetwork.toLink, Function.comp_def]
  | outdirdir =>
    rw [calculateFlowFull_dir network config (Or.inr hm)]
    simp [finalize, StateNetwork.toLink, Function.comp_def, dirLink]

theorem flowLinks_length (network : StateNetwork) (config : Config) :
    (calculateFlowFull network config).1.m_flowLinks.length = network.links.length := by
  have h := congrArg List.length (flowLinks_ends network config)
  simpa using h

/-- C20: for a network with distinct node ids whose links name existing nodes, the dense
index table maps the id of the `i`-th node to `i`, injectively and below `N`; `finalize`
gives the node with dense index `i` the flow `m_nodeFlow[i]` and the `k`-th link the flow of
the `k`-th `Link`, whose source and target are the dense indices of the ends of that
link. -/
theorem index_writeBack (network : StateNetwork) (config : Config)
    (hwf : network.WellFormed) :
    (∀ i (hi : i < network.nodes.length), network.indexOf (network.nodes[i]).id = i) ∧
      (∀ a ∈ network.ids, ∀ b ∈ network.ids, network.indexOf a = network.indexOf b → a = b) ∧
      (∀ a ∈ network.ids, network.indexOf a < network.numNodes) ∧
      (calculateFlow network config).nodes =
        network.nodes.map (fun nd => StateNode.mk nd.id nd.weight
          ((calculateFlowFull network config).1.m_nodeFlow.getD (network.indexOf nd.id) 0)) ∧
      (calculateFlowFull network config).1.m_flowLinks.length = network.links.length ∧
      (calculateFlowFull network config).1.m_flowLinks.map (fun k => (k.source, k.target)) =
        network.links.map (fun l => (network.indexOf l.source, network.indexOf l.target)) ∧
      (calculateFlow network config).links =
        List.zipWith (fun l x => StateLink.mk l.source l.target l.weight x.flow)
          network.links (calculateFlowFull network config).1.m_flowLinks := by
  refine ⟨indexOf_getElem network hwf.1, ?_, ?_, ?_, flowLinks_length network config,
    flowLinks_ends network config, ?_⟩
  · intro a ha b hb e
    exact (indexOf_inj network hwf.1 a b ha hb).mp e
  · intro a ha
    apply indexOf_lt
    unfold StateNetwork.ids at ha
    obtain ⟨nd, hnd, _⟩ := List.mem_map.mp ha
    exact List.length_pos_of_mem hnd
  · rw [calculateFlow_writeBack]
    simp only
    exact writeNodes_map network.nodes 0 _ (fun nd => network.indexOf nd.id)
      (fun i hi => by
        show network.indexOf (network.nodes[i]).id = 0 + i
        rw [indexOf_getElem network hwf.1 i hi, zero_add])
  · rw [calculateFlow_writeBack]
    simp only
    rw [writeLinks_zipWith _ _ _ (by rw [flowLinks_length]; omega)]
    rfl

/-- The hypothesis of `index_writeBack` holds on the network with the node ids 5 and 7 in
this order and the link `7→5`, where the ids get the dense indices 0 and 1. -/
theorem index_writeBack_witness :
    sparseIds.WellFormed ∧ sparseIds.indexOf 5 = 0 ∧ sparseIds.indexOf 7 = 1 ∧
      (calculateFlowFull sparseIds (defaultConfig FlowModel.rawdir)).1.m_flowLinks.map
          (fun k => (k.source, k.target)) =
        sparseIds.links.map (fun l => (sparseIds.indexOf l.source, sparseIds.indexOf l.target)) :=
  ⟨by decide, by decide, by decide,
    (index_writeBack sparseIds (defaultConfig FlowModel.rawdir) (by decide)).2.2.2.2.2.1⟩

end infomap
